import Mathlib

/-!  Verification of the forwarding/policy engine of an LLM API gateway.

The Python source under `app/` is shallowly embedded: pure fragments become
Lean functions, stateful methods become explicit state transformers, the
wall clock becomes an explicit rational-number argument, and the event loop
(`asyncio.sleep`, concurrent callers) becomes explicit time passing plus an
injection function describing what other tasks do to shared state while the
current task sleeps.  Floating-point timestamps are modelled as exact
rationals; Python integers as `Nat`/`Int`.
-/

namespace ApiFirewall

/-! ## Request rate limiter (`app/security.py`, class `RateLimiter`)

State is the `self.requests` list of admission timestamps; `self.limit` and
the clock are passed explicitly. -/

/-- `self.window_size = 60` seconds (both limiter classes). -/
def window_size : ℚ := 60

/-- `RateLimiter.check_rate_limit`, as a pure transformer of the
`self.requests` timestamp list.  Returns the method's boolean result
together with the list the object holds afterwards. -/
def check_rate_limit (limit : ℕ) (current_time : ℚ) (requests : List ℚ) :
    Bool × List ℚ :=
  -- self.requests = [t for t in self.requests if current_time - t < self.window_size]
  let purged := requests.filter (fun t => decide (current_time - t < window_size))
  -- if len(self.requests) >= self.limit: return False
  if limit ≤ purged.length then (false, purged)
  -- self.requests.append(current_time); return True
  else (true, purged ++ [current_time])

/-- A sequence of `check_rate_limit` calls at the given times, starting from
the given `self.requests` state.  Returns the list of `(call time, result)`
pairs and the final state. -/
def run_rate_limiter (limit : ℕ) : List ℚ → List ℚ → List (ℚ × Bool) × List ℚ
  | [], st => ([], st)
  | t :: ts, st =>
    let r := check_rate_limit limit t st
    let rest := run_rate_limiter limit ts r.2
    ((t, r.1) :: rest.1, rest.2)

/-- The timestamps of the admitted calls of a run. -/
def admitted_times (results : List (ℚ × Bool)) : List ℚ :=
  (results.filter (fun p => p.2)).map (fun p => p.1)

lemma check_rate_limit_false_state (limit : ℕ) (t : ℚ) (st : List ℚ) :
    (check_rate_limit limit t st).1 = false →
      (check_rate_limit limit t st).2 =
        st.filter (fun s => decide (t - s < window_size)) := by
  unfold check_rate_limit
  dsimp only
  split <;> simp

lemma check_rate_limit_length (limit : ℕ) (t : ℚ) (st : List ℚ)
    (h : st.length ≤ limit) : (check_rate_limit limit t st).2.length ≤ limit := by
  unfold check_rate_limit
  dsimp only
  split
  · exact le_trans (st.length_filter_le _) h
  · rename_i hlt
    push_neg at hlt
    simpa using hlt

lemma run_rate_limiter_length (limit : ℕ) (ts : List ℚ) (st : List ℚ)
    (h : st.length ≤ limit) :
    (run_rate_limiter limit ts st).2.length ≤ limit := by
  induction ts generalizing st with
  | nil => simpa [run_rate_limiter] using h
  | cons t ts ih =>
    simp only [run_rate_limiter]
    exact ih _ (check_rate_limit_length limit t st h)

lemma run_rate_limiter_append (limit : ℕ) (u v : List ℚ) (st : List ℚ) :
    run_rate_limiter limit (u ++ v) st =
      ((run_rate_limiter limit u st).1 ++
          (run_rate_limiter limit v (run_rate_limiter limit u st).2).1,
        (run_rate_limiter limit v (run_rate_limiter limit u st).2).2) := by
  induction u generalizing st with
  | nil => simp [run_rate_limiter]
  | cons t u ih => simp [run_rate_limiter, ih]

lemma run_rate_limiter_times (limit : ℕ) (ts : List ℚ) (st : List ℚ) :
    (run_rate_limiter limit ts st).1.map (fun p => p.1) = ts := by
  induction ts generalizing st with
  | nil => simp [run_rate_limiter]
  | cons t ts ih => simp [run_rate_limiter, ih]

lemma admitted_times_cons (t : ℚ) (b : Bool) (l : List (ℚ × Bool)) :
    admitted_times ((t, b) :: l) = (if b then [t] else []) ++ admitted_times l := by
  cases b <;> simp [admitted_times]

lemma run_rate_limiter_cons (limit : ℕ) (t : ℚ) (ts : List ℚ) (st : List ℚ) :
    run_rate_limiter limit (t :: ts) st =
      ((t, (check_rate_limit limit t st).1) ::
          (run_rate_limiter limit ts (check_rate_limit limit t st).2).1,
        (run_rate_limiter limit ts (check_rate_limit limit t st).2).2) := rfl

/-- A purge at an earlier time is subsumed by a purge at a later time. -/
lemma filter_window_absorb (a b : ℚ) (hab : a ≤ b) (l : List ℚ) :
    (l.filter (fun s => decide (a - s < window_size))).filter
        (fun s => decide (b - s < window_size)) =
      l.filter (fun s => decide (b - s < window_size)) := by
  rw [List.filter_filter]
  apply List.filter_congr
  intro x _
  by_cases hx : b - x < window_size
  · have hax : a - x < window_size := lt_of_le_of_lt (by linarith) hx
    simp [hx, hax]
  · simp [hx]

/-- After a nonempty monotone run, the limiter's state is exactly the initial
samples plus the admitted call times, filtered to the trailing window of the
last call time: every purge before the last one is subsumed by the last. -/
lemma run_rate_limiter_state_spec (limit : ℕ) :
    ∀ (ts : List ℚ) (hne : ts ≠ []) (st : List ℚ),
      List.Sorted (· ≤ ·) ts →
      (run_rate_limiter limit ts st).2 =
        (st ++ admitted_times (run_rate_limiter limit ts st).1).filter
          (fun s => decide (ts.getLast hne - s < window_size)) := by
  intro ts
  induction ts with
  | nil => intro hne; exact absurd rfl hne
  | cons t ts ih =>
    intro hne st hsort
    rcases List.sorted_cons.mp hsort with ⟨hrel, hsort'⟩
    cases ts with
    | nil =>
      rw [run_rate_limiter_cons]
      dsimp only
      simp only [run_rate_limiter, List.getLast_singleton, admitted_times_cons,
        admitted_times, List.filter_nil, List.map_nil, List.append_nil]
      by_cases hc : limit ≤ (st.filter (fun s => decide (t - s < window_size))).length
      · have hck : check_rate_limit limit t st =
            (false, st.filter (fun s => decide (t - s < window_size))) := by
          simp [check_rate_limit, hc]
        rw [hck]
        simp
      · have hck : check_rate_limit limit t st =
            (true, st.filter (fun s => decide (t - s < window_size)) ++ [t]) := by
          simp [check_rate_limit, hc]
        rw [hck]
        have h60 : (0 : ℚ) < window_size := by norm_num [window_size]
        simp [List.filter_append, List.filter_singleton, h60]
    | cons t' ts' =>
      have hne' : (t' :: ts') ≠ [] := by simp
      have hlast : (t :: t' :: ts').getLast hne = (t' :: ts').getLast hne' := by
        simp [List.getLast_cons]
      have htle : t ≤ (t' :: ts').getLast hne' :=
        hrel _ (List.getLast_mem hne')
      rw [run_rate_limiter_cons]
      dsimp only
      rw [ih hne' (check_rate_limit limit t st).2 hsort', hlast, admitted_times_cons]
      by_cases hc : limit ≤ (st.filter (fun s => decide (t - s < window_size))).length
      · have hck : check_rate_limit limit t st =
            (false, st.filter (fun s => decide (t - s < window_size))) := by
          simp [check_rate_limit, hc]
        rw [hck]
        simp [List.filter_append, filter_window_absorb t _ htle st]
      · have hck : check_rate_limit limit t st =
            (true, st.filter (fun s => decide (t - s < window_size)) ++ [t]) := by
          simp [check_rate_limit, hc]
        rw [hck]
        simp [List.filter_append, filter_window_absorb t _ htle st]

/-- Monotone lists: everything left over by `dropWhile (· ≤ T)` is `> T`. -/
lemma sorted_dropWhile_gt (T : ℚ) :
    ∀ ts : List ℚ, List.Sorted (· ≤ ·) ts →
      ∀ x ∈ ts.dropWhile (fun t => decide (t ≤ T)), T < x := by
  intro ts
  induction ts with
  | nil => intro _ x hx; simp [List.dropWhile] at hx
  | cons t ts ih =>
    intro hsort x hx
    rcases List.sorted_cons.mp hsort with ⟨hrel, hsort'⟩
    rw [List.dropWhile_cons] at hx
    split at hx
    · exact ih hsort' x hx
    · rename_i hnot
      simp only [decide_eq_true_eq] at hnot
      rcases List.mem_cons.mp hx with rfl | hmem
      · exact lt_of_not_le hnot
      · exact lt_of_lt_of_le (lt_of_not_le hnot) (hrel _ hmem)

/-- C9, part (a): among any monotone sequence of calls started on a fresh
limiter, at most `limit` calls inside any trailing 60-second window
`(T - 60, T]` return `true`. -/
lemma run_rate_limiter_window_bound (limit : ℕ) (ts : List ℚ) (T : ℚ)
    (hsort : List.Sorted (· ≤ ·) ts) :
    ((run_rate_limiter limit ts []).1.filter
        (fun p => p.2 && decide (T - p.1 < window_size) && decide (p.1 ≤ T))).length
      ≤ limit := by
  classical
  set u := ts.takeWhile (fun t => decide (t ≤ T)) with hu
  set v := ts.dropWhile (fun t => decide (t ≤ T)) with hv
  have hsplit : ts = u ++ v := (List.takeWhile_append_dropWhile ..).symm
  have husort : List.Sorted (· ≤ ·) u :=
    hsort.sublist (hsplit ▸ List.sublist_append_left u v)
  have hvsort : List.Sorted (· ≤ ·) v :=
    hsort.sublist (hsplit ▸ List.sublist_append_right u v)
  rw [hsplit, run_rate_limiter_append]
  rw [List.filter_append, List.length_append]
  -- the `v` part contributes nothing: all its call times are `> T`
  have hvzero :
      ((run_rate_limiter limit v (run_rate_limiter limit u []).2).1.filter
        (fun p => p.2 && decide (T - p.1 < window_size) && decide (p.1 ≤ T))).length = 0 := by
    rw [List.length_eq_zero, List.filter_eq_nil_iff]
    intro p hp
    have hmem : p.1 ∈ v := by
      have := run_rate_limiter_times limit v (run_rate_limiter limit u []).2
      rw [← this]
      exact List.mem_map_of_mem _ hp
    have : T < p.1 := sorted_dropWhile_gt T ts hsort p.1 (hv ▸ hmem)
    simp [not_le.mpr this]
  rw [hvzero, Nat.add_zero]
  -- the `u` part: its admitted-in-window times live in the final state,
  -- whose length is at most `limit`
  rcases eq_or_ne u [] with hu0 | hune
  · rw [hu0]; simp [run_rate_limiter]
  have hstate := run_rate_limiter_state_spec limit u hune [] husort
  have hlen : (run_rate_limiter limit u []).2.length ≤ limit :=
    run_rate_limiter_length limit u [] (by simp)
  rw [hstate] at hlen
  simp only [List.nil_append] at hlen
  set A := admitted_times (run_rate_limiter limit u []).1 with hA
  have hLu : u.getLast hune ≤ T := by
    have hmem : u.getLast hune ∈ ts.takeWhile (fun t => decide (t ≤ T)) := by
      rw [← hu]; exact List.getLast_mem hune
    have := List.mem_takeWhile_imp hmem
    simpa using this
  -- the filtered result list has the same length as the matching filter of A
  have hproj :
      ((run_rate_limiter limit u []).1.filter
          (fun p => p.2 && decide (T - p.1 < window_size) && decide (p.1 ≤ T))).length
        = (A.filter (fun s => decide (T - s < window_size) && decide (s ≤ T))).length := by
    rw [hA]
    unfold admitted_times
    rw [List.filter_map, List.length_map, List.filter_filter]
    congr 1
    apply List.filter_congr
    intro p _
    by_cases h2 : p.2 <;> simp [h2, Bool.and_comm, Bool.and_assoc]
  rw [hproj]
  refine le_trans ?_ hlen
  have hsub : List.Sublist
      (A.filter (fun s => decide (T - s < window_size) && decide (s ≤ T)))
      (A.filter (fun s => decide (u.getLast hune - s < window_size))) := by
    apply List.monotone_filter_right
    intro a ha
    simp only [Bool.and_eq_true, decide_eq_true_eq] at ha
    have : u.getLast hune - a < window_size := lt_of_le_of_lt (by linarith [hLu]) ha.1
    simpa using this
  exact hsub.length_le

/-- C9: along any monotone sequence of `RateLimiter.check_rate_limit` calls
started on a fresh limiter, (a) at most `limit` calls whose times lie in any
trailing 60-second window `(T - 60, T]` return `true`; (b) a rejected call
returns `false` leaving only the purged window, without appending a sample;
(c) a call returns `true` exactly when fewer than `limit` samples remain in
the current 60-second window, so rejections continue until a sample ages
out. -/
theorem C9_request_rate_limiter (limit : ℕ) (ts : List ℚ) (T : ℚ)
    (hsort : List.Sorted (· ≤ ·) ts) (now : ℚ) (st : List ℚ) :
    ((run_rate_limiter limit ts []).1.filter
        (fun p => p.2 && decide (T - p.1 < window_size) && decide (p.1 ≤ T))).length
        ≤ limit
    ∧ ((check_rate_limit limit now st).1 = false →
        (check_rate_limit limit now st).2 =
          st.filter (fun s => decide (now - s < window_size)))
    ∧ ((check_rate_limit limit now st).1 = true ↔
        (st.filter (fun s => decide (now - s < window_size))).length < limit) := by
  refine ⟨run_rate_limiter_window_bound limit ts T hsort,
    check_rate_limit_false_state limit now st, ?_⟩
  unfold check_rate_limit
  dsimp only
  split
  · rename_i h
    simp [not_lt.mpr h]
  · rename_i h
    simp [lt_of_not_le h]

/-- Witness for C9 at a concrete monotone trace. -/
theorem C9_request_rate_limiter_witness :
    List.Sorted (· ≤ ·) [(0 : ℚ), 1, 2]
    ∧ (((run_rate_limiter 2 [(0 : ℚ), 1, 2] []).1.filter
        (fun p => p.2 && decide ((2 : ℚ) - p.1 < window_size) && decide (p.1 ≤ (2 : ℚ)))).length
        ≤ 2
      ∧ ((check_rate_limit 2 (5 : ℚ) [(0 : ℚ)]).1 = false →
          (check_rate_limit 2 (5 : ℚ) [(0 : ℚ)]).2 =
            [(0 : ℚ)].filter (fun s => decide ((5 : ℚ) - s < window_size)))
      ∧ ((check_rate_limit 2 (5 : ℚ) [(0 : ℚ)]).1 = true ↔
          ([(0 : ℚ)].filter (fun s => decide ((5 : ℚ) - s < window_size))).length < 2)) :=
  ⟨by decide, C9_request_rate_limiter 2 [(0 : ℚ), 1, 2] 2 (by decide) 5 [(0 : ℚ)]⟩

/-! ## Security filter (`app/security.py`, class `SecurityFilter`)

`Settings.filters` becomes `FilterConfig`; the stdlib regex primitive
`re.search(pattern, text, re.IGNORECASE)` is abstracted as a parameter
`research`, and the request-rate limiter consultation (whose own semantics
is `check_rate_limit` above) as the boolean `rate_ok`.  Rejections
(`raise HTTPException(status_code, detail)`) become `Except` errors. -/

/-- Python `needle in hay` on strings, over character lists. -/
def has_infix (needle : List Char) : List Char → Bool
  | [] => needle.isEmpty
  | c :: rest => needle.isPrefixOf (c :: rest) || has_infix needle rest

/-- Python `needle in hay` on strings. -/
def str_contains (hay needle : String) : Bool := has_infix needle.toList hay.toList

/-- `Settings.filters` (`app/config.py`, class `FilterConfig`). -/
structure FilterConfig where
  enabled : Bool
  max_tokens : ℕ
  allowed_models : List String
  blocked_prompts : List String

/-- One entry of a multimodal `content` list: a `{"type": "text", ...}` item
or anything else. -/
inductive ContentItem where
  | text (s : String)
  | nontext
deriving DecidableEq

/-- A chat message's `content` value: string, content-item list, or any
other JSON value. -/
inductive MsgContent where
  | str (s : String)
  | items (l : List ContentItem)
  | other
deriving DecidableEq

/-- A chat message; `message.get("content", "")` makes an absent field the
empty string, so callers encode absence as `.str ""`. -/
structure Message where
  content : MsgContent
deriving DecidableEq

/-- The JSON body fields the security filter reads (assumed well-typed;
`none` encodes an absent key). -/
structure RequestBody where
  model : Option String
  max_tokens : Option ℕ
  messages : List Message
  prompt : Option String
  system : Option String

/-- `SecurityFilter._contains_blocked_content`: first regex hit wins. -/
def contains_blocked_content (research : String → String → Bool)
    (cfg : FilterConfig) (text : String) : Bool :=
  cfg.blocked_prompts.any (fun p => research p text)

/-- The message scan shared by `_validate_openai_chat_completion` and
`_validate_anthropic_message`: string content is scanned directly, list
content item-wise for `"type": "text"` items with non-empty text. -/
def messages_blocked (research : String → String → Bool) (cfg : FilterConfig)
    (msgs : List Message) : Bool :=
  msgs.any fun m =>
    match m.content with
    | .str s => contains_blocked_content research cfg s
    | .items l => l.any fun it =>
        match it with
        | .text t => t ≠ "" && contains_blocked_content research cfg t
        | .nontext => false
    | .other => false

/-- `_validate_openai_chat_completion` after its leading model check:
the `max_tokens` ceiling, then the blocked-content scan. -/
def validate_chat_after_model (research : String → String → Bool)
    (cfg : FilterConfig) (body : RequestBody) : Except (ℕ × String) Bool :=
  let max_tokens := body.max_tokens.getD 0
  if max_tokens ≠ 0 && decide (cfg.max_tokens < max_tokens) then
    .error (403, "Max tokens " ++ toString max_tokens ++ " exceeds limit of "
      ++ toString cfg.max_tokens)
  else if messages_blocked research cfg body.messages then
    .error (403, "The prompt contains prohibited content")
  else .ok true

/-- `SecurityFilter._validate_openai_chat_completion`. -/
def validate_openai_chat_completion (research : String → String → Bool)
    (cfg : FilterConfig) (body : RequestBody) : Except (ℕ × String) Bool :=
  let model := body.model.getD ""
  if model ≠ "" && !(cfg.allowed_models.contains model) then
    .error (403, "Model " ++ model ++ " is not allowed")
  else validate_chat_after_model research cfg body

/-- `SecurityFilter._validate_openai_completion`. -/
def validate_openai_completion (research : String → String → Bool)
    (cfg : FilterConfig) (body : RequestBody) : Except (ℕ × String) Bool :=
  let model := body.model.getD ""
  if model ≠ "" && !(cfg.allowed_models.contains model) then
    .error (403, "Model " ++ model ++ " is not allowed")
  else
    let max_tokens := body.max_tokens.getD 0
    if max_tokens ≠ 0 && decide (cfg.max_tokens < max_tokens) then
      .error (403, "Max tokens " ++ toString max_tokens ++ " exceeds limit of "
        ++ toString cfg.max_tokens)
    else
      let prompt := body.prompt.getD ""
      if prompt ≠ "" && contains_blocked_content research cfg prompt then
        .error (403, "The prompt contains prohibited content")
      else .ok true

/-- `SecurityFilter._validate_openai_embedding`. -/
def validate_openai_embedding (research : String → String → Bool)
    (cfg : FilterConfig) (body : RequestBody) : Except (ℕ × String) Bool :=
  let model := body.model.getD ""
  if model ≠ "" && !(cfg.allowed_models.contains model) then
    .error (403, "Model " ++ model ++ " is not allowed")
  else .ok true

/-- `SecurityFilter._validate_anthropic_message`. -/
def validate_anthropic_message (research : String → String → Bool)
    (cfg : FilterConfig) (body : RequestBody) : Except (ℕ × String) Bool :=
  let model := body.model.getD ""
  if model ≠ "" && !(cfg.allowed_models.contains model) then
    .error (403, "Model " ++ model ++ " is not allowed")
  else
    let max_tokens := body.max_tokens.getD 0
    if max_tokens ≠ 0 && decide (cfg.max_tokens < max_tokens) then
      .error (403, "Max tokens " ++ toString max_tokens ++ " exceeds limit of "
        ++ toString cfg.max_tokens)
    else if messages_blocked research cfg body.messages then
      .error (403, "The prompt contains prohibited content")
    else
      let system := body.system.getD ""
      if system ≠ "" && contains_blocked_content research cfg system then
        .error (403, "The system prompt contains prohibited content")
      else .ok true

/-- `SecurityFilter.validate_request`: path-substring dispatch over the
endpoint validators, after the enabled flag and the request-rate limiter. -/
def validate_request (research : String → String → Bool) (cfg : FilterConfig)
    (rate_ok : Bool) (body : RequestBody) (path : String) :
    Except (ℕ × String) Bool :=
  if !cfg.enabled then .ok true
  else if !rate_ok then .error (429, "Rate limit exceeded")
  else if str_contains path "chat/completions" then
    validate_openai_chat_completion research cfg body
  else if str_contains path "completions" && !(str_contains path "chat") then
    validate_openai_completion research cfg body
  else if str_contains path "embeddings" then
    validate_openai_embedding research cfg body
  else if str_contains path "messages" then
    validate_anthropic_message research cfg body
  else .ok true

/-- C5: with the policy enabled and the request-rate limit not exceeded, on
a `chat/completions` path a body whose non-empty `model` is outside
`allowed_models` is rejected 403 with message "Model <name> is not allowed"
regardless of every other field, and a body with no `model` field is handled
entirely by the post-model checks, so the model check never rejects it. -/
theorem C5_security_filter_model_allowlist (research : String → String → Bool)
    (cfg : FilterConfig) (body : RequestBody) (path : String) (mdl : String)
    (hen : cfg.enabled = true)
    (hpath : str_contains path "chat/completions" = true) :
    (body.model = some mdl → mdl ≠ "" → cfg.allowed_models.contains mdl = false →
        validate_request research cfg true body path =
          .error (403, "Model " ++ mdl ++ " is not allowed"))
    ∧ (body.model = none →
        validate_request research cfg true body path =
          validate_chat_after_model research cfg body) := by
  constructor
  · intro hm hne hnotin
    unfold validate_request
    rw [hen, hpath]
    unfold validate_openai_chat_completion
    rw [hm]
    have hnot : mdl ∉ cfg.allowed_models := by simpa using hnotin
    simp [hne, hnot]
  · intro hm
    unfold validate_request
    rw [hen, hpath]
    unfold validate_openai_chat_completion
    rw [hm]
    simp

/-- Witness for C5: the spec scenario, policy
`{allowed_models: ["gpt-3.5-turbo"], max_tokens: 100}` and request
`{model: "gpt-4"}` on `v1/chat/completions`. -/
theorem C5_security_filter_model_allowlist_witness :
    (⟨true, 100, ["gpt-3.5-turbo"], []⟩ : FilterConfig).enabled = true
    ∧ str_contains "v1/chat/completions" "chat/completions" = true
    ∧ validate_request (fun _ _ => false) ⟨true, 100, ["gpt-3.5-turbo"], []⟩ true
        ⟨some "gpt-4", none, [], none, none⟩ "v1/chat/completions" =
        .error (403, "Model gpt-4 is not allowed")
    ∧ validate_request (fun _ _ => false) ⟨true, 100, ["gpt-3.5-turbo"], []⟩ true
        ⟨none, none, [], none, none⟩ "v1/chat/completions" =
        validate_chat_after_model (fun _ _ => false) ⟨true, 100, ["gpt-3.5-turbo"], []⟩
          ⟨none, none, [], none, none⟩ := by
  refine ⟨rfl, by decide, ?_, ?_⟩
  · exact (C5_security_filter_model_allowlist (fun _ _ => false)
      ⟨true, 100, ["gpt-3.5-turbo"], []⟩ ⟨some "gpt-4", none, [], none, none⟩
      "v1/chat/completions" "gpt-4" rfl (by decide)).1 rfl (by decide) (by decide)
  · exact (C5_security_filter_model_allowlist (fun _ _ => false)
      ⟨true, 100, ["gpt-3.5-turbo"], []⟩ ⟨none, none, [], none, none⟩
      "v1/chat/completions" "gpt-4" rfl (by decide)).2 rfl

/-! ## Retry controller (`app/proxy.py`, `OpenAIProxy._handle_rate_limit_retry`)

One upstream attempt per loop iteration of `while retries < self.max_retries`.
The upstream is a function from the attempt index (the `retries` counter at
the moment of the attempt) to an outcome: a response with a status code and
an opaque payload, or a raised transport exception.  Backoff sleeps
(`asyncio.sleep` with reset-header or jittered exponential delay) change no
observable of this claim and are elided. -/

/-- One upstream attempt's outcome as seen inside the retry loop's `try`. -/
inductive UpstreamAttempt (α : Type) where
  | response (status : ℕ) (payload : α)
  | exn
deriving DecidableEq

/-- What `_handle_rate_limit_retry` hands back to `forward_request`: the
upstream response, or the synthesized rate-limit error `JSONResponse`. -/
inductive RetryResult (α : Type) where
  | upstream (status : ℕ) (payload : α)
  | rate_limit_response (status : ℕ) (message : String) (etype : String)
      (request_id : String) (path : String) (code : ℕ)
deriving DecidableEq

/-- The retry loop body, structurally recursive on the remaining iteration
budget `max_retries - retries`; returns the number of upstream attempts made
together with the early-returned response, if any. -/
def retry_loop (upstream : ℕ → UpstreamAttempt α) :
    (remaining : ℕ) → (retries : ℕ) → ℕ × Option (ℕ × α)
  | 0, _ => (0, none)
  | remaining + 1, retries =>
    match upstream retries with
    | .exn =>
      let r := retry_loop upstream remaining (retries + 1)
      (r.1 + 1, r.2)
    | .response status payload =>
      if status ≠ 429 then (1, some (status, payload))
      else
        let r := retry_loop upstream remaining (retries + 1)
        (r.1 + 1, r.2)

/-- `OpenAIProxy._handle_rate_limit_retry` (`max_retries = 3`): the loop,
then on exhaustion the synthesized 429 `rate_limit_error` envelope naming
the request id and the path.  Returns the attempt count with the result. -/
def handle_rate_limit_retry (max_retries : ℕ) (upstream : ℕ → UpstreamAttempt α)
    (request_id path : String) : ℕ × RetryResult α :=
  match retry_loop upstream max_retries 0 with
  | (attempts, some (status, payload)) => (attempts, .upstream status payload)
  | (attempts, none) =>
    (attempts, .rate_limit_response 429
      ("Rate limit persisted after " ++ toString max_retries
        ++ " retries. Please check your API key's rate limits.")
      "rate_limit_error" request_id path 429)

lemma retry_loop_all_429 (upstream : ℕ → UpstreamAttempt α)
    (h : ∀ i, ∃ p, upstream i = .response 429 p) :
    ∀ remaining retries, retry_loop upstream remaining retries = (remaining, none) := by
  intro remaining
  induction remaining with
  | zero => intro retries; rfl
  | succ n ih =>
    intro retries
    obtain ⟨p, hp⟩ := h retries
    simp [retry_loop, hp, ih]

/-- C3: against an upstream that answers 429 on every attempt, the retry
handler makes exactly `max_retries = 3` upstream attempts and then returns
the synthesized `rate_limit_error` envelope with HTTP status 429 whose
fields name the request id and the path, not the last raw upstream
response. -/
theorem C3_retry_exhaustion_envelope (upstream : ℕ → UpstreamAttempt α)
    (request_id path : String)
    (h : ∀ i, ∃ p, upstream i = .response 429 p) :
    handle_rate_limit_retry 3 upstream request_id path =
      (3, .rate_limit_response 429
        "Rate limit persisted after 3 retries. Please check your API key's rate limits."
        "rate_limit_error" request_id path 429) := by
  unfold handle_rate_limit_retry
  rw [retry_loop_all_429 upstream h 3 0]
  rfl

/-- Witness for C3: a constantly-429 upstream. -/
theorem C3_retry_exhaustion_envelope_witness :
    (∀ i, ∃ p : Unit, (fun _ : ℕ => UpstreamAttempt.response 429 ()) i = .response 429 p)
    ∧ handle_rate_limit_retry 3 (fun _ : ℕ => UpstreamAttempt.response 429 ()) "req-1" "chat/completions" =
      (3, .rate_limit_response 429
        "Rate limit persisted after 3 retries. Please check your API key's rate limits."
        "rate_limit_error" "req-1" "chat/completions" 429) :=
  ⟨fun _ => ⟨(), rfl⟩,
    C3_retry_exhaustion_envelope (fun _ => UpstreamAttempt.response 429 ())
      "req-1" "chat/completions" (fun _ => ⟨(), rfl⟩)⟩

/-! ## Stream relay (`app/proxy.py`, `BaseAPIProxy._process_stream`)

The async generator is embedded as a function from the upstream session —
the byte chunks delivered by `response.aiter_bytes()` before the session
ends, and how it ends (normal close or a raised transport error) — to the
list of chunks yielded to the caller.  Chunks are UTF-8 byte strings,
modelled as `String`.  The debug-mode branch only logs and yields the chunk
unchanged either way, so the yielded sequence does not depend on it. -/

/-- How the upstream side of a relay session ends: the iterator is
exhausted, or one of the handled exception classes is raised.  `details`
carries Python's `str(e)`. -/
inductive StreamEnding where
  | closed
  | stream_closed (details : String)
  | read_timeout (details : String)
  | write_timeout (details : String)
  | connect_timeout (details : String)
  | http_status_error (status : ℕ) (details : String)
  | unexpected (message details request_id : String)

/-- The terminal SSE frame `b"data: [DONE]\n\n"`. -/
def done_frame : String := "data: [DONE]\n\n"

/-- The `json.dumps` error payload of each `except` branch, as the literal
dict serialization the source produces. -/
def stream_error_json : StreamEnding → String
  | .closed => ""
  | .stream_closed d =>
    "\x7b\"error\": \x7b\"message\": \"Stream was closed unexpectedly\", \"type\": \"stream_error\", \"details\": "
      ++ d ++ "\x7d\x7d"
  | .read_timeout d =>
    "\x7b\"error\": \x7b\"message\": \"Stream read timeout\", \"type\": \"stream_error\", \"details\": "
      ++ d ++ "\x7d\x7d"
  | .write_timeout d =>
    "\x7b\"error\": \x7b\"message\": \"Stream write timeout\", \"type\": \"stream_error\", \"details\": "
      ++ d ++ "\x7d\x7d"
  | .connect_timeout d =>
    "\x7b\"error\": \x7b\"message\": \"Stream connection timeout\", \"type\": \"stream_error\", \"details\": "
      ++ d ++ "\x7d\x7d"
  | .http_status_error s d =>
    "\x7b\"error\": \x7b\"message\": \"Stream HTTP error: " ++ toString s
      ++ "\", \"type\": \"stream_error\", \"details\": " ++ d ++ "\x7d\x7d"
  | .unexpected m d rid =>
    "\x7b\"error\": \x7b\"message\": \"Unexpected stream error: " ++ m
      ++ "\", \"type\": \"stream_error\", \"details\": " ++ d
      ++ ", \"request_id\": " ++ rid ++ "\x7d\x7d"

/-- The SSE error frame `f"data: \x7berror_msg\x7d\n\n"` of an `except` branch. -/
def stream_error_frame (e : StreamEnding) : String :=
  "data: " ++ stream_error_json e ++ "\n\n"

/-- `BaseAPIProxy._process_stream`: relay every upstream chunk; after a
normal close append the terminal frame; after a raised transport error emit
one error frame and then the terminal frame. -/
def process_stream (chunks : List String) (ending : StreamEnding) : List String :=
  match ending with
  | .closed => chunks ++ [done_frame]
  | e => chunks ++ [stream_error_frame e, done_frame]

lemma stream_error_frame_ne_done (e : StreamEnding) :
    stream_error_frame e ≠ done_frame := by
  intro h
  have hdata : (stream_error_frame e).data = done_frame.data := by rw [h]
  cases e <;>
    simp [stream_error_frame, stream_error_json, done_frame, String.data_append,
      String.append_assoc] at hdata

/-- C2 counterexample: an upstream that itself delivers a `[DONE]` frame
(as OpenAI streams do) and then closes produces a session whose delivered
sequence contains the terminal frame twice, not exactly once. -/
theorem C2_done_frame_counterexample :
    (process_stream [done_frame] .closed).count done_frame ≠ 1 := by
  decide

/-- C2 (amended): every relay session's delivered sequence ends with the
terminal `data: [DONE]\n\n` frame, whether the upstream closed normally or
failed; and when the upstream did not itself deliver a `[DONE]` chunk, the
terminal frame appears exactly once.  (The source appends the terminal
frame unconditionally, so an upstream-delivered `[DONE]` is relayed as
well, and the frame then appears more than once.) -/
theorem C2_stream_relay_terminal_frame (chunks : List String) (ending : StreamEnding) :
    (process_stream chunks ending).getLast? = some done_frame
    ∧ (done_frame ∉ chunks → (process_stream chunks ending).count done_frame = 1) := by
  constructor
  · cases ending <;> simp [process_stream]
  · intro hnot
    cases ending <;>
      simp [process_stream, List.count_append, List.count_eq_zero.mpr hnot,
        List.count_cons, stream_error_frame_ne_done]

/-- Witness for C2 at a concrete upstream session without its own DONE. -/
theorem C2_stream_relay_terminal_frame_witness :
    (process_stream ["data: \x7b\x7d\n\n"] (.read_timeout "t")).getLast? = some done_frame
    ∧ (done_frame ∉ ["data: \x7b\x7d\n\n"]
        → (process_stream ["data: \x7b\x7d\n\n"] (.read_timeout "t")).count done_frame = 1)
    ∧ done_frame ∉ ["data: \x7b\x7d\n\n"] :=
  ⟨(C2_stream_relay_terminal_frame ["data: \x7b\x7d\n\n"] (.read_timeout "t")).1,
    (C2_stream_relay_terminal_frame ["data: \x7b\x7d\n\n"] (.read_timeout "t")).2,
    by decide⟩

/-! ## Token rate limiter (`app/rate_limiter.py`, class `TokenRateLimiter`)

State is `self.token_usage` (a list of `(timestamp, tokens)` samples) and
`self.last_cleanup`; `self.tpm_limit` and the clock are explicit.  The
`await asyncio.sleep(wait_time)` suspension becomes explicit time passing,
and whatever concurrent tasks do to the shared object during the sleep is
an injection function `inj`, applied to the state at wake-up time (the
single-caller case is `inj = fun _ s => s`).  The recursive re-check at
line 96 is given a fuel argument, and the returned triple records the
final state, the admission time and the number of re-check recursions. -/

/-- The mutable fields of a `TokenRateLimiter`. -/
structure TokenUsageState where
  token_usage : List (ℚ × ℕ)
  last_cleanup : ℚ
deriving DecidableEq

/-- `int(self.tpm_limit * self.safety_buffer)` with `safety_buffer = 0.95`:
exact rational arithmetic truncated toward zero, i.e. `tpm_limit * 95 / 100`
in natural division. -/
def effective_limit (tpm_limit : ℕ) : ℕ := tpm_limit * 95 / 100

/-- `TokenRateLimiter._cleanup_old_entries`: throttled to at most once per
second of clock time. -/
def cleanup_old_entries (current_time : ℚ) (st : TokenUsageState) : TokenUsageState :=
  if 1 ≤ current_time - st.last_cleanup then
    { token_usage := st.token_usage.filter (fun p => decide (current_time - p.1 < window_size)),
      last_cleanup := current_time }
  else st

/-- `TokenRateLimiter._calculate_current_usage`: sums every sample still in
the list, stale ones included. -/
def calculate_current_usage (l : List (ℚ × ℕ)) : ℕ := (l.map Prod.snd).sum

/-- Python `sorted` on `(float, int)` tuples: lexicographic. -/
def pair_le (a b : ℚ × ℕ) : Bool :=
  decide (a.1 < b.1) || (decide (a.1 = b.1) && decide (a.2 ≤ b.2))

/-- The scan of `_calculate_wait_time` over the timeline sorted by remaining
lifetime: accumulate freed tokens; the first point at which the window
would admit the request yields that entry's remaining lifetime plus the
0.1 s buffer; otherwise fall back to the full window length. -/
def wait_scan (current_usage requested_tokens eff : ℕ) :
    (cumulative_freed : ℕ) → List (ℚ × ℕ) → ℚ
  | _, [] => window_size
  | cumulative_freed, (w, tokens) :: rest =>
    let cumulative_freed := cumulative_freed + tokens
    if (current_usage : ℤ) - cumulative_freed + requested_tokens ≤ eff then w + 1/10
    else wait_scan current_usage requested_tokens eff cumulative_freed rest

/-- `TokenRateLimiter._calculate_wait_time`.  (`oldest_time` and
`tokens_to_free` are computed by the source but never used afterwards.) -/
def calculate_wait_time (tpm_limit : ℕ) (usage : List (ℚ × ℕ))
    (current_time : ℚ) (requested_tokens : ℕ) : ℚ :=
  if usage = [] then 0
  else
    let current_usage := calculate_current_usage usage
    let eff := effective_limit tpm_limit
    if current_usage + requested_tokens ≤ eff then 0
    else
      let token_timeline := (usage.mergeSort pair_le).filterMap (fun p =>
        let time_until_free := p.1 + window_size - current_time
        if 0 < time_until_free then some (time_until_free, p.2) else none)
      wait_scan current_usage requested_tokens eff 0 (token_timeline.mergeSort pair_le)

/-- `TokenRateLimiter.check_token_limit`.  Returns `none` on fuel
exhaustion, otherwise the final state, the admission time, and how many
sleep-and-re-check recursions were taken. -/
def check_token_limit (tpm_limit : ℕ) (inj : ℚ → TokenUsageState → TokenUsageState) :
    (fuel : ℕ) → TokenUsageState → (current_time : ℚ) → (requested_tokens : ℕ) →
      Option (TokenUsageState × ℚ × ℕ)
  | 0, _, _, _ => none
  | fuel + 1, st, current_time, requested_tokens =>
    let st := cleanup_old_entries current_time st
    let current_usage := calculate_current_usage st.token_usage
    let eff := effective_limit tpm_limit
    if eff < current_usage + requested_tokens then
      let wait_time := calculate_wait_time tpm_limit st.token_usage current_time requested_tokens
      if 0 < wait_time then
        match check_token_limit tpm_limit inj fuel
            (inj (current_time + wait_time) st) (current_time + wait_time) requested_tokens with
        | none => none
        | some (st', t', d) => some (st', t', d + 1)
      else
        some ({ st with token_usage := st.token_usage ++ [(current_time, requested_tokens)] },
          current_time, 0)
    else
      some ({ st with token_usage := st.token_usage ++ [(current_time, requested_tokens)] },
        current_time, 0)

/-- The claim's measure: total tokens of the samples whose timestamps lie
in the trailing 60-second window of `t`. -/
def window_tokens (t : ℚ) (l : List (ℚ × ℕ)) : ℕ :=
  calculate_current_usage (l.filter (fun p => decide (t - p.1 < window_size)))

lemma window_tokens_le_usage (t : ℚ) (l : List (ℚ × ℕ)) :
    window_tokens t l ≤ calculate_current_usage l := by
  induction l with
  | nil => simp [window_tokens, calculate_current_usage]
  | cons p rest ih =>
    unfold window_tokens calculate_current_usage at *
    by_cases hp : (t - p.1 < window_size) <;>
      · simp [List.filter_cons, hp]
        omega

lemma wait_scan_pos (cu req eff acc : ℕ) (tl : List (ℚ × ℕ))
    (h : ∀ p ∈ tl, 0 < p.1) :
    0 < wait_scan cu req eff acc tl := by
  induction tl generalizing acc with
  | nil => simp [wait_scan, window_size]
  | cons p rest ih =>
    rw [wait_scan]
    split
    · have := h p (List.mem_cons_self p rest)
      linarith
    · exact ih _ (fun q hq => h q (List.mem_cons_of_mem p hq))

lemma calculate_wait_time_nonpos (tpm_limit : ℕ) (usage : List (ℚ × ℕ))
    (t : ℚ) (req : ℕ)
    (h : calculate_wait_time tpm_limit usage t req ≤ 0) :
    usage = [] ∨ calculate_current_usage usage + req ≤ effective_limit tpm_limit := by
  by_contra hcon
  push_neg at hcon
  obtain ⟨hne, hgt⟩ := hcon
  unfold calculate_wait_time at h
  rw [if_neg hne, if_neg (by omega)] at h
  refine absurd h (not_le.mpr ?_)
  apply wait_scan_pos
  intro p hp
  rw [(List.mergeSort_perm _ pair_le).mem_iff, List.mem_filterMap] at hp
  obtain ⟨q, _, hq⟩ := hp
  dsimp only at hq
  split at hq
  · rename_i hpos
    cases hq
    exact hpos
  · cases hq

lemma effective_limit_le (tpm_limit : ℕ) :
    (effective_limit tpm_limit : ℚ) ≤ (tpm_limit : ℚ) * (95 / 100) := by
  unfold effective_limit
  have h := Nat.cast_div_le (α := ℚ) (m := tpm_limit * 95) (n := 100)
  calc (↑(tpm_limit * 95 / 100) : ℚ) ≤ (↑(tpm_limit * 95) : ℚ) / 100 := h
    _ = (tpm_limit : ℚ) * (95 / 100) := by push_cast; ring

/-- C1 (amended): provided every requested amount is at most the effective
limit `int(tpm_limit * 0.95)`, every admission — from any state, after any
chain of waits, under arbitrary concurrent interference — leaves the
trailing 60-second window holding at most `tpm_limit × 0.95` tokens at the
moment the sample is appended. -/
theorem C1_token_window_bound (tpm_limit : ℕ)
    (inj : ℚ → TokenUsageState → TokenUsageState) (fuel : ℕ)
    (st : TokenUsageState) (t : ℚ) (req : ℕ) (r : TokenUsageState × ℚ × ℕ)
    (hreq : req ≤ effective_limit tpm_limit)
    (h : check_token_limit tpm_limit inj fuel st t req = some r) :
    (window_tokens r.2.1 r.1.token_usage : ℚ) ≤ (tpm_limit : ℚ) * (95 / 100) := by
  induction fuel generalizing st t r with
  | zero => exact absurd h (by simp [check_token_limit])
  | succ fuel ih =>
    rw [check_token_limit] at h
    set st1 := cleanup_old_entries t st with hst1
    by_cases hover :
        effective_limit tpm_limit < calculate_current_usage st1.token_usage + req
    · rw [if_pos hover] at h
      by_cases hw : 0 < calculate_wait_time tpm_limit st1.token_usage t req
      · rw [if_pos hw] at h
        cases hrec : check_token_limit tpm_limit inj fuel
            (inj (t + calculate_wait_time tpm_limit st1.token_usage t req) st1)
            (t + calculate_wait_time tpm_limit st1.token_usage t req) req with
        | none => rw [hrec] at h; cases h
        | some r' =>
          rw [hrec] at h
          cases h
          exact ih _ _ r' hrec
      · rw [if_neg hw] at h
        -- wait_time ≤ 0 while over the limit forces an empty window, which
        -- contradicts `req ≤ effective_limit`; or a fit, contradicting
        -- being over the limit.
        rcases calculate_wait_time_nonpos tpm_limit st1.token_usage t req
            (le_of_not_lt hw) with hemp | hle
        · rw [hemp] at hover
          exact absurd hover (by simp [calculate_current_usage]; omega)
        · omega
    · rw [if_neg hover] at h
      cases h
      push_neg at hover
      dsimp only
      have htt : ((t : ℚ) - t < window_size) := by norm_num [window_size]
      have h1 : window_tokens t (st1.token_usage ++ [(t, req)])
          = window_tokens t st1.token_usage + req := by
        unfold window_tokens calculate_current_usage
        rw [List.filter_append, List.map_append, List.sum_append]
        norm_num [window_size]
      have h2 : window_tokens t st1.token_usage + req ≤ effective_limit tpm_limit :=
        le_trans (Nat.add_le_add_right (window_tokens_le_usage t _) req) hover
      calc ((window_tokens t (st1.token_usage ++ [(t, req)]) : ℕ) : ℚ)
          = ((window_tokens t st1.token_usage + req : ℕ) : ℚ) := by rw [h1]
        _ ≤ ((effective_limit tpm_limit : ℕ) : ℚ) := by exact_mod_cast h2
        _ ≤ (tpm_limit : ℚ) * (95 / 100) := effective_limit_le tpm_limit

/-- C1 counterexample: on a fresh limiter (`tpm_limit = 100`) a single
request of 100 tokens — larger than the limit — is admitted immediately:
`_calculate_wait_time` returns 0 on an empty window, so the wait branch is
skipped and the sample is appended, leaving 100 tokens in the trailing
window, which exceeds `tpm_limit × 0.95 = 95` at the moment of admission. -/
theorem C1_token_window_counterexample :
    check_token_limit 100 (fun _ s => s) 1 ⟨[], 0⟩ 0 100 =
      some (⟨[((0 : ℚ), 100)], 0⟩, 0, 0)
    ∧ ¬ ((window_tokens 0 [((0 : ℚ), 100)] : ℚ) ≤ (100 : ℚ) * (95 / 100)) := by
  constructor
  · norm_num [check_token_limit, cleanup_old_entries, calculate_current_usage,
      calculate_wait_time, effective_limit]
  · norm_num [window_tokens, calculate_current_usage, window_size]

/-- Witness for the amended C1 at a concrete admissible request. -/
theorem C1_token_window_bound_witness :
    50 ≤ effective_limit 100
    ∧ check_token_limit 100 (fun _ s => s) 1 ⟨[], 0⟩ 0 50 =
        some (⟨[((0 : ℚ), 50)], 0⟩, 0, 0)
    ∧ ((window_tokens (0 : ℚ) [((0 : ℚ), 50)] : ℚ) ≤ (100 : ℚ) * (95 / 100)) :=
  ⟨by decide,
    by norm_num [check_token_limit, cleanup_old_entries, calculate_current_usage,
      calculate_wait_time, effective_limit],
    C1_token_window_bound 100 (fun _ s => s) 1 ⟨[], 0⟩ 0 50
      (⟨[((0 : ℚ), 50)], 0⟩, 0, 0) (by decide)
      (by norm_num [check_token_limit, cleanup_old_entries, calculate_current_usage,
        calculate_wait_time, effective_limit])⟩

/-! ## Re-check depth of the token limiter (`app/rate_limiter.py`, line 96)

After its sleep the source re-checks with
`return await self.check_token_limit(requested_tokens)` — a recursive
self-call, one stack (coroutine) frame per forced wait.  The depth
component of `check_token_limit`'s result counts exactly these nested
re-checks.  With concurrent callers refilling the window during each sleep
(the `inj` interference), the depth is unbounded. -/

/-- The longest single wait the limiter issues here: 60 s window + 0.1 s. -/
def round_wait : ℚ := 601 / 10

/-- Entry time of round `k` in the contention schedule below. -/
def round_time (k : ℕ) : ℚ := (k : ℚ) * round_wait

/-- What a concurrent caller's admitted `check_token_limit(60)` at time `t'`
does to the shared state (the single-call semantics applied once). -/
def concurrent_admission (t' : ℚ) (st : TokenUsageState) : TokenUsageState :=
  match check_token_limit 100 (fun _ s => s) 1 st t' 60 with
  | some (st2, _, _) => st2
  | none => st

/-- The contention schedule: a concurrent caller admits 60 tokens at every
wake-up time up to `round_time n`, then stops. -/
def contention (n : ℕ) (t' : ℚ) (st : TokenUsageState) : TokenUsageState :=
  if t' ≤ round_time n then concurrent_admission t' st else st

lemma cleanup_noop (tp : ℚ) (l : List (ℚ × ℕ)) :
    cleanup_old_entries tp ⟨l, tp⟩ = ⟨l, tp⟩ := by
  unfold cleanup_old_entries
  rw [if_neg]
  norm_num

lemma cleanup_purge (tp : ℚ) (tk : ℕ) :
    cleanup_old_entries (tp + round_wait) ⟨[(tp, tk)], tp⟩ = ⟨[], tp + round_wait⟩ := by
  unfold cleanup_old_entries
  rw [if_pos (by rw [show tp + round_wait - tp = round_wait from by ring]; norm_num [round_wait])]
  simp only [List.filter_cons, List.filter_nil]
  rw [show tp + round_wait - tp = round_wait from by ring]
  norm_num [round_wait, window_size]

lemma wait_time_blocked (tp : ℚ) :
    calculate_wait_time 100 [(tp, 60)] tp 50 = round_wait := by
  unfold calculate_wait_time
  rw [if_neg (by simp)]
  have hcu : calculate_current_usage [(tp, 60)] = 60 := by
    simp [calculate_current_usage]
  rw [hcu]
  rw [if_neg (by norm_num [effective_limit])]
  have htl : (List.mergeSort [((tp : ℚ), 60)] pair_le).filterMap (fun p =>
      let time_until_free := p.1 + window_size - tp
      if 0 < time_until_free then some (time_until_free, p.2) else none) =
      [((60 : ℚ), 60)] := by
    simp only [List.mergeSort_singleton, List.filterMap]
    rw [show tp + window_size - tp = window_size from by ring]
    norm_num [window_size]
  rw [htl]
  simp only [List.mergeSort_singleton]
  unfold wait_scan
  rw [if_pos (by push_cast; norm_num [effective_limit])]
  norm_num [round_wait]

/-- One blocked round: from a window holding 60 fresh tokens, a request of
50 must wait `round_wait` and then re-check. -/
lemma round_blocked (tp : ℚ) (fuel : ℕ) (inj : ℚ → TokenUsageState → TokenUsageState) :
    check_token_limit 100 inj (fuel + 1) ⟨[(tp, 60)], tp⟩ tp 50 =
      match check_token_limit 100 inj fuel
          (inj (tp + round_wait) ⟨[(tp, 60)], tp⟩) (tp + round_wait) 50 with
      | none => none
      | some (st', t', d) => some (st', t', d + 1) := by
  rw [check_token_limit]
  rw [cleanup_noop]
  have hcu : calculate_current_usage [(tp, 60)] = 60 := by
    simp [calculate_current_usage]
  rw [hcu, wait_time_blocked]
  rw [if_pos (by norm_num [effective_limit]), if_pos (by norm_num [round_wait])]

/-- The final round: after a full wait with no interference, the old sample
purges and the 50-token request is admitted. -/
lemma round_final (tp : ℚ) (inj : ℚ → TokenUsageState → TokenUsageState) :
    check_token_limit 100 inj 1 ⟨[(tp, 60)], tp⟩ (tp + round_wait) 50 =
      some (⟨[(tp + round_wait, 50)], tp + round_wait⟩, tp + round_wait, 0) := by
  rw [check_token_limit]
  rw [cleanup_purge]
  have hcu : calculate_current_usage ([] : List (ℚ × ℕ)) = 0 := by
    simp [calculate_current_usage]
  rw [hcu]
  rw [if_neg (by norm_num [effective_limit])]
  rfl

lemma concurrent_admission_round (tp : ℚ) :
    concurrent_admission (tp + round_wait) ⟨[(tp, 60)], tp⟩ =
      ⟨[(tp + round_wait, 60)], tp + round_wait⟩ := by
  unfold concurrent_admission
  rw [check_token_limit]
  rw [cleanup_purge]
  have hcu : calculate_current_usage ([] : List (ℚ × ℕ)) = 0 := by
    simp [calculate_current_usage]
  rw [hcu]
  rw [if_neg (by norm_num [effective_limit])]
  rfl

lemma round_time_succ (k : ℕ) : round_time k + round_wait = round_time (k + 1) := by
  unfold round_time
  push_cast
  ring

/-- The chained contention run: starting at round `k ≤ n` the remaining
`n + 1 - k` waits all happen, and the request is finally admitted at round
`n + 1`. -/
lemma contention_chain (n : ℕ) :
    ∀ d k, k + d = n →
      check_token_limit 100 (contention n) (n + 2 - k)
          ⟨[(round_time k, 60)], round_time k⟩ (round_time k) 50 =
        some (⟨[(round_time (n + 1), 50)], round_time (n + 1)⟩,
          round_time (n + 1), n + 1 - k) := by
  intro d
  induction d with
  | zero =>
    intro k hk
    rw [Nat.add_zero] at hk
    subst hk
    have hfuel : k + 2 - k = 2 := by omega
    rw [hfuel, round_blocked]
    have hnoinj : contention k (round_time k + round_wait) ⟨[(round_time k, 60)], round_time k⟩ =
        ⟨[(round_time k, 60)], round_time k⟩ := by
      unfold contention
      rw [if_neg]
      rw [round_time_succ]
      unfold round_time
      intro hcon
      have : (k : ℚ) + 1 ≤ (k : ℚ) := by
        have hpos : (0 : ℚ) < round_wait := by norm_num [round_wait]
        push_cast at hcon
        nlinarith
      linarith
    rw [hnoinj, round_final, round_time_succ]
    have : k + 1 - k = 1 := by omega
    rw [this]
  | succ d ih =>
    intro k hk
    have hfuel : n + 2 - k = (n + 2 - (k + 1)) + 1 := by omega
    rw [hfuel, round_blocked]
    have hinj : contention n (round_time k + round_wait) ⟨[(round_time k, 60)], round_time k⟩ =
        ⟨[(round_time (k + 1), 60)], round_time (k + 1)⟩ := by
      unfold contention
      rw [if_pos]
      · rw [concurrent_admission_round, round_time_succ]
      · rw [round_time_succ]
        unfold round_time
        have hk1 : (k + 1 : ℕ) ≤ n := by omega
        have : ((k + 1 : ℕ) : ℚ) ≤ (n : ℚ) := by exact_mod_cast hk1
        have hpos : (0 : ℚ) ≤ round_wait := by norm_num [round_wait]
        push_cast
        push_cast at this
        nlinarith
    rw [hinj, round_time_succ, ih (k + 1) (by omega)]
    have heq : n + 1 - (k + 1) + 1 = n + 1 - k := by omega
    dsimp only
    rw [heq]

/-- Shared core: for every bound there is a contention schedule forcing
more nested re-checks than the bound. -/
lemma recheck_depth_grows (n : ℕ) :
    check_token_limit 100 (contention n) (n + 2) ⟨[(0, 60)], 0⟩ 0 50 =
      some (⟨[(round_time (n + 1), 50)], round_time (n + 1)⟩,
        round_time (n + 1), n + 1) := by
  have h := contention_chain n n 0 (by omega)
  rw [show round_time 0 = 0 from by norm_num [round_time]] at h
  simpa using h

/-- C8 counterexample (negation of the claim): there is no uniform bound on
the number of nested re-checks `check_token_limit` performs — the source
re-checks by recursive self-call (`rate_limiter.py` line 96), and under
adversarial contention the recursion (hence stack/coroutine frame) depth
exceeds every bound. -/
theorem C8_bounded_recheck_counterexample :
    ¬ ∃ b : ℕ, ∀ (tpm : ℕ) (inj : ℚ → TokenUsageState → TokenUsageState)
        (fuel : ℕ) (st : TokenUsageState) (t : ℚ) (req : ℕ)
        (r : TokenUsageState × ℚ × ℕ),
        check_token_limit tpm inj fuel st t req = some r → r.2.2 ≤ b := by
  rintro ⟨b, hb⟩
  have h := hb 100 (contention b) (b + 2) ⟨[(0, 60)], 0⟩ 0 50
    (⟨[(round_time (b + 1), 50)], round_time (b + 1)⟩, round_time (b + 1), b + 1)
    (recheck_depth_grows b)
  simp at h

/-- C8 (amended): the re-check after an admission wait is a recursive
self-invocation of `check_token_limit`, and for every `n` some contention
sequence drives the re-check nesting depth beyond `n`. -/
theorem C8_recheck_depth_unbounded (n : ℕ) :
    ∃ (inj : ℚ → TokenUsageState → TokenUsageState) (fuel : ℕ)
      (st : TokenUsageState) (r : TokenUsageState × ℚ × ℕ),
      check_token_limit 100 inj fuel st 0 50 = some r ∧ n < r.2.2 :=
  ⟨contention n, n + 2, ⟨[(0, 60)], 0⟩,
    (⟨[(round_time (n + 1), 50)], round_time (n + 1)⟩, round_time (n + 1), n + 1),
    recheck_depth_grows n, by simp⟩

/-! ## Forward pipelines (`app/proxy.py`, `OpenAIProxy.forward_request` and
`AnthropicProxy.forward_request`)

The control flow of the two `forward_request` coroutines is embedded with
transport-level effects abstracted as inputs: the body-read outcome, the
mock-mode flag, the result of opening a streaming session, the
per-attempt upstream responses of the retry loop, whether the primary
HTTP/2 attempt raises (triggering the HTTP/1.1 fallback) and the fallback
result.  Outbound header construction, cookie synchronization and logging
have no bearing on which response shape is returned and are elided.  The
token limiter call's result is discarded by the source (its return value
is not consulted), so it cannot change the outcome either. -/

/-- Outcome of `await request.body()` + `json.loads` as the pipelines see
it: reading raised, the body was empty, the JSON failed to parse, or a
parsed body (its filter-relevant fields plus the `stream` flag). -/
inductive BodyRead where
  | read_error (msg : String)
  | empty
  | invalid_json (msg : String)
  | parsed (fields : RequestBody) (stream : Bool)

/-- Result of `_handle_streaming_request`: an upstream 429 short-circuit
(with parsed upstream body passed through, or the fallback envelope when
parsing fails), an open relay session, or one of the handled exceptions
while opening. -/
inductive StreamOpen (α : Type) where
  | early429_parsed (upstream_body : α)
  | early429_unparsed
  | relay (chunks : List String) (ending : StreamEnding)
  | connect_timeout (details : String)
  | read_timeout (details : String)
  | write_timeout (details : String)
  | status_error (status : ℕ) (details : String)
  | unexpected (details : String)

/-- What `forward_request` returns to the route handler, at envelope
granularity: a proxy-synthesized error envelope `(status, type, message)`,
an upstream response passed through (JSON re-serialized or raw bytes), an
SSE relay, or a mock response. -/
inductive ForwardOutcome (α : Type) where
  | error_response (status : ℕ) (etype : String) (message : String)
  | upstream_passthrough (status : ℕ) (payload : α)
  | streaming (frames : List String)
  | mock_response
  | mock_streaming
deriving DecidableEq

/-- The return value of `_handle_streaming_request` per `StreamOpen` case,
with the relay driven by `process_stream`. -/
def map_stream_open : StreamOpen α → ForwardOutcome α
  | .early429_parsed b => .upstream_passthrough 429 b
  | .early429_unparsed =>
    .error_response 429 "rate_limit_error" "Rate limit exceeded. Check API key limits."
  | .relay chunks ending => .streaming (process_stream chunks ending)
  | .connect_timeout _ =>
    .error_response 504 "stream_error" "Connection timeout while establishing stream"
  | .read_timeout _ =>
    .error_response 504 "stream_error" "Read timeout while streaming response"
  | .write_timeout _ =>
    .error_response 504 "stream_error" "Write timeout while streaming response"
  | .status_error s _ =>
    .error_response s "stream_error" ("HTTP error " ++ toString s ++ " while streaming")
  | .unexpected d =>
    .error_response 500 "stream_error" ("Unexpected error while streaming: " ++ d)

/-- `forward_request`'s handling of `_handle_rate_limit_retry`'s result:
a `JSONResponse` (the synthesized envelope) is returned directly, any
other response is processed and passed through. -/
def retry_outcome : ℕ × RetryResult α → ForwardOutcome α
  | (_, .upstream s p) => .upstream_passthrough s p
  | (_, .rate_limit_response s msg ty _ _ _) => .error_response s ty msg

/-- The shared body-acquisition step (`method in ("POST", "PUT", "PATCH")`
branch): the three 400 error paths, or the parsed body; other methods use
an empty body. -/
def body_result (method : String) (br : BodyRead) :
    Except (ForwardOutcome α) (RequestBody × Bool) :=
  if method == "POST" || method == "PUT" || method == "PATCH" then
    match br with
    | .read_error msg =>
      .error (.error_response 400 "request_error" ("Error processing request: " ++ msg))
    | .empty => .error (.error_response 400 "invalid_request_error" "Empty request body")
    | .invalid_json msg =>
      .error (.error_response 400 "invalid_request_error" ("Invalid JSON: " ++ msg))
    | .parsed fields stream => .ok (fields, stream)
  else .ok (⟨none, none, [], none, none⟩, false)

/-- `if path.startswith('v1/'): path = path[3:]`. -/
def strip_v1 (path : String) : String :=
  if "v1/".isPrefixOf path then path.drop 3 else path

/-- The transport-effect inputs of one `OpenAIProxy.forward_request` run. -/
structure OpenAIEnv (α : Type) where
  has_auth : Bool
  mock_mode : Bool
  method : String
  body_read : BodyRead
  research : String → String → Bool
  cfg : FilterConfig
  rate_ok : Bool
  stream_open : StreamOpen α
  upstream : ℕ → UpstreamAttempt α
  primary_raises : Option String
  fallback_stream : StreamOpen α
  fallback_resp : Except String (ℕ × α)
  request_id : String

/-- `OpenAIProxy.forward_request`. -/
def openai_forward (env : OpenAIEnv α) (path : String) : ForwardOutcome α :=
  let path := strip_v1 path
  -- if not headers.get("Authorization"): 401 api_key_error
  if !env.has_auth then
    .error_response 401 "api_key_error" "OpenAI API key not configured"
  else
    match body_result env.method env.body_read with
    | .error out => out
    | .ok (fields, stream) =>
      if env.mock_mode then
        if (path == "chat/completions" || path == "completions") && stream then
          .mock_streaming
        else .mock_response
      else
        match validate_request env.research env.cfg env.rate_ok fields path with
        | .error (s, detail) =>
          .error_response s "security_filter_error" ("Security violation: " ++ detail)
        | .ok _ =>
          if stream then map_stream_open env.stream_open
          else
            match env.primary_raises with
            | none => retry_outcome (handle_rate_limit_retry 3 env.upstream env.request_id path)
            | some _ =>
              -- HTTP/1.1 fallback
              if stream then map_stream_open env.fallback_stream
              else
                match env.fallback_resp with
                | .ok (s, p) => .upstream_passthrough s p
                | .error msg =>
                  .error_response 500 "proxy_error"
                    ("Error communicating with OpenAI API: " ++ msg)

/-- `self._convert_openai_to_anthropic(body)` at `proxy.py` line 1121: no
method of this name is defined anywhere in the repository, so Python
attribute lookup raises `AttributeError` at the call, caught by the
surrounding `except Exception as e`. -/
def convert_openai_to_anthropic (_body : RequestBody × Bool) :
    Except String (RequestBody × Bool) :=
  .error "'AnthropicProxy' object has no attribute '_convert_openai_to_anthropic'"

/-- The transport-effect inputs of one `AnthropicProxy.forward_request`
run (the Anthropic pipeline has no missing-credential error path). -/
structure AnthropicEnv (α : Type) where
  mock_mode : Bool
  method : String
  body_read : BodyRead
  research : String → String → Bool
  cfg : FilterConfig
  rate_ok : Bool
  stream_open : StreamOpen α
  upstream : ℕ → UpstreamAttempt α
  primary_raises : Option String
  fallback_stream : StreamOpen α
  fallback_resp : Except String (ℕ × α)
  request_id : String

/-- `AnthropicProxy.forward_request` from the security check onward. -/
def anthropic_rest (env : AnthropicEnv α) (path : String)
    (fields : RequestBody) (stream : Bool) : ForwardOutcome α :=
  match validate_request env.research env.cfg env.rate_ok fields path with
  | .error (s, detail) =>
    .error_response s "security_filter_error" ("Security violation: " ++ detail)
  | .ok _ =>
    if stream then map_stream_open env.stream_open
    else
      match env.primary_raises with
      | none => retry_outcome (handle_rate_limit_retry 3 env.upstream env.request_id path)
      | some _ =>
        if stream then map_stream_open env.fallback_stream
        else
          match env.fallback_resp with
          | .ok (s, p) => .upstream_passthrough s p
          | .error msg =>
            .error_response 500 "proxy_error"
              ("Error communicating with Anthropic API: " ++ msg)

/-- `AnthropicProxy.forward_request`. -/
def anthropic_forward (env : AnthropicEnv α) (path : String) : ForwardOutcome α :=
  match body_result env.method env.body_read with
  | .error out => out
  | .ok (fields, stream) =>
    if env.mock_mode then
      if (path == "v1/messages" || path == "messages"
          || path == "chat/completions" || path == "v1/chat/completions") && stream then
        .mock_streaming
      else .mock_response
    else
      -- OpenAI-format requests aimed at Anthropic are converted before the
      -- security check and the dispatch to /v1/messages
      if path == "chat/completions" || path == "v1/chat/completions" then
        match convert_openai_to_anthropic (fields, stream) with
        | .error msg =>
          .error_response 400 "format_error" ("Error converting to Anthropic format: " ++ msg)
        | .ok (fields', stream') => anthropic_rest env path fields' stream'
      else anthropic_rest env path fields stream

/-- C6: the code fails every `chat/completions`-shaped request through the
Anthropic proxy before dispatch.  `_convert_openai_to_anthropic` is called
at `proxy.py` line 1121 but defined nowhere in the repository, so the call
raises `AttributeError` and the handler returns a 400 `format_error`
envelope instead of converting the body and forwarding it to
`/v1/messages`. -/
theorem C6_anthropic_chat_completions_format_error {α : Type}
    (fields : RequestBody) (stream : Bool)
    (research : String → String → Bool) (cfg : FilterConfig) (rate_ok : Bool)
    (so : StreamOpen α) (upstream : ℕ → UpstreamAttempt α)
    (pr : Option String) (fs : StreamOpen α) (fr : Except String (ℕ × α))
    (rid : String) :
    anthropic_forward
        ⟨false, "POST", .parsed fields stream, research, cfg, rate_ok, so,
          upstream, pr, fs, fr, rid⟩ "chat/completions" =
      .error_response 400 "format_error"
        "Error converting to Anthropic format: 'AnthropicProxy' object has no attribute '_convert_openai_to_anthropic'"
    ∧ anthropic_forward
        ⟨false, "POST", .parsed fields stream, research, cfg, rate_ok, so,
          upstream, pr, fs, fr, rid⟩ "v1/chat/completions" =
      .error_response 400 "format_error"
        "Error converting to Anthropic format: 'AnthropicProxy' object has no attribute '_convert_openai_to_anthropic'" := by
  constructor <;> rfl

/-! ## The error-envelope taxonomy (spec §7) -/

/-- The spec's fixed failure-type taxonomy. -/
def error_taxonomy : List String :=
  ["invalid_request_error", "api_key_error", "security_filter_error",
   "rate_limit_error", "stream_error", "proxy_error"]

/-- The taxonomy the code actually emits: the spec's six kinds plus
`request_error` (body-read failure, `proxy.py` lines 497 and 1100) and
`format_error` (OpenAI→Anthropic conversion failure, line 1127). -/
def extended_error_taxonomy : List String :=
  error_taxonomy ++ ["request_error", "format_error"]

lemma mem_taxonomy_of_eq {ty lit : String} (h : lit = ty)
    (hmem : lit ∈ extended_error_taxonomy) : ty ∈ extended_error_taxonomy :=
  h ▸ hmem

lemma map_stream_open_etype (so : StreamOpen α) (s : ℕ) (ty msg : String)
    (h : map_stream_open so = .error_response s ty msg) :
    ty ∈ extended_error_taxonomy := by
  cases so <;> simp [map_stream_open] at h <;>
    exact mem_taxonomy_of_eq h.2.1 (by decide)

lemma retry_outcome_etype (up : ℕ → UpstreamAttempt α) (m : ℕ) (rid p : String)
    (s : ℕ) (ty msg : String)
    (h : retry_outcome (handle_rate_limit_retry m up rid p) = .error_response s ty msg) :
    ty ∈ extended_error_taxonomy := by
  unfold handle_rate_limit_retry at h
  rcases hr : retry_loop up m 0 with ⟨att, res⟩
  rw [hr] at h
  cases res with
  | none =>
    simp [retry_outcome] at h
    exact mem_taxonomy_of_eq h.2.1 (by decide)
  | some v =>
    rcases v with ⟨s', p'⟩
    simp [retry_outcome] at h

lemma body_result_etype (method : String) (br : BodyRead) (out : ForwardOutcome α)
    (h : body_result method br = .error out) (s : ℕ) (ty msg : String)
    (h2 : out = .error_response s ty msg) :
    ty ∈ extended_error_taxonomy := by
  unfold body_result at h
  split at h
  · cases br <;> simp at h <;> subst h <;> simp at h2 <;>
      exact mem_taxonomy_of_eq h2.2.1 (by decide)
  · simp at h

lemma openai_forward_etype (env : OpenAIEnv α) (path : String)
    (s : ℕ) (ty msg : String)
    (h : openai_forward env path = .error_response s ty msg) :
    ty ∈ extended_error_taxonomy := by
  unfold openai_forward at h
  dsimp only at h
  split at h
  · -- missing credential: api_key_error
    simp at h
    exact mem_taxonomy_of_eq h.2.1 (by decide)
  · -- body acquisition
    rcases hbr : body_result (α := α) env.method env.body_read with out | ⟨fields, stream⟩ <;>
      rw [hbr] at h <;> dsimp only at h
    · exact body_result_etype env.method env.body_read out hbr s ty msg h
    · split at h
      · -- mock mode: no error envelope
        split at h <;> simp at h
      · -- security filter
        rcases hv : validate_request env.research env.cfg env.rate_ok fields
            (strip_v1 path) with ⟨s', d'⟩ | b <;> rw [hv] at h <;> dsimp only at h
        · simp at h
          exact mem_taxonomy_of_eq h.2.1 (by decide)
        · split at h
          · exact map_stream_open_etype env.stream_open s ty msg h
          · rcases hpr : env.primary_raises with _ | m <;> rw [hpr] at h <;> dsimp only at h
            · exact retry_outcome_etype env.upstream 3 env.request_id (strip_v1 path) s ty msg h
            · -- the fallback `if is_streaming` reduced with the outer one;
              -- the remaining split is on the fallback response
              split at h
              · simp at h
              · simp at h
                exact mem_taxonomy_of_eq h.2.1 (by decide)

lemma anthropic_rest_etype (env : AnthropicEnv α) (path : String)
    (fields : RequestBody) (stream : Bool) (s : ℕ) (ty msg : String)
    (h : anthropic_rest env path fields stream = .error_response s ty msg) :
    ty ∈ extended_error_taxonomy := by
  unfold anthropic_rest at h
  rcases hv : validate_request env.research env.cfg env.rate_ok fields path
      with ⟨s', d'⟩ | b <;> rw [hv] at h <;> dsimp only at h
  · simp at h
    exact mem_taxonomy_of_eq h.2.1 (by decide)
  · split at h
    · exact map_stream_open_etype env.stream_open s ty msg h
    · rcases hpr : env.primary_raises with _ | m <;> rw [hpr] at h <;> dsimp only at h
      · exact retry_outcome_etype env.upstream 3 env.request_id path s ty msg h
      · -- the fallback `if is_streaming` reduced with the outer one;
        -- the remaining split is on the fallback response
        split at h
        · simp at h
        · simp at h
          exact mem_taxonomy_of_eq h.2.1 (by decide)

lemma anthropic_forward_etype (env : AnthropicEnv α) (path : String)
    (s : ℕ) (ty msg : String)
    (h : anthropic_forward env path = .error_response s ty msg) :
    ty ∈ extended_error_taxonomy := by
  unfold anthropic_forward at h
  rcases hbr : body_result (α := α) env.method env.body_read with out | ⟨fields, stream⟩ <;>
    rw [hbr] at h <;> dsimp only at h
  · exact body_result_etype env.method env.body_read out hbr s ty msg h
  · split at h
    · split at h <;> simp at h
    · split at h
      · -- OpenAI-format conversion (always raises: the method is missing)
        rcases hc : convert_openai_to_anthropic (fields, stream) with m | ⟨fields', stream'⟩ <;>
          rw [hc] at h <;> dsimp only at h
        · simp at h
          exact mem_taxonomy_of_eq h.2.1 (by decide)
        · exact anthropic_rest_etype env path fields' stream' s ty msg h
      · exact anthropic_rest_etype env path fields stream s ty msg h

/-- C7 counterexample: a request whose body read raises (e.g. a transport
error while reading) is answered with an envelope of type
`request_error`, which is outside the spec's six-kind taxonomy. -/
theorem C7_error_taxonomy_counterexample :
    openai_forward (α := Unit)
        ⟨true, false, "POST", .read_error "boom", fun _ _ => false,
          ⟨true, 8192, [], []⟩, true, .early429_unparsed, fun _ => .exn,
          none, .early429_unparsed, .error "x", "req-1"⟩ "chat/completions" =
      .error_response 400 "request_error" "Error processing request: boom"
    ∧ "request_error" ∉ error_taxonomy := by
  constructor
  · rfl
  · decide

/-- C7 (amended): every proxy-synthesized failure envelope either pipeline
returns carries a type from the spec's taxonomy extended with
`request_error` and `format_error`; bodies passed through verbatim from
the upstream are not proxy envelopes. -/
theorem C7_error_taxonomy {α : Type} (env : OpenAIEnv α) (env' : AnthropicEnv α)
    (path path' : String) (s s' : ℕ) (ty ty' msg msg' : String) :
    (openai_forward env path = .error_response s ty msg →
      ty ∈ extended_error_taxonomy)
    ∧ (anthropic_forward env' path' = .error_response s' ty' msg' →
      ty' ∈ extended_error_taxonomy) :=
  ⟨openai_forward_etype env path s ty msg,
    anthropic_forward_etype env' path' s' ty' msg'⟩

/-- Witness for C7 at concrete failing runs of both pipelines. -/
theorem C7_error_taxonomy_witness :
    (openai_forward (α := Unit)
        ⟨false, false, "GET", .empty, fun _ _ => false, ⟨true, 8192, [], []⟩,
          true, .early429_unparsed, fun _ => .exn, none, .early429_unparsed,
          .error "x", "req-1"⟩ "models" =
      .error_response 401 "api_key_error" "OpenAI API key not configured")
    ∧ "api_key_error" ∈ extended_error_taxonomy
    ∧ (anthropic_forward (α := Unit)
        ⟨false, "POST", .read_error "boom", fun _ _ => false, ⟨true, 8192, [], []⟩,
          true, .early429_unparsed, fun _ => .exn, none, .early429_unparsed,
          .error "x", "req-1"⟩ "v1/messages" =
      .error_response 400 "request_error" "Error processing request: boom")
    ∧ "request_error" ∈ extended_error_taxonomy := by
  refine ⟨rfl, ?_, rfl, ?_⟩
  · exact (C7_error_taxonomy (α := Unit)
      ⟨false, false, "GET", .empty, fun _ _ => false, ⟨true, 8192, [], []⟩,
        true, .early429_unparsed, fun _ => .exn, none, .early429_unparsed,
        .error "x", "req-1"⟩
      ⟨false, "POST", .read_error "boom", fun _ _ => false, ⟨true, 8192, [], []⟩,
        true, .early429_unparsed, fun _ => .exn, none, .early429_unparsed,
        .error "x", "req-1"⟩
      "models" "v1/messages" 401 400 "api_key_error" "request_error"
      "OpenAI API key not configured" "Error processing request: boom").1 rfl
  · exact (C7_error_taxonomy (α := Unit)
      ⟨false, false, "GET", .empty, fun _ _ => false, ⟨true, 8192, [], []⟩,
        true, .early429_unparsed, fun _ => .exn, none, .early429_unparsed,
        .error "x", "req-1"⟩
      ⟨false, "POST", .read_error "boom", fun _ _ => false, ⟨true, 8192, [], []⟩,
        true, .early429_unparsed, fun _ => .exn, none, .early429_unparsed,
        .error "x", "req-1"⟩
      "models" "v1/messages" 401 400 "api_key_error" "request_error"
      "OpenAI API key not configured" "Error processing request: boom").2 rfl

/-! ## API-key redaction (`app/logging.py`, `redact_api_key`)

`redact_api_key` applies six `re.sub` substitutions in order.  Every
pattern has the shape `(PRE [D]{5}) [C]+` replaced by `\1...`: a prefix
part, exactly five characters of a class `D` (the kept tail of the key),
and a greedy nonempty run of a class `C` that is deleted and replaced by
`"..."`.  Each substitution is embedded as a character-list scanner with
Python's leftmost non-overlapping semantics.  The quantified sub-parts of
every prefix (`\s*`, `\s+`, `[_-]?`) are followed by characters disjoint
from their own class, so the backtracking regex engine behaves exactly
like the deterministic maximal-munch matchers used here.  `\s` is the
ASCII whitespace class (the redacted texts are ASCII-shaped keys). -/

def is_space (ch : Char) : Bool :=
  ch = ' ' || ch = '\t' || ch = '\n' || ch = '\r' || ch = '\x0B' || ch = '\x0C'

def is_alnum (ch : Char) : Bool :=
  ('a' ≤ ch && ch ≤ 'z') || ('A' ≤ ch && ch ≤ 'Z') || ('0' ≤ ch && ch ≤ '9')

/-- The class `[a-zA-Z0-9_-]`. -/
def is_word (ch : Char) : Bool := is_alnum ch || ch = '_' || ch = '-'

/-- The class `[a-zA-Z0-9-]`. -/
def is_alnum_dash (ch : Char) : Bool := is_alnum ch || ch = '-'

/-- The class `["\']` (also written `["\'"]`): a double or single quote. -/
def is_quote (ch : Char) : Bool := ch = Char.ofNat 34 || ch = Char.ofNat 39

def dot : Char := '.'

/-- The replacement tail `...` that `\1...` appends after the kept group. -/
def dots : List Char := [dot, dot, dot]

/-- A literal regex fragment: number of characters consumed, if it is a
prefix of the input. -/
def lit (w : List Char) (l : List Char) : Option ℕ :=
  if w.isPrefixOf l then some w.length else none

/-- One `re.sub` pattern of `redact_api_key`: the prefix matcher (returns
the consumed length), the five-character kept class `D`, and the deleted
run class `C`. -/
structure KeyPattern where
  pre : List Char → Option ℕ
  d : Char → Bool
  c : Char → Bool

/-- Try the pattern at the head of `l`: the prefix, then exactly five `D`
characters, then a nonempty greedy `C` run.  Returns (group length, total
match length). -/
def matchAt (P : KeyPattern) (l : List Char) : Option (ℕ × ℕ) :=
  match P.pre l with
  | none => none
  | some k =>
    let rest := l.drop k
    let d5 := rest.take 5
    if d5.length = 5 && d5.all P.d then
      let run := (rest.drop 5).takeWhile P.c
      if run.length ≠ 0 then some (k + 5, k + 5 + run.length) else none
    else none

lemma matchAt_bounds (P : KeyPattern) (l : List Char) (g t : ℕ)
    (h : matchAt P l = some (g, t)) : 1 ≤ t ∧ t ≤ l.length ∧ g + 1 ≤ t := by
  unfold matchAt at h
  cases hp : P.pre l with
  | none => rw [hp] at h; exact Option.noConfusion h
  | some k =>
    rw [hp] at h
    dsimp only at h
    split at h
    · rename_i hcond
      split at h
      · rename_i hrun
        have hgt : k + 5 = g ∧ k + 5 + (((l.drop k).drop 5).takeWhile P.c).length = t := by
          simpa using h
        obtain ⟨hg, ht⟩ := hgt
        simp only [Bool.and_eq_true, decide_eq_true_eq] at hcond
        have h5 : k + 5 ≤ l.length := by
          have h1 := hcond.1
          have hlen : ((l.drop k).take 5).length = min 5 (l.drop k).length := by simp
          rw [h1] at hlen
          have h2 : (l.drop k).length = l.length - k := by simp
          omega
        have h1 : (((l.drop k).drop 5).takeWhile P.c).length ≤ ((l.drop k).drop 5).length :=
          (List.takeWhile_sublist P.c).length_le
        have h2 : ((l.drop k).drop 5).length = l.length - k - 5 := by simp; omega
        rw [h2] at h1
        omega
      · exact Option.noConfusion h
    · exact Option.noConfusion h

/-- One substitution pass, Python `re.sub` semantics: leftmost match, the
kept group followed by `"..."`, scanning resumes after the whole match. -/
def scan (P : KeyPattern) : List Char → List Char
  | [] => []
  | c0 :: rest =>
    match hm : matchAt P (c0 :: rest) with
    | some (g, t) => (c0 :: rest).take g ++ dots ++ scan P ((c0 :: rest).drop t)
    | none => c0 :: scan P rest
termination_by l => l.length
decreasing_by
  · have hb := matchAt_bounds _ _ _ _ hm
    simp
    omega
  · simp

/-- Pattern 1, `(sk-[a-zA-Z0-9]{5})[a-zA-Z0-9]+`. -/
def pat_sk : KeyPattern := ⟨lit "sk-".data, is_alnum, is_alnum⟩

/-- Pattern 2, `(sk-ant-[a-zA-Z0-9]{5})[a-zA-Z0-9-]+`. -/
def pat_sk_ant : KeyPattern := ⟨lit "sk-ant-".data, is_alnum, is_alnum_dash⟩

/-- The prefix `Bearer\s+`. -/
def pre_bearer (l : List Char) : Option ℕ :=
  match lit "Bearer".data l with
  | none => none
  | some k =>
    let w := ((l.drop k).takeWhile is_space).length
    if w = 0 then none else some (k + w)

/-- Pattern 3, `(Bearer\s+[a-zA-Z0-9_-]{5})[a-zA-Z0-9_-]+`. -/
def pat_bearer : KeyPattern := ⟨pre_bearer, is_word, is_word⟩

/-- The prefix `api_key\":\s*\"sk-`. -/
def pre_api_key_json (l : List Char) : Option ℕ :=
  match lit "api_key\":".data l with
  | none => none
  | some k =>
    let w := ((l.drop k).takeWhile is_space).length
    match lit "\"sk-".data (l.drop (k + w)) with
    | none => none
    | some k2 => some (k + w + k2)

/-- Pattern 4, `(api_key\":\s*\"sk-[a-zA-Z0-9]{5})[a-zA-Z0-9_-]+`. -/
def pat_api_key_json : KeyPattern := ⟨pre_api_key_json, is_alnum, is_word⟩

/-- The prefix `api[_-]?key["\']\s*:\s*["\'"]` (the optional `[_-]` is
tried greedily, then without, exactly as the backtracking engine does). -/
def pre_api_key_generic (l : List Char) : Option ℕ :=
  match lit "api".data l with
  | none => none
  | some k =>
    let opt_key : Option ℕ :=
      match l.drop k with
      | ch :: rest' =>
        if (ch = '_' || ch = '-') && "key".data.isPrefixOf rest' then some 4
        else if "key".data.isPrefixOf (ch :: rest') then some 3
        else none
      | [] => none
    match opt_key with
    | none => none
    | some k2 =>
      match l.drop (k + k2) with
      | q1 :: rest3 =>
        if is_quote q1 then
          let w1 := (rest3.takeWhile is_space).length
          match rest3.drop w1 with
          | ch :: rest4 =>
            if ch = ':' then
              let w2 := (rest4.takeWhile is_space).length
              match rest4.drop w2 with
              | q2 :: _ => if is_quote q2 then some (k + k2 + 1 + w1 + 1 + w2 + 1) else none
              | [] => none
            else none
          | [] => none
        else none
      | [] => none

/-- Pattern 5, `(api[_-]?key["\']\s*:\s*["\'"][a-zA-Z0-9_-]{5})[a-zA-Z0-9_-]+`. -/
def pat_api_key_generic : KeyPattern := ⟨pre_api_key_generic, is_word, is_word⟩

/-- Pattern 6, `(sk-proj-[a-zA-Z0-9]{5})[a-zA-Z0-9]+`. -/
def pat_sk_proj : KeyPattern := ⟨lit "sk-proj-".data, is_alnum, is_alnum⟩

/-- The six substitutions, in source order. -/
def key_patterns : List KeyPattern :=
  [pat_sk, pat_sk_ant, pat_bearer, pat_api_key_json, pat_api_key_generic, pat_sk_proj]

/-- `redact_api_key`: the six `re.sub` passes in order.  (`if not text or
not isinstance(text, str): return text` — the empty string and non-string
values pass through; every pass maps `""` to `""`, and non-strings are
outside this embedding.) -/
def redact_api_key (text : String) : String :=
  String.mk
    (scan pat_sk_proj
      (scan pat_api_key_generic
        (scan pat_api_key_json
          (scan pat_bearer
            (scan pat_sk_ant
              (scan pat_sk text.data))))))

/-- No position of `l` starts a match of `P` (decidable executable form). -/
def no_match (P : KeyPattern) (l : List Char) : Bool :=
  (List.range (l.length + 1)).all (fun i => (matchAt P (l.drop i)).isNone)

/-- The claim's "contains no secret-shaped substring": no position of the
text starts a match of any of the six key patterns. -/
def no_secret (s : String) : Bool :=
  key_patterns.all (fun P => no_match P s.data)

/-- No suffix of `l` starts a match of `P` (proof-side form of
`no_match`). -/
def NoMatch (P : KeyPattern) (l : List Char) : Prop :=
  ∀ u v, l = u ++ v → matchAt P v = none

/-- The well-behavedness facts about one pattern that the idempotence
argument uses; established below for each of the six patterns. -/
structure Lawful (P : KeyPattern) : Prop where
  d_dot : ∀ ch, P.d ch = true → ch ≠ dot
  c_dot : ∀ ch, P.c ch = true → ch ≠ dot
  pre_dot : ∀ l k, P.pre l = some k → dot ∉ l.take k
  pre_localized : ∀ l k l₂, P.pre l = some k → l.take (k + 1) = l₂.take (k + 1) →
    P.pre l₂ = some k
  no_inner : ∀ l k, P.pre l = some k →
    ((l.drop k).take 5).length = 5 → ((l.drop k).take 5).all P.d = true →
    ∀ r v, 1 ≤ r → matchAt P ((l.take (k + 5)).drop r ++ dot :: v) = none

lemma matchAt_nil (P : KeyPattern) : matchAt P [] = none := by
  unfold matchAt
  cases hp : P.pre [] with
  | none => rfl
  | some k => simp

lemma take_takeWhile (p : Char → Bool) :
    ∀ l : List Char, l.take ((l.takeWhile p).length) = l.takeWhile p := by
  intro l
  induction l with
  | nil => simp
  | cons x xs ih =>
    rw [List.takeWhile_cons]
    split <;> simp [ih]

lemma mem_takeWhile_pred (p : Char → Bool) :
    ∀ (l : List Char) (x : Char), x ∈ l.takeWhile p → p x = true := by
  intro l
  induction l with
  | nil => simp
  | cons y ys ih =>
    intro x hx
    rw [List.takeWhile_cons] at hx
    split at hx
    · rcases List.mem_cons.mp hx with rfl | hx'
      · assumption
      · exact ih x hx'
    · simp at hx

/-- The characters a successful match consumes: the prefix part, five `D`
characters, and a `C` run — none of them a dot. -/
lemma matchAt_no_dot (P : KeyPattern) (lp : Lawful P) (l : List Char) (g t : ℕ)
    (h : matchAt P l = some (g, t)) : dot ∉ l.take t := by
  unfold matchAt at h
  cases hp : P.pre l with
  | none => rw [hp] at h; exact Option.noConfusion h
  | some k =>
    rw [hp] at h
    dsimp only at h
    split at h
    · rename_i hcond
      split at h
      · rename_i hrun
        have hgt : k + 5 = g ∧ k + 5 + (((l.drop k).drop 5).takeWhile P.c).length = t := by
          simpa using h
        obtain ⟨hg, ht⟩ := hgt
        simp only [Bool.and_eq_true, decide_eq_true_eq] at hcond
        intro hdot
        have hteq : t = k + (5 + (((l.drop k).drop 5).takeWhile P.c).length) := by omega
        rw [hteq, List.take_add, List.take_add, take_takeWhile] at hdot
        rcases List.mem_append.mp hdot with h1 | h23
        · exact lp.pre_dot l k hp h1
        · rcases List.mem_append.mp h23 with h2 | h3
          · exact lp.d_dot dot (List.all_eq_true.mp hcond.2 dot h2) rfl
          · exact lp.c_dot dot (mem_takeWhile_pred P.c _ dot h3) rfl
      · exact Option.noConfusion h
    · exact Option.noConfusion h

lemma take_agree_drop_take (l l₂ : List Char) (t m n : ℕ) (h : l.take t = l₂.take t)
    (hmn : m + n ≤ t) : (l.drop m).take n = (l₂.drop m).take n := by
  have h0 : l.take (m + n) = l₂.take (m + n) := by
    have h1 := congrArg (List.take (m + n)) h
    rwa [List.take_take, List.take_take, Nat.min_eq_left hmn] at h1
  have h1 : (l.drop m).take n = (l.take (m + n)).drop m := by
    rw [List.drop_take]
    congr 1
    omega
  have h2 : (l₂.drop m).take n = (l₂.take (m + n)).drop m := by
    rw [List.drop_take]
    congr 1
    omega
  rw [h1, h2, h0]

/-- A successful match is determined by the consumed characters: any other
list agreeing on them matches too (the greedy run may extend further). -/
lemma matchAt_congr (P : KeyPattern) (lp : Lawful P) (l l₂ : List Char) (g t : ℕ)
    (h : matchAt P l = some (g, t)) (hagree : l.take t = l₂.take t) :
    ∃ t₂, matchAt P l₂ = some (g, t₂) := by
  have hb := matchAt_bounds P l g t h
  unfold matchAt at h
  cases hp : P.pre l with
  | none => rw [hp] at h; exact Option.noConfusion h
  | some k =>
    rw [hp] at h
    dsimp only at h
    split at h
    · rename_i hcond
      split at h
      · rename_i hrun
        have hgt : k + 5 = g ∧ k + 5 + (((l.drop k).drop 5).takeWhile P.c).length = t := by
          simpa using h
        obtain ⟨hg, ht⟩ := hgt
        simp only [Bool.and_eq_true, decide_eq_true_eq] at hcond
        have hkt : k + 6 ≤ t := by omega
        -- the prefix matcher transfers
        have hpre2 : P.pre l₂ = some k := by
          apply lp.pre_localized l k l₂ hp
          have h1 := congrArg (List.take (k + 1)) hagree
          rwa [List.take_take, List.take_take, Nat.min_eq_left (by omega)] at h1
        -- the five kept characters transfer
        have hd5 : (l.drop k).take 5 = (l₂.drop k).take 5 :=
          take_agree_drop_take l l₂ t k 5 hagree (by omega)
        -- the head of the deleted run transfers
        have hhead : (l.drop (k + 5)).take 1 = (l₂.drop (k + 5)).take 1 :=
          take_agree_drop_take l l₂ t (k + 5) 1 hagree (by omega)
        have hrun5 : ((l.drop k).drop 5) = l.drop (k + 5) := by
          rw [List.drop_drop]
        rw [hrun5] at hrun ht
        cases hd : l.drop (k + 5) with
        | nil => rw [hd] at hrun; simp at hrun
        | cons x xs =>
          rw [hd] at hrun
          rw [List.takeWhile_cons] at hrun
          by_cases hcx : P.c x = true
          · cases hd2 : l₂.drop (k + 5) with
            | nil =>
              rw [hd, hd2] at hhead
              simp at hhead
            | cons y ys =>
              have hxy : x = y := by
                rw [hd, hd2] at hhead
                simpa using hhead
              refine ⟨k + 5 + ((y :: ys).takeWhile P.c).length, ?_⟩
              unfold matchAt
              rw [hpre2]
              dsimp only
              rw [← hd5]
              rw [show ((l₂.drop k).drop 5) = l₂.drop (k + 5) from by rw [List.drop_drop], hd2]
              rw [if_pos (by simp only [Bool.and_eq_true, decide_eq_true_eq]; exact hcond)]
              rw [if_pos]
              · rw [hg]
              · rw [List.takeWhile_cons, ← hxy, if_pos hcx]
                simp
          · rw [if_neg hcx] at hrun
            simp at hrun
      · exact Option.noConfusion h
    · exact Option.noConfusion h

lemma scan_nil (P : KeyPattern) : scan P [] = [] := by rw [scan]

lemma scan_cons_match (P : KeyPattern) (x : Char) (rest : List Char) (g t : ℕ)
    (h : matchAt P (x :: rest) = some (g, t)) :
    scan P (x :: rest) = (x :: rest).take g ++ dots ++ scan P ((x :: rest).drop t) := by
  rw [scan]
  split
  · rename_i g' t' hm
    rw [h] at hm
    have : g = g' ∧ t = t' := by simpa using hm
    rw [this.1, this.2]
  · rename_i hm
    rw [h] at hm
    exact Option.noConfusion hm

lemma scan_cons_none (P : KeyPattern) (x : Char) (rest : List Char)
    (h : matchAt P (x :: rest) = none) :
    scan P (x :: rest) = x :: scan P rest := by
  rw [scan]
  split
  · rename_i g' t' hm
    rw [h] at hm
    exact Option.noConfusion hm
  · rfl

/-- No match starts at a dot. -/
lemma matchAt_dot_head (P : KeyPattern) (lp : Lawful P) (v : List Char) :
    matchAt P (dot :: v) = none := by
  cases hm : matchAt P (dot :: v) with
  | none => rfl
  | some gt =>
    rcases gt with ⟨g, t⟩
    have hb := matchAt_bounds P (dot :: v) g t hm
    have hnd := matchAt_no_dot P lp (dot :: v) g t hm
    exfalso
    apply hnd
    have h1 : (dot :: v).take t = dot :: v.take (t - 1) := by
      cases t with
      | zero => omega
      | succ n => simp
    rw [h1]
    exact List.mem_cons_self dot _

lemma take_no_mid (A B : List Char) (x : Char) (t : ℕ)
    (h : x ∉ (A ++ x :: B).take t) : t ≤ A.length := by
  by_contra h'
  push_neg at h'
  apply h
  have ht : t = A.length + (t - A.length) := by omega
  rw [ht, List.take_add]
  refine List.mem_append.mpr (Or.inr ?_)
  rw [List.drop_left]
  have : x :: B = [x] ++ B := rfl
  cases hs : (t - A.length) with
  | zero => omega
  | succ n => simp

/-- No match starts exactly at the kept group of a previous match: the
five kept characters are followed by the inserted dots, so the deleted-run
part is empty. -/
lemma matchAt_grp_dot (P : KeyPattern) (lp : Lawful P) (l : List Char) (g t : ℕ)
    (h : matchAt P l = some (g, t)) (v : List Char) :
    matchAt P (l.take g ++ dot :: v) = none := by
  have hb := matchAt_bounds P l g t h
  unfold matchAt at h
  cases hp : P.pre l with
  | none => rw [hp] at h; exact Option.noConfusion h
  | some k =>
    rw [hp] at h
    dsimp only at h
    split at h
    · rename_i hcond
      split at h
      · rename_i hrun
        have hgt : k + 5 = g ∧ k + 5 + (((l.drop k).drop 5).takeWhile P.c).length = t := by
          simpa using h
        obtain ⟨hg, ht⟩ := hgt
        simp only [Bool.and_eq_true, decide_eq_true_eq] at hcond
        have hglen : (l.take g).length = g := by
          rw [List.length_take]
          omega
        have hpre2 : P.pre (l.take g ++ dot :: v) = some k := by
          apply lp.pre_localized l k _ hp
          rw [List.take_append_of_le_length (by omega)]
          rw [List.take_take, Nat.min_eq_left (by omega)]
        unfold matchAt
        rw [hpre2]
        dsimp only
        have hdrop : (l.take g ++ dot :: v).drop k = (l.take g).drop k ++ dot :: v :=
          List.drop_append_of_le_length (by omega)
        have hdk : ((l.take g).drop k).length = 5 := by
          rw [List.length_drop, hglen]
          omega
        have htake5 : ((l.take g ++ dot :: v).drop k).take 5 = (l.take g).drop k := by
          rw [hdrop, List.take_append_of_le_length (by omega), List.take_of_length_le (by omega)]
        have hd5eq : (l.take g).drop k = (l.drop k).take 5 := by
          rw [List.drop_take]
          congr 1
          omega
        rw [if_pos]
        · have hdrop5 : ((l.take g ++ dot :: v).drop k).drop 5 = dot :: v := by
            rw [hdrop]
            rw [List.drop_append_of_le_length (by omega)]
            rw [List.drop_of_length_le (by omega)]
            rfl
          rw [hdrop5]
          rw [List.takeWhile_cons]
          have hcd : P.c dot = false := by
            cases hcd : P.c dot
            · rfl
            · exact absurd rfl (lp.c_dot dot hcd)
          rw [hcd]
          simp
        · rw [htake5, hd5eq]
          simp only [Bool.and_eq_true, decide_eq_true_eq]
          exact hcond
      · exact Option.noConfusion h
    · exact Option.noConfusion h

lemma matchAt_inv (P : KeyPattern) (l : List Char) (g t : ℕ)
    (h : matchAt P l = some (g, t)) :
    ∃ k, P.pre l = some k ∧ g = k + 5
      ∧ ((l.drop k).take 5).length = 5 ∧ ((l.drop k).take 5).all P.d = true := by
  unfold matchAt at h
  cases hp : P.pre l with
  | none => rw [hp] at h; exact Option.noConfusion h
  | some k =>
    rw [hp] at h
    dsimp only at h
    split at h
    · rename_i hcond
      split at h
      · have hgt : k + 5 = g ∧
            k + 5 + (((l.drop k).drop 5).takeWhile P.c).length = t := by simpa using h
        simp only [Bool.and_eq_true, decide_eq_true_eq] at hcond
        exact ⟨k, rfl, hgt.1.symm, hcond.1, hcond.2⟩
      · exact Option.noConfusion h
    · exact Option.noConfusion h

lemma NoMatch_nil (P : KeyPattern) : NoMatch P [] := by
  intro u v huv
  have hv : v = [] := by
    have := List.append_eq_nil.mp huv.symm
    exact this.2
  rw [hv]
  exact matchAt_nil P

lemma NoMatch_tail (P : KeyPattern) (x : Char) (l : List Char)
    (h : NoMatch P (x :: l)) : NoMatch P l := by
  intro u v huv
  exact h (x :: u) v (by rw [huv]; rfl)

lemma NoMatch_drop (P : KeyPattern) (l : List Char) (t : ℕ)
    (h : NoMatch P l) : NoMatch P (l.drop t) := by
  intro u v huv
  refine h (l.take t ++ u) v ?_
  rw [List.append_assoc, ← huv, List.take_append_drop]

lemma dots_mem (y : Char) (h : y ∈ dots) : y = dot := by
  simpa [dots] using h

/-- Structure of a pass's output: a prefix of the input, then either
nothing or a dot-headed remainder. -/
lemma scan_split (P : KeyPattern) :
    ∀ n l, l.length ≤ n →
      ∃ b w, scan P l = b ++ w ∧ (∃ v, b ++ v = l) ∧
        (w = [] ∨ ∃ w', w = dot :: w') := by
  intro n
  induction n with
  | zero =>
    intro l hl
    have hnil : l = [] := List.eq_nil_of_length_eq_zero (by omega)
    subst hnil
    exact ⟨[], [], by simp [scan_nil], ⟨[], rfl⟩, Or.inl rfl⟩
  | succ n ih =>
    intro l hl
    cases l with
    | nil => exact ⟨[], [], by simp [scan_nil], ⟨[], rfl⟩, Or.inl rfl⟩
    | cons x rest =>
      cases hm : matchAt P (x :: rest) with
      | some gt =>
        rcases gt with ⟨g, t⟩
        rw [scan_cons_match P x rest g t hm]
        refine ⟨(x :: rest).take g, dots ++ scan P ((x :: rest).drop t), by simp, ?_, ?_⟩
        · exact ⟨(x :: rest).drop g, List.take_append_drop ..⟩
        · exact Or.inr ⟨dot :: dot :: scan P ((x :: rest).drop t), rfl⟩
      | none =>
        rw [scan_cons_none P x rest hm]
        obtain ⟨b, w, hsw, ⟨v, hbv⟩, hw⟩ := ih rest (by simp at hl; omega)
        exact ⟨x :: b, w, by simp [hsw], ⟨v, by simp [hbv]⟩, hw⟩

/-- A pass of any pattern `P` creates no new match of a lawful pattern
`Q`: every `Q`-match of the output maps back to a `Q`-match of the
input. -/
lemma scan_preserves_NoMatch (P Q : KeyPattern) (lq : Lawful Q) :
    ∀ n l, l.length ≤ n → NoMatch Q l → NoMatch Q (scan P l) := by
  intro n
  induction n with
  | zero =>
    intro l hl _
    have hnil : l = [] := List.eq_nil_of_length_eq_zero (by omega)
    subst hnil
    rw [scan_nil]
    exact NoMatch_nil Q
  | succ n ih =>
    intro l hl hnm
    cases l with
    | nil => rw [scan_nil]; exact NoMatch_nil Q
    | cons x rest =>
      cases hm : matchAt P (x :: rest) with
      | none =>
        rw [scan_cons_none P x rest hm]
        intro u v huv
        cases u with
        | nil =>
          simp only [List.nil_append] at huv
          cases hq : matchAt Q v with
          | none => rfl
          | some gt =>
            rcases gt with ⟨g', t'⟩
            exfalso
            obtain ⟨b, w, hsw, ⟨vb, hbv⟩, hw⟩ := scan_split P rest.length rest le_rfl
            have hv : v = (x :: b) ++ w := by rw [← huv, hsw]; rfl
            have hnd := matchAt_no_dot Q lq v g' t' hq
            have hbnds := matchAt_bounds Q v g' t' hq
            have ht' : t' ≤ (x :: b).length := by
              rcases hw with rfl | ⟨w', rfl⟩
              · have hlen : v.length = (x :: b).length := by rw [hv]; simp
                omega
              · refine take_no_mid (x :: b) w' dot t' ?_
                rw [← hv]
                exact hnd
            have hxrest : x :: rest = (x :: b) ++ vb := by
              rw [← hbv]
              rfl
            have hagree : v.take t' = (x :: rest).take t' := by
              rw [hv, List.take_append_of_le_length ht', hxrest,
                List.take_append_of_le_length ht']
            obtain ⟨t₂, ht₂⟩ := matchAt_congr Q lq v (x :: rest) g' t' hq hagree
            rw [hnm [] (x :: rest) rfl] at ht₂
            exact Option.noConfusion ht₂
        | cons u0 u' =>
          have huv' : scan P rest = u' ++ v := by
            have := huv
            simp only [List.cons_append] at this
            exact (List.cons.injEq .. ▸ this).2
          exact ih rest (by simp at hl; omega) (NoMatch_tail Q x rest hnm) u' v huv'
      | some gt =>
        rcases gt with ⟨g, t⟩
        have hbm := matchAt_bounds P (x :: rest) g t hm
        rw [scan_cons_match P x rest g t hm]
        intro u v huv
        rw [List.append_assoc] at huv
        cases hq : matchAt Q v with
        | none => rfl
        | some gt' =>
          rcases gt' with ⟨g', t'⟩
          exfalso
          rcases List.append_eq_append_iff.mp huv.symm with ⟨c', hgc, hvc⟩ | ⟨a', hua, hdv⟩
          · -- v starts inside the kept group
            have hnd := matchAt_no_dot Q lq v g' t' hq
            have hvc' : v = c' ++ dot :: (dot :: dot :: scan P ((x :: rest).drop t)) := by
              rw [hvc]
              rfl
            have ht' : t' ≤ c'.length := by
              refine take_no_mid c' (dot :: dot :: scan P ((x :: rest).drop t)) dot t' ?_
              rw [← hvc']
              exact hnd
            have hlu : u.length + c'.length = g := by
              have hlen := congrArg List.length hgc
              simp only [List.length_take, List.length_append] at hlen
              omega
            have hsfx : (x :: rest).drop u.length = c' ++ (x :: rest).drop g := by
              have h1 : (x :: rest).drop u.length =
                  ((x :: rest).take g).drop u.length ++ (x :: rest).drop g := by
                conv_lhs => rw [← List.take_append_drop g (x :: rest)]
                rw [List.drop_append_of_le_length]
                rw [List.length_take]
                omega
              rw [h1, hgc, List.drop_left]
            have hagree : v.take t' = ((x :: rest).drop u.length).take t' := by
              rw [hvc', hsfx, List.take_append_of_le_length ht',
                List.take_append_of_le_length ht']
            obtain ⟨t₂, ht₂⟩ := matchAt_congr Q lq v ((x :: rest).drop u.length) g' t' hq hagree
            rw [hnm ((x :: rest).take u.length) ((x :: rest).drop u.length)
              (List.take_append_drop ..).symm] at ht₂
            exact Option.noConfusion ht₂
          · -- v lies inside dots ++ S (or equals a suffix of it)
            rcases List.append_eq_append_iff.mp hdv with ⟨a₂, ha', hS⟩ | ⟨c₂, hdots, hv2⟩
            · -- v is a suffix of S
              have hnmS : NoMatch Q ((x :: rest).drop t) := NoMatch_drop Q (x :: rest) t hnm
              have hres := ih ((x :: rest).drop t) (by simp at hl ⊢; omega) hnmS a₂ v hS
              rw [hq] at hres
              exact Option.noConfusion hres
            · cases c₂ with
              | nil =>
                simp only [List.nil_append] at hv2
                have hnmS : NoMatch Q ((x :: rest).drop t) := NoMatch_drop Q (x :: rest) t hnm
                have hres := ih ((x :: rest).drop t) (by simp at hl ⊢; omega) hnmS [] v
                  (by rw [← hv2]; rfl)
                rw [hq] at hres
                exact Option.noConfusion hres
              | cons y c₂' =>
                have hy : y = dot := dots_mem y (by rw [hdots]; simp)
                rw [hv2, hy] at hq
                exact Option.noConfusion ((matchAt_dot_head Q lq _).symm.trans hq)

/-- A pass of a lawful pattern leaves no match of that same pattern in its
output: kept groups are too constrained to contain one, deleted runs are
gone, and inserted dots block extension. -/
lemma scan_self_NoMatch (P : KeyPattern) (lp : Lawful P) :
    ∀ n l, l.length ≤ n → NoMatch P (scan P l) := by
  intro n
  induction n with
  | zero =>
    intro l hl
    have hnil : l = [] := List.eq_nil_of_length_eq_zero (by omega)
    subst hnil
    rw [scan_nil]
    exact NoMatch_nil P
  | succ n ih =>
    intro l hl
    cases l with
    | nil => rw [scan_nil]; exact NoMatch_nil P
    | cons x rest =>
      cases hm : matchAt P (x :: rest) with
      | none =>
        rw [scan_cons_none P x rest hm]
        intro u v huv
        cases u with
        | nil =>
          simp only [List.nil_append] at huv
          cases hq : matchAt P v with
          | none => rfl
          | some gt =>
            rcases gt with ⟨g', t'⟩
            exfalso
            obtain ⟨b, w, hsw, ⟨vb, hbv⟩, hw⟩ := scan_split P rest.length rest le_rfl
            have hv : v = (x :: b) ++ w := by rw [← huv, hsw]; rfl
            have hnd := matchAt_no_dot P lp v g' t' hq
            have hbnds := matchAt_bounds P v g' t' hq
            have ht' : t' ≤ (x :: b).length := by
              rcases hw with rfl | ⟨w', rfl⟩
              · have hlen : v.length = (x :: b).length := by rw [hv]; simp
                omega
              · refine take_no_mid (x :: b) w' dot t' ?_
                rw [← hv]
                exact hnd
            have hxrest : x :: rest = (x :: b) ++ vb := by
              rw [← hbv]
              rfl
            have hagree : v.take t' = (x :: rest).take t' := by
              rw [hv, List.take_append_of_le_length ht', hxrest,
                List.take_append_of_le_length ht']
            obtain ⟨t₂, ht₂⟩ := matchAt_congr P lp v (x :: rest) g' t' hq hagree
            rw [hm] at ht₂
            exact Option.noConfusion ht₂
        | cons u0 u' =>
          have huv' : scan P rest = u' ++ v := by
            simp only [List.cons_append] at huv
            exact (List.cons.injEq .. ▸ huv).2
          have hres := ih rest (by simp at hl; omega) u' v huv'
          exact hres
      | some gt =>
        rcases gt with ⟨g, t⟩
        have hbm := matchAt_bounds P (x :: rest) g t hm
        rw [scan_cons_match P x rest g t hm]
        intro u v huv
        rw [List.append_assoc] at huv
        cases hq : matchAt P v with
        | none => rfl
        | some gt' =>
          rcases gt' with ⟨g', t'⟩
          exfalso
          rcases List.append_eq_append_iff.mp huv.symm with ⟨c', hgc, hvc⟩ | ⟨a', hua, hdv⟩
          · -- v starts at or inside the kept group
            cases u with
            | nil =>
              simp only [List.nil_append] at hgc
              have hvc' : v = (x :: rest).take g ++ dot :: (dot :: dot :: scan P ((x :: rest).drop t)) := by
                rw [hvc, ← hgc]
                rfl
              rw [hvc'] at hq
              exact Option.noConfusion
                ((matchAt_grp_dot P lp (x :: rest) g t hm _).symm.trans hq)
            | cons u0 u' =>
              obtain ⟨k, hk, hg5, hlen5, hall5⟩ := matchAt_inv P (x :: rest) g t hm
              have hc' : c' = ((x :: rest).take g).drop (u0 :: u').length := by
                rw [hgc, List.drop_left]
              have hvc' : v = ((x :: rest).take (k + 5)).drop (u0 :: u').length
                  ++ dot :: (dot :: dot :: scan P ((x :: rest).drop t)) := by
                rw [hvc, hc', hg5]
                rfl
              rw [hvc'] at hq
              exact Option.noConfusion
                ((lp.no_inner (x :: rest) k hk hlen5 hall5 (u0 :: u').length
                  (dot :: dot :: scan P ((x :: rest).drop t)) (by simp)).symm.trans hq)
          · -- v lies inside dots ++ S (or equals a suffix of it)
            rcases List.append_eq_append_iff.mp hdv with ⟨a₂, ha', hS⟩ | ⟨c₂, hdots, hv2⟩
            · have hres := ih ((x :: rest).drop t) (by simp at hl ⊢; omega) a₂ v hS
              rw [hq] at hres
              exact Option.noConfusion hres
            · cases c₂ with
              | nil =>
                simp only [List.nil_append] at hv2
                have hres := ih ((x :: rest).drop t) (by simp at hl ⊢; omega) [] v
                  (by rw [← hv2]; rfl)
                rw [hq] at hres
                exact Option.noConfusion hres
              | cons y c₂' =>
                have hy : y = dot := dots_mem y (by rw [hdots]; simp)
                rw [hv2, hy] at hq
                exact Option.noConfusion ((matchAt_dot_head P lp _).symm.trans hq)

/-- A pass over match-free input is the identity. -/
lemma scan_of_NoMatch (P : KeyPattern) :
    ∀ l, NoMatch P l → scan P l = l := by
  intro l
  induction l with
  | nil => intro _; exact scan_nil P
  | cons x rest ih =>
    intro h
    rw [scan_cons_none P x rest (h [] (x :: rest) rfl),
      ih (NoMatch_tail P x rest h)]

lemma no_match_iff (P : KeyPattern) (l : List Char) :
    no_match P l = true ↔ NoMatch P l := by
  unfold no_match
  rw [List.all_eq_true]
  constructor
  · intro h u v huv
    by_cases hu : u.length ≤ l.length
    · have hmem : u.length ∈ List.range (l.length + 1) := by
        rw [List.mem_range]
        omega
      have hdrop : l.drop u.length = v := by
        rw [huv, List.drop_left]
      have := h u.length hmem
      rw [hdrop] at this
      exact Option.isNone_iff_eq_none.mp (by simpa using this)
    · exfalso
      apply hu
      rw [huv]
      simp
  · intro h i _
    have := h (l.take i) (l.drop i) (List.take_append_drop ..).symm
    simp [this]

lemma pred_ne (p : Char → Bool) (c₀ : Char) (hp : p c₀ = false) :
    ∀ ch, p ch = true → ch ≠ c₀ := by
  intro ch h heq
  subst heq
  rw [hp] at h
  exact Bool.noConfusion h

lemma take_head (s : List Char) (n : ℕ) (c : Char) (l' : List Char)
    (h : s.take n = c :: l') : s.head? = some c := by
  cases s with
  | nil => rw [List.take_nil] at h; exact List.noConfusion h
  | cons a s' =>
    cases n with
    | zero => exact List.noConfusion h
    | succ n =>
      rw [List.take_succ_cons] at h
      injection h with h1 h2
      rw [List.head?_cons, h1]

lemma takeWhile_congr (p : Char → Bool) :
    ∀ (xs ys : List Char),
      xs.take ((xs.takeWhile p).length + 1) = ys.take ((xs.takeWhile p).length + 1) →
      ys.takeWhile p = xs.takeWhile p := by
  intro xs
  induction xs with
  | nil =>
    intro ys h
    simp only [List.takeWhile_nil, List.length_nil, List.take_nil] at h ⊢
    have : ys = [] := by
      cases ys with
      | nil => rfl
      | cons y ys' => exact List.noConfusion h
    rw [this, List.takeWhile_nil]
  | cons x xs' ih =>
    intro ys h
    rw [List.takeWhile_cons] at h ⊢
    by_cases hpx : p x = true
    · rw [if_pos hpx] at h ⊢
      rw [List.length_cons, List.take_succ_cons] at h
      cases ys with
      | nil => exact List.noConfusion h
      | cons y ys' =>
        rw [List.take_succ_cons] at h
        have hxy : x = y := (List.cons.injEq .. ▸ h).1
        have htl : xs'.take ((xs'.takeWhile p).length + 1)
            = ys'.take ((xs'.takeWhile p).length + 1) := (List.cons.injEq .. ▸ h).2
        rw [List.takeWhile_cons, ← hxy, if_pos hpx, ih ys' htl]
    · rw [if_neg hpx] at h ⊢
      rw [List.length_nil, List.take_succ_cons, List.take_zero] at h
      cases ys with
      | nil => exact List.noConfusion h
      | cons y ys' =>
        rw [List.take_succ_cons, List.take_zero] at h
        have hxy : x = y := (List.cons.injEq .. ▸ h).1
        rw [List.takeWhile_cons, ← hxy, if_neg hpx]

lemma lit_some (w l : List Char) (k : ℕ) (h : lit w l = some k) :
    k = w.length ∧ l.take w.length = w := by
  unfold lit at h
  split at h
  · rename_i hp
    refine ⟨(Option.some.injEq .. ▸ h).symm, ?_⟩
    exact (List.prefix_iff_eq_take.mp (List.isPrefixOf_iff_prefix.mp hp)).symm
  · exact Option.noConfusion h

lemma lit_of_take (w l : List Char) (h : l.take w.length = w) :
    lit w l = some w.length := by
  unfold lit
  rw [if_pos (List.isPrefixOf_iff_prefix.mpr (List.prefix_iff_eq_take.mpr h.symm))]

/-- `matchAt_no_dot` with the three dot-freeness facts taken separately
(used while the `Lawful` instances are being established). -/
lemma matchAt_no_dot_of (P : KeyPattern)
    (hd : ∀ ch, P.d ch = true → ch ≠ dot) (hc : ∀ ch, P.c ch = true → ch ≠ dot)
    (hpre : ∀ l k, P.pre l = some k → dot ∉ l.take k)
    (l : List Char) (g t : ℕ)
    (h : matchAt P l = some (g, t)) : dot ∉ l.take t := by
  unfold matchAt at h
  cases hp : P.pre l with
  | none => rw [hp] at h; exact Option.noConfusion h
  | some k =>
    rw [hp] at h
    dsimp only at h
    split at h
    · rename_i hcond
      split at h
      · rename_i hrun
        have hgt : k + 5 = g ∧ k + 5 + (((l.drop k).drop 5).takeWhile P.c).length = t := by
          simpa using h
        obtain ⟨hg, ht⟩ := hgt
        simp only [Bool.and_eq_true, decide_eq_true_eq] at hcond
        intro hdot
        have hteq : t = k + (5 + (((l.drop k).drop 5).takeWhile P.c).length) := by omega
        rw [hteq, List.take_add, List.take_add, take_takeWhile] at hdot
        rcases List.mem_append.mp hdot with h1 | h23
        · exact hpre l k hp h1
        · rcases List.mem_append.mp h23 with h2 | h3
          · exact hd dot (List.all_eq_true.mp hcond.2 dot h2) rfl
          · exact hc dot (mem_takeWhile_pred P.c _ dot h3) rfl
      · exact Option.noConfusion h
    · exact Option.noConfusion h

/-- A consumed region free of dots cannot reach past the first inserted
dot. -/
lemma dot_blocks (s v : List Char) (t : ℕ)
    (hnd : dot ∉ (s ++ dot :: v).take t) (h' : s.length < t) : False := by
  apply hnd
  have ht : t = s.length + (t - s.length) := by omega
  rw [ht, List.take_append]
  apply List.mem_append.mpr
  right
  cases hj : t - s.length with
  | zero => omega
  | succ j => rw [List.take_succ_cons]; exact List.mem_cons_self ..

/-- `Lawful` for the fixed-literal-prefix patterns: the prefix always has
the same length, so a match starting inside the kept group would have to
end past the inserted dots. -/
lemma lawful_lit (w : List Char) (d c : Char → Bool)
    (hdd : ∀ ch, d ch = true → ch ≠ dot)
    (hcd : ∀ ch, c ch = true → ch ≠ dot)
    (hwd : dot ∉ w) :
    Lawful ⟨lit w, d, c⟩ := by
  have hpredot : ∀ l k, lit w l = some k → dot ∉ l.take k := by
    intro l k h
    obtain ⟨hk, htake⟩ := lit_some w l k h
    rw [hk, htake]
    exact hwd
  refine ⟨hdd, hcd, hpredot, ?_, ?_⟩
  · intro l k l₂ h hag
    obtain ⟨hk, htake⟩ := lit_some w l k h
    have h2 : l₂.take w.length = w := by
      have h1 := congrArg (List.take w.length) hag
      rw [List.take_take, List.take_take, Nat.min_eq_left (by omega)] at h1
      rw [← h1, htake]
    rw [hk]
    exact lit_of_take w l₂ h2
  · intro l k h hlen5 hall5 r v hr
    obtain ⟨hk, htake⟩ := lit_some w l k h
    cases hmm : matchAt ⟨lit w, d, c⟩ ((l.take (k + 5)).drop r ++ dot :: v) with
    | none => rfl
    | some gt =>
      exfalso
      rcases gt with ⟨g, t⟩
      have hnd := matchAt_no_dot_of ⟨lit w, d, c⟩ hdd hcd hpredot _ g t hmm
      have hts : t ≤ ((l.take (k + 5)).drop r).length := by
        by_contra h'
        exact dot_blocks _ v t hnd (by omega)
      obtain ⟨k', hk', hg', _, _⟩ := matchAt_inv _ _ g t hmm
      obtain ⟨hk'w, _⟩ := lit_some w _ k' hk'
      have hb := matchAt_bounds _ _ g t hmm
      have hsle : ((l.take (k + 5)).drop r).length ≤ k + 5 - r := by
        simp
        omega
      omega

lemma lawful_pat_sk : Lawful pat_sk :=
  lawful_lit _ _ _ (pred_ne is_alnum dot (by decide)) (pred_ne is_alnum dot (by decide))
    (by decide)

lemma lawful_pat_sk_ant : Lawful pat_sk_ant :=
  lawful_lit _ _ _ (pred_ne is_alnum dot (by decide)) (pred_ne is_alnum_dash dot (by decide))
    (by decide)

lemma lawful_pat_sk_proj : Lawful pat_sk_proj :=
  lawful_lit _ _ _ (pred_ne is_alnum dot (by decide)) (pred_ne is_alnum dot (by decide))
    (by decide)

/-- The `no_inner` obligation for the variable-length prefixes: the
prefix always starts with a distinguished character `c₀` that occurs
nowhere else in the consumed prefix region, so a match strictly inside
the kept group would have to start with a character that is not there. -/
lemma no_inner_core (P : KeyPattern) (c₀ : Char) (w₀ : List Char) (n₀ : ℕ) (h₀ : 1 ≤ n₀)
    (hd : ∀ ch, P.d ch = true → ch ≠ dot)
    (hc : ∀ ch, P.c ch = true → ch ≠ dot)
    (hpre : ∀ l k, P.pre l = some k → dot ∉ l.take k)
    (hfirst : ∀ l k, P.pre l = some k → n₀ ≤ k ∧ l.take n₀ = c₀ :: w₀)
    (hinterior : ∀ l k, P.pre l = some k → ∀ ch ∈ (l.take k).drop 1, ch ≠ c₀) :
    ∀ l k, P.pre l = some k →
      ((l.drop k).take 5).length = 5 → ((l.drop k).take 5).all P.d = true →
      ∀ r v, 1 ≤ r → matchAt P ((l.take (k + 5)).drop r ++ dot :: v) = none := by
  intro l k hp hlen5 hall5 r v hr
  cases hmm : matchAt P ((l.take (k + 5)).drop r ++ dot :: v) with
  | none => rfl
  | some gt =>
    exfalso
    rcases gt with ⟨g, t⟩
    have hnd := matchAt_no_dot_of P hd hc hpre _ g t hmm
    have hts : t ≤ ((l.take (k + 5)).drop r).length := by
      by_contra h'
      exact dot_blocks _ v t hnd (by omega)
    obtain ⟨k', hk', hg', _, _⟩ := matchAt_inv P _ g t hmm
    have hb := matchAt_bounds P _ g t hmm
    have hsle : ((l.take (k + 5)).drop r).length ≤ k + 5 - r := by
      simp
      omega
    by_cases hrk : k ≤ r
    · have h1 := (hfirst _ _ hk').1
      omega
    · obtain ⟨hn₀, htk⟩ := hfirst _ _ hk'
      have hlen : k + 5 ≤ l.length := by
        have h5 : ((l.drop k).take 5).length = min 5 (l.drop k).length := List.length_take ..
        rw [hlen5] at h5
        have h6 : (l.drop k).length = l.length - k := List.length_drop ..
        omega
      have hslen : ((l.take (k + 5)).drop r).length = k + 5 - r := by
        simp
        omega
      cases hs : (l.take (k + 5)).drop r with
      | nil => rw [hs] at hslen; simp at hslen; omega
      | cons a s' =>
        rw [hs] at htk
        have ha : a = c₀ := by
          rw [List.cons_append] at htk
          cases n₀ with
          | zero => omega
          | succ n₀' =>
            rw [List.take_succ_cons] at htk
            exact (List.cons.injEq .. ▸ htk).1
        have hget : l[r]? = some a := by
          have h1 : ((l.take (k + 5)).drop r).head? = (l.take (k + 5))[r]? :=
            List.head?_drop ..
          rw [hs, List.head?_cons, List.getElem?_take, if_pos (by omega)] at h1
          exact h1.symm
        have hmem : a ∈ (l.take k).drop 1 := by
          have h2 : ((l.take k).drop 1)[r - 1]? = l[r]? := by
            rw [List.getElem?_drop, show 1 + (r - 1) = r from by omega,
              List.getElem?_take, if_pos (by omega)]
          exact List.getElem?_mem (h2.trans hget)
        exact hinterior l k hp a hmem ha

lemma pre_bearer_some (l : List Char) (k : ℕ) (h : pre_bearer l = some k) :
    1 ≤ ((l.drop 6).takeWhile is_space).length
    ∧ k = 6 + ((l.drop 6).takeWhile is_space).length
    ∧ l.take 6 = "Bearer".data := by
  unfold pre_bearer at h
  cases hb : lit "Bearer".data l with
  | none => rw [hb] at h; exact Option.noConfusion h
  | some k1 =>
    rw [hb] at h
    obtain ⟨hk1, htake⟩ := lit_some _ l k1 hb
    have h6 : ("Bearer".data).length = 6 := rfl
    dsimp only at h
    split at h
    · exact Option.noConfusion h
    · rename_i hw
      subst hk1
      have hk := Option.some.inj h
      rw [h6] at hk hw htake
      exact ⟨by omega, by omega, htake⟩

lemma pre_bearer_intro (l : List Char)
    (h6 : l.take 6 = "Bearer".data)
    (hw : 1 ≤ ((l.drop 6).takeWhile is_space).length) :
    pre_bearer l = some (6 + ((l.drop 6).takeWhile is_space).length) := by
  unfold pre_bearer
  have hlit : lit "Bearer".data l = some 6 := by
    have h1 := lit_of_take "Bearer".data l
      (by rw [show ("Bearer".data).length = 6 from rfl]; exact h6)
    rwa [show ("Bearer".data).length = 6 from rfl] at h1
  rw [hlit]
  dsimp only
  rw [if_neg (by omega)]

lemma bearer_take_k (l : List Char) (k : ℕ) (h : pre_bearer l = some k) :
    l.take k = "Bearer".data ++ (l.drop 6).takeWhile is_space := by
  obtain ⟨hw1, hk, h6⟩ := pre_bearer_some l k h
  rw [hk, List.take_add, h6, take_takeWhile]

lemma pre_bearer_dot (l : List Char) (k : ℕ) (h : pre_bearer l = some k) :
    dot ∉ l.take k := by
  rw [bearer_take_k l k h]
  intro hmem
  rcases List.mem_append.mp hmem with h1 | h2
  · revert h1; decide
  · exact pred_ne is_space dot (by decide) dot (mem_takeWhile_pred is_space _ dot h2) rfl

lemma pre_bearer_localized (l : List Char) (k : ℕ) (l₂ : List Char)
    (h : pre_bearer l = some k) (hag : l.take (k + 1) = l₂.take (k + 1)) :
    pre_bearer l₂ = some k := by
  obtain ⟨hw1, hk, h6⟩ := pre_bearer_some l k h
  have h6' : l₂.take 6 = "Bearer".data := by
    have h1 := congrArg (List.take 6) hag
    rw [List.take_take, List.take_take, Nat.min_eq_left (by omega)] at h1
    rw [← h1, h6]
  have hagw : (l.drop 6).take (((l.drop 6).takeWhile is_space).length + 1)
      = (l₂.drop 6).take (((l.drop 6).takeWhile is_space).length + 1) :=
    take_agree_drop_take l l₂ (k + 1) 6 (((l.drop 6).takeWhile is_space).length + 1)
      hag (by omega)
  have htw : (l₂.drop 6).takeWhile is_space = (l.drop 6).takeWhile is_space :=
    takeWhile_congr is_space (l.drop 6) (l₂.drop 6) hagw
  have h2 := pre_bearer_intro l₂ h6' (by rw [htw]; exact hw1)
  rw [htw] at h2
  rw [hk]
  exact h2

lemma pre_bearer_interior (l : List Char) (k : ℕ) (h : pre_bearer l = some k) :
    ∀ ch ∈ (l.take k).drop 1, ch ≠ 'B' := by
  rw [bearer_take_k l k h]
  intro ch hch
  have hdrop : ("Bearer".data ++ (l.drop 6).takeWhile is_space).drop 1
      = ['e','a','r','e','r'] ++ (l.drop 6).takeWhile is_space := rfl
  rw [hdrop] at hch
  rcases List.mem_append.mp hch with h1 | h2
  · have hall : ∀ c ∈ ['e','a','r','e','r'], c ≠ 'B' := by decide
    exact hall ch h1
  · exact pred_ne is_space 'B' (by decide) ch (mem_takeWhile_pred is_space _ ch h2)

lemma lawful_pat_bearer : Lawful pat_bearer := by
  have hd := pred_ne is_word dot (by decide)
  refine ⟨hd, hd, pre_bearer_dot, pre_bearer_localized, ?_⟩
  exact no_inner_core pat_bearer 'B' "earer".data 6 (by omega) hd hd pre_bearer_dot
    (fun l k h => ⟨by obtain ⟨h1, h2, _⟩ := pre_bearer_some l k h; omega,
      by rw [(pre_bearer_some l k h).2.2]⟩)
    pre_bearer_interior

lemma pre_api_key_json_some (l : List Char) (k : ℕ) (h : pre_api_key_json l = some k) :
    k = 9 + ((l.drop 9).takeWhile is_space).length + 4
    ∧ l.take 9 = "api_key\":".data
    ∧ (l.drop (9 + ((l.drop 9).takeWhile is_space).length)).take 4 = "\"sk-".data := by
  unfold pre_api_key_json at h
  cases h1 : lit "api_key\":".data l with
  | none => rw [h1] at h; exact Option.noConfusion h
  | some k1 =>
    rw [h1] at h
    obtain ⟨hk1, htake⟩ := lit_some _ l k1 h1
    have h9 : ("api_key\":".data).length = 9 := rfl
    subst hk1
    rw [h9] at htake h
    dsimp only at h
    cases h2 : lit "\"sk-".data (l.drop (9 + ((l.drop 9).takeWhile is_space).length)) with
    | none => rw [h2] at h; exact Option.noConfusion h
    | some k2 =>
      rw [h2] at h
      obtain ⟨hk2, htake2⟩ := lit_some _ _ k2 h2
      have h4 : ("\"sk-".data).length = 4 := rfl
      subst hk2
      rw [h4] at htake2 h
      exact ⟨(Option.some.inj h).symm, htake, htake2⟩

lemma pre_api_key_json_intro (l : List Char)
    (h9 : l.take 9 = "api_key\":".data)
    (hB : (l.drop (9 + ((l.drop 9).takeWhile is_space).length)).take 4 = "\"sk-".data) :
    pre_api_key_json l = some (9 + ((l.drop 9).takeWhile is_space).length + 4) := by
  unfold pre_api_key_json
  have hlitA : lit "api_key\":".data l = some 9 := by
    have h1 := lit_of_take "api_key\":".data l
      (by rw [show ("api_key\":".data).length = 9 from rfl]; exact h9)
    rwa [show ("api_key\":".data).length = 9 from rfl] at h1
  rw [hlitA]
  dsimp only
  have hlitB : lit "\"sk-".data (l.drop (9 + ((l.drop 9).takeWhile is_space).length))
      = some 4 := by
    have h1 := lit_of_take "\"sk-".data _
      (by rw [show ("\"sk-".data).length = 4 from rfl]; exact hB)
    rwa [show ("\"sk-".data).length = 4 from rfl] at h1
  rw [hlitB]

lemma json_take_k (l : List Char) (k : ℕ) (h : pre_api_key_json l = some k) :
    l.take k = "api_key\":".data ++ ((l.drop 9).takeWhile is_space
      ++ (l.drop (9 + ((l.drop 9).takeWhile is_space).length)).take 4) := by
  obtain ⟨hk, h9, hB⟩ := pre_api_key_json_some l k h
  rw [hk, show 9 + ((l.drop 9).takeWhile is_space).length + 4
      = 9 + (((l.drop 9).takeWhile is_space).length + 4) from by omega,
    List.take_add, h9, List.take_add, take_takeWhile, List.drop_drop]

lemma pre_api_key_json_dot (l : List Char) (k : ℕ) (h : pre_api_key_json l = some k) :
    dot ∉ l.take k := by
  obtain ⟨_, _, hB⟩ := pre_api_key_json_some l k h
  rw [json_take_k l k h, hB]
  intro hmem
  rcases List.mem_append.mp hmem with h1 | h23
  · revert h1; decide
  · rcases List.mem_append.mp h23 with h2 | h3
    · exact pred_ne is_space dot (by decide) dot (mem_takeWhile_pred is_space _ dot h2) rfl
    · revert h3; decide

lemma pre_api_key_json_localized (l : List Char) (k : ℕ) (l₂ : List Char)
    (h : pre_api_key_json l = some k) (hag : l.take (k + 1) = l₂.take (k + 1)) :
    pre_api_key_json l₂ = some k := by
  obtain ⟨hk, h9, hB⟩ := pre_api_key_json_some l k h
  have h9' : l₂.take 9 = "api_key\":".data := by
    have h1 := congrArg (List.take 9) hag
    rw [List.take_take, List.take_take, Nat.min_eq_left (by omega)] at h1
    rw [← h1, h9]
  have hagw : (l.drop 9).take (((l.drop 9).takeWhile is_space).length + 1)
      = (l₂.drop 9).take (((l.drop 9).takeWhile is_space).length + 1) :=
    take_agree_drop_take l l₂ (k + 1) 9 (((l.drop 9).takeWhile is_space).length + 1)
      hag (by omega)
  have htw : (l₂.drop 9).takeWhile is_space = (l.drop 9).takeWhile is_space :=
    takeWhile_congr is_space (l.drop 9) (l₂.drop 9) hagw
  have hB' : (l₂.drop (9 + ((l₂.drop 9).takeWhile is_space).length)).take 4
      = "\"sk-".data := by
    rw [htw]
    have h2 := take_agree_drop_take l l₂ (k + 1)
      (9 + ((l.drop 9).takeWhile is_space).length) 4 hag (by omega)
    rw [← h2, hB]
  have h2 := pre_api_key_json_intro l₂ h9' hB'
  rw [htw] at h2
  rw [hk]
  exact h2

lemma pre_api_key_json_interior (l : List Char) (k : ℕ)
    (h : pre_api_key_json l = some k) :
    ∀ ch ∈ (l.take k).drop 1, ch ≠ 'a' := by
  obtain ⟨_, _, hB⟩ := pre_api_key_json_some l k h
  rw [json_take_k l k h, hB]
  intro ch hch
  have hdrop : ("api_key\":".data ++ ((l.drop 9).takeWhile is_space ++ "\"sk-".data)).drop 1
      = ['p','i','_','k','e','y','"',':']
        ++ ((l.drop 9).takeWhile is_space ++ "\"sk-".data) := rfl
  rw [hdrop] at hch
  rcases List.mem_append.mp hch with h1 | h23
  · have hall : ∀ c ∈ ['p','i','_','k','e','y','"',':'], c ≠ 'a' := by decide
    exact hall ch h1
  · rcases List.mem_append.mp h23 with h2 | h3
    · exact pred_ne is_space 'a' (by decide) ch (mem_takeWhile_pred is_space _ ch h2)
    · have hall : ∀ c ∈ "\"sk-".data, c ≠ 'a' := by decide
      exact hall ch h3

lemma lawful_pat_api_key_json : Lawful pat_api_key_json := by
  have hd := pred_ne is_alnum dot (by decide)
  have hc := pred_ne is_word dot (by decide)
  refine ⟨hd, hc, pre_api_key_json_dot, pre_api_key_json_localized, ?_⟩
  exact no_inner_core pat_api_key_json 'a' "pi_key\":".data 9 (by omega) hd hc
    pre_api_key_json_dot
    (fun l k h => ⟨by obtain ⟨h1, _, _⟩ := pre_api_key_json_some l k h; omega,
      by rw [(pre_api_key_json_some l k h).2.1]⟩)
    pre_api_key_json_interior

lemma drop_cons_take_one (l : List Char) (n : ℕ) (x : Char) (xs : List Char)
    (h : l.drop n = x :: xs) : (l.drop n).take 1 = [x] := by
  rw [h, List.take_succ_cons, List.take_zero]

lemma drop_cons_tail (l : List Char) (n : ℕ) (x : Char) (xs : List Char)
    (h : l.drop n = x :: xs) : l.drop (n + 1) = xs := by
  have h1 : (l.drop n).drop 1 = xs := by
    rw [h, List.drop_succ_cons, List.drop_zero]
  rw [List.drop_drop] at h1
  exact h1

lemma pre_api_key_generic_some (l : List Char) (k : ℕ)
    (h : pre_api_key_generic l = some k) :
    ∃ k2 w1 w2 q1 q2,
      k = 3 + k2 + 1 + w1 + 1 + w2 + 1
      ∧ l.take 3 = "api".data
      ∧ ((k2 = 3 ∧ (l.drop 3).take 3 = "key".data)
        ∨ (k2 = 4 ∧ ∃ ch, (ch = '_' ∨ ch = '-') ∧ (l.drop 3).take 4 = ch :: "key".data))
      ∧ (l.drop (3 + k2)).take 1 = [q1]
      ∧ is_quote q1 = true
      ∧ w1 = ((l.drop (3 + k2 + 1)).takeWhile is_space).length
      ∧ (l.drop (3 + k2 + 1 + w1)).take 1 = [':']
      ∧ w2 = ((l.drop (3 + k2 + 1 + w1 + 1)).takeWhile is_space).length
      ∧ (l.drop (3 + k2 + 1 + w1 + 1 + w2)).take 1 = [q2]
      ∧ is_quote q2 = true := by
  unfold pre_api_key_generic at h
  split at h
  · exact Option.noConfusion h
  · rename_i k1 hlit
    obtain ⟨hk1, htake3⟩ := lit_some _ l k1 hlit
    have h3 : ("api".data).length = 3 := rfl
    subst hk1
    rw [h3] at htake3 h
    dsimp only at h
    split at h
    · exact Option.noConfusion h
    · rename_i k2 hopt
      have hbranch : (k2 = 3 ∧ (l.drop 3).take 3 = "key".data)
          ∨ (k2 = 4 ∧ ∃ c, (c = '_' ∨ c = '-') ∧ (l.drop 3).take 4 = c :: "key".data) := by
        split at hopt
        · rename_i ch rest' hd3
          split at hopt
          · rename_i hb1
            right
            simp only [Bool.and_eq_true, Bool.or_eq_true, decide_eq_true_eq] at hb1
            have hkeyp : "key".data <+: rest' := List.isPrefixOf_iff_prefix.mp hb1.2
            have hkey := List.prefix_iff_eq_take.mp hkeyp
            rw [show ("key".data).length = 3 from rfl] at hkey
            refine ⟨(Option.some.inj hopt).symm, ch, hb1.1, ?_⟩
            rw [hd3, List.take_succ_cons, ← hkey]
          · split at hopt
            · rename_i hb2
              left
              have hkeyp : "key".data <+: ch :: rest' := List.isPrefixOf_iff_prefix.mp hb2
              have hkey := List.prefix_iff_eq_take.mp hkeyp
              rw [show ("key".data).length = 3 from rfl] at hkey
              refine ⟨(Option.some.inj hopt).symm, ?_⟩
              rw [hd3, ← hkey]
            · exact Option.noConfusion hopt
        · exact Option.noConfusion hopt
      split at h
      · rename_i q1 rest3 hq1
        split at h
        · rename_i hq
          have hrest3 : rest3 = l.drop (3 + k2 + 1) := (drop_cons_tail l _ q1 rest3 hq1).symm
          subst hrest3
          split at h
          · rename_i c rest4 hc3
            have hc3' : l.drop (3 + k2 + 1 + ((l.drop (3 + k2 + 1)).takeWhile is_space).length)
                = c :: rest4 := by
              rw [← hc3, List.drop_drop]
            split at h
            · rename_i hcc
              have hrest4 : rest4 = l.drop
                  (3 + k2 + 1 + ((l.drop (3 + k2 + 1)).takeWhile is_space).length + 1) :=
                (drop_cons_tail l _ c rest4 hc3').symm
              subst hrest4
              split at h
              · rename_i q2 rest5 hq2s
                have hq2s' : l.drop (3 + k2 + 1
                      + ((l.drop (3 + k2 + 1)).takeWhile is_space).length + 1
                      + ((l.drop (3 + k2 + 1 + ((l.drop (3 + k2 + 1)).takeWhile is_space).length + 1)).takeWhile is_space).length)
                    = q2 :: rest5 := by
                  rw [← hq2s, List.drop_drop]
                split at h
                · rename_i hq2q
                  exact ⟨k2, ((l.drop (3 + k2 + 1)).takeWhile is_space).length,
                    ((l.drop (3 + k2 + 1 + ((l.drop (3 + k2 + 1)).takeWhile is_space).length + 1)).takeWhile is_space).length,
                    q1, q2, (Option.some.inj h).symm, htake3, hbranch,
                    drop_cons_take_one l _ q1 _ hq1, hq, rfl,
                    by rw [drop_cons_take_one l _ c _ hc3', hcc],
                    rfl, drop_cons_take_one l _ q2 _ hq2s', hq2q⟩
                · exact Option.noConfusion h
              · exact Option.noConfusion h
            · exact Option.noConfusion h
          · exact Option.noConfusion h
        · exact Option.noConfusion h
      · exact Option.noConfusion h

lemma take_one_cons (l : List Char) (n : ℕ) (x : Char)
    (h : (l.drop n).take 1 = [x]) : ∃ xs, l.drop n = x :: xs := by
  cases h' : l.drop n with
  | nil => rw [h'] at h; exact List.noConfusion h
  | cons a as =>
    rw [h', List.take_succ_cons, List.take_zero] at h
    injection h with h1 _
    exact ⟨as, by rw [h1]⟩

lemma pre_api_key_generic_intro (l : List Char) (k2 : ℕ) (q1 q2 : Char)
    (h3 : l.take 3 = "api".data)
    (hbr : (k2 = 3 ∧ (l.drop 3).take 3 = "key".data)
      ∨ (k2 = 4 ∧ ∃ c, (c = '_' ∨ c = '-') ∧ (l.drop 3).take 4 = c :: "key".data))
    (hq1 : (l.drop (3 + k2)).take 1 = [q1]) (hq1q : is_quote q1 = true)
    (hcol : (l.drop (3 + k2 + 1
      + ((l.drop (3 + k2 + 1)).takeWhile is_space).length)).take 1 = [':'])
    (hq2 : (l.drop (3 + k2 + 1 + ((l.drop (3 + k2 + 1)).takeWhile is_space).length + 1
      + ((l.drop (3 + k2 + 1 + ((l.drop (3 + k2 + 1)).takeWhile is_space).length + 1)).takeWhile is_space).length)).take 1
      = [q2])
    (hq2q : is_quote q2 = true) :
    pre_api_key_generic l
      = some (3 + k2 + 1 + ((l.drop (3 + k2 + 1)).takeWhile is_space).length + 1
        + ((l.drop (3 + k2 + 1 + ((l.drop (3 + k2 + 1)).takeWhile is_space).length + 1)).takeWhile is_space).length
        + 1) := by
  have hkeyD : "key".data = ['k','e','y'] := rfl
  obtain ⟨r1, hq1c⟩ := take_one_cons l (3 + k2) q1 hq1
  obtain ⟨r2, hcolc⟩ := take_one_cons l _ ':' hcol
  obtain ⟨r3, hq2c⟩ := take_one_cons l _ q2 hq2
  have hlit3 : lit "api".data l = some 3 := by
    have h1 := lit_of_take "api".data l
      (by rw [show ("api".data).length = 3 from rfl]; exact h3)
    rwa [show ("api".data).length = 3 from rfl] at h1
  unfold pre_api_key_generic
  split
  · rename_i hl
    rw [hl] at hlit3
    exact Option.noConfusion hlit3
  · rename_i k1 hl
    rw [hl] at hlit3
    have hk1 : k1 = 3 := Option.some.inj hlit3
    subst hk1
    dsimp only
    split
    · rename_i hopt
      exfalso
      rcases hbr with ⟨hk2, hkey3⟩ | ⟨hk2, ch, hch, hkey4⟩
      · rw [hkeyD] at hkey3
        split at hopt
        · rename_i a rest' hd3
          rw [hd3, List.take_succ_cons] at hkey3
          injection hkey3 with ha hrest
          split at hopt
          · exact Option.noConfusion hopt
          · split at hopt
            · exact Option.noConfusion hopt
            · rename_i hb2
              apply hb2
              refine List.isPrefixOf_iff_prefix.mpr (List.prefix_iff_eq_take.mpr ?_)
              rw [show (['k','e','y'] : List Char).length = 3 from rfl,
                List.take_succ_cons, hrest, ha]
        · rename_i hd3
          rw [hd3] at hkey3
          simp at hkey3
      · rw [hkeyD] at hkey4
        split at hopt
        · rename_i a rest' hd3
          rw [hd3, List.take_succ_cons] at hkey4
          injection hkey4 with ha hrest
          split at hopt
          · exact Option.noConfusion hopt
          · rename_i hb1
            apply hb1
            simp only [Bool.and_eq_true, Bool.or_eq_true, decide_eq_true_eq]
            constructor
            · rw [ha]; exact hch
            · refine List.isPrefixOf_iff_prefix.mpr (List.prefix_iff_eq_take.mpr ?_)
              rw [show (['k','e','y'] : List Char).length = 3 from rfl]
              exact hrest.symm
        · rename_i hd3
          rw [hd3] at hkey4
          simp at hkey4
    · rename_i k2' hopt
      have hk2' : k2 = k2' := by
        rcases hbr with ⟨hk2, hkey3⟩ | ⟨hk2, ch, hch, hkey4⟩
        · subst hk2
          rw [hkeyD] at hkey3
          split at hopt
          · rename_i a rest' hd3
            rw [hd3, List.take_succ_cons] at hkey3
            injection hkey3 with ha hrest
            split at hopt
            · rename_i hb1
              exfalso
              subst ha
              simp only [Bool.and_eq_true, Bool.or_eq_true, decide_eq_true_eq] at hb1
              rcases hb1.1 with h' | h' <;> exact absurd h' (by decide)
            · split at hopt
              · exact Option.some.inj hopt
              · rename_i hb2
                exfalso
                apply hb2
                refine List.isPrefixOf_iff_prefix.mpr (List.prefix_iff_eq_take.mpr ?_)
                rw [show (['k','e','y'] : List Char).length = 3 from rfl,
                  List.take_succ_cons, hrest, ha]
          · rename_i hd3
            exfalso
            rw [hd3] at hkey3
            simp at hkey3
        · subst hk2
          rw [hkeyD] at hkey4
          split at hopt
          · rename_i a rest' hd3
            rw [hd3, List.take_succ_cons] at hkey4
            injection hkey4 with ha hrest
            split at hopt
            · exact Option.some.inj hopt
            · rename_i hb1
              exfalso
              apply hb1
              simp only [Bool.and_eq_true, Bool.or_eq_true, decide_eq_true_eq]
              constructor
              · rw [ha]; exact hch
              · refine List.isPrefixOf_iff_prefix.mpr (List.prefix_iff_eq_take.mpr ?_)
                rw [show (['k','e','y'] : List Char).length = 3 from rfl]
                exact hrest.symm
          · rename_i hd3
            exfalso
            rw [hd3] at hkey4
            simp at hkey4
      subst hk2'
      split
      · rename_i q1' rest3 heq1
        rw [hq1c] at heq1
        injection heq1 with hq1e hrest3
        subst hq1e
        have hr1 : r1 = l.drop (3 + k2 + 1) := (drop_cons_tail l _ q1 r1 hq1c).symm
        rw [← hrest3, hr1]
        split
        · rename_i hqt
          rw [show (l.drop (3 + k2 + 1)).drop ((l.drop (3 + k2 + 1)).takeWhile is_space).length
            = l.drop (3 + k2 + 1 + ((l.drop (3 + k2 + 1)).takeWhile is_space).length)
            from by rw [List.drop_drop]]
          split
          · rename_i c rest4 heqc
            rw [hcolc] at heqc
            injection heqc with hce hrest4
            subst hce
            have hr2 : r2 = l.drop (3 + k2 + 1
                + ((l.drop (3 + k2 + 1)).takeWhile is_space).length + 1) :=
              (drop_cons_tail l _ ':' r2 hcolc).symm
            rw [← hrest4, hr2]
            split
            · rw [show (l.drop (3 + k2 + 1 + ((l.drop (3 + k2 + 1)).takeWhile is_space).length + 1)).drop
                  ((l.drop (3 + k2 + 1 + ((l.drop (3 + k2 + 1)).takeWhile is_space).length + 1)).takeWhile is_space).length
                = l.drop (3 + k2 + 1 + ((l.drop (3 + k2 + 1)).takeWhile is_space).length + 1
                  + ((l.drop (3 + k2 + 1 + ((l.drop (3 + k2 + 1)).takeWhile is_space).length + 1)).takeWhile is_space).length)
                from by rw [List.drop_drop]]
              split
              · rename_i q2' rest5 heq2
                rw [hq2c] at heq2
                injection heq2 with hq2e _
                subst hq2e
                split
                · rfl
                · rename_i hq2f
                  exact absurd hq2q hq2f
              · rename_i heq2
                rw [hq2c] at heq2
                exact List.noConfusion heq2
            · rename_i hcf
              exact absurd rfl hcf
          · rename_i heqc
            rw [hcolc] at heqc
            exact List.noConfusion heqc
        · rename_i hqf
          exact absurd hq1q hqf
      · rename_i heq1
        rw [hq1c] at heq1
        exact List.noConfusion heq1

lemma generic_take_k (l : List Char) (k k2 w1 w2 : ℕ) (q1 q2 : Char)
    (hk : k = 3 + k2 + 1 + w1 + 1 + w2 + 1)
    (h3 : l.take 3 = "api".data)
    (hq1 : (l.drop (3 + k2)).take 1 = [q1])
    (hw1 : w1 = ((l.drop (3 + k2 + 1)).takeWhile is_space).length)
    (hcol : (l.drop (3 + k2 + 1 + w1)).take 1 = [':'])
    (hw2 : w2 = ((l.drop (3 + k2 + 1 + w1 + 1)).takeWhile is_space).length)
    (hq2 : (l.drop (3 + k2 + 1 + w1 + 1 + w2)).take 1 = [q2]) :
    l.take k = "api".data ++ ((l.drop 3).take k2 ++ ([q1]
      ++ ((l.drop (3 + k2 + 1)).takeWhile is_space ++ ([':']
      ++ ((l.drop (3 + k2 + 1 + ((l.drop (3 + k2 + 1)).takeWhile is_space).length + 1)).takeWhile is_space
        ++ [q2]))))) := by
  subst hk
  subst hw1
  subst hw2
  rw [show 3 + k2 + 1 + ((l.drop (3 + k2 + 1)).takeWhile is_space).length + 1
        + ((l.drop (3 + k2 + 1 + ((l.drop (3 + k2 + 1)).takeWhile is_space).length + 1)).takeWhile is_space).length + 1
      = 3 + (k2 + (1 + (((l.drop (3 + k2 + 1)).takeWhile is_space).length + (1
        + (((l.drop (3 + k2 + 1 + ((l.drop (3 + k2 + 1)).takeWhile is_space).length + 1)).takeWhile is_space).length + 1)))))
      from by omega]
  rw [List.take_add, h3]
  congr 1
  rw [List.take_add]
  congr 1
  rw [List.drop_drop, List.take_add, hq1]
  congr 1
  rw [List.drop_drop, List.take_add, take_takeWhile]
  congr 1
  rw [List.drop_drop, List.take_add, hcol]
  congr 1
  rw [List.drop_drop, List.take_add, take_takeWhile]
  congr 1
  rw [List.drop_drop]
  exact hq2

lemma pre_api_key_generic_dot (l : List Char) (k : ℕ)
    (h : pre_api_key_generic l = some k) : dot ∉ l.take k := by
  obtain ⟨k2, w1, w2, q1, q2, hk, h3, hbr, hq1, hq1q, hw1, hcol, hw2, hq2, hq2q⟩ :=
    pre_api_key_generic_some l k h
  rw [generic_take_k l k k2 w1 w2 q1 q2 hk h3 hq1 hw1 hcol hw2 hq2]
  intro hmem
  rcases List.mem_append.mp hmem with h1 | hmem
  · revert h1; decide
  rcases List.mem_append.mp hmem with h2 | hmem
  · rcases hbr with ⟨rfl, hkey⟩ | ⟨rfl, ch, hch, hkey⟩
    · rw [hkey] at h2; revert h2; decide
    · rw [hkey] at h2
      rcases List.mem_cons.mp h2 with h2 | h2
      · rcases hch with rfl | rfl <;> exact absurd h2 (by decide)
      · revert h2; decide
  rcases List.mem_append.mp hmem with h3' | hmem
  · have hdq : dot = q1 := by simpa using h3'
    exact pred_ne is_quote dot (by decide) q1 hq1q hdq.symm
  rcases List.mem_append.mp hmem with h4 | hmem
  · exact pred_ne is_space dot (by decide) dot (mem_takeWhile_pred is_space _ dot h4) rfl
  rcases List.mem_append.mp hmem with h5 | hmem
  · have hdc : dot = ':' := by simpa using h5
    exact absurd hdc (by decide)
  rcases List.mem_append.mp hmem with h6 | h7
  · exact pred_ne is_space dot (by decide) dot (mem_takeWhile_pred is_space _ dot h6) rfl
  · have hdq : dot = q2 := by simpa using h7
    exact pred_ne is_quote dot (by decide) q2 hq2q hdq.symm

lemma pre_api_key_generic_interior (l : List Char) (k : ℕ)
    (h : pre_api_key_generic l = some k) :
    ∀ ch ∈ (l.take k).drop 1, ch ≠ 'a' := by
  obtain ⟨k2, w1, w2, q1, q2, hk, h3, hbr, hq1, hq1q, hw1, hcol, hw2, hq2, hq2q⟩ :=
    pre_api_key_generic_some l k h
  rw [generic_take_k l k k2 w1 w2 q1 q2 hk h3 hq1 hw1 hcol hw2 hq2]
  have hdrop : ∀ B : List Char, ("api".data ++ B).drop 1 = ['p','i'] ++ B := fun B => rfl
  intro c0 hch
  rw [hdrop] at hch
  rcases List.mem_append.mp hch with h1 | hmem
  · have hall : ∀ c ∈ ['p','i'], c ≠ 'a' := by decide
    exact hall c0 h1
  rcases List.mem_append.mp hmem with h2 | hmem
  · rcases hbr with ⟨rfl, hkey⟩ | ⟨rfl, ch, hch', hkey⟩
    · rw [hkey] at h2
      have hall : ∀ c ∈ "key".data, c ≠ 'a' := by decide
      exact hall c0 h2
    · rw [hkey] at h2
      rcases List.mem_cons.mp h2 with h2 | h2
      · rcases hch' with rfl | rfl <;> (rw [h2]; decide)
      · have hall : ∀ c ∈ "key".data, c ≠ 'a' := by decide
        exact hall c0 h2
  rcases List.mem_append.mp hmem with h3' | hmem
  · have hdq : c0 = q1 := by simpa using h3'
    rw [hdq]
    exact pred_ne is_quote 'a' (by decide) q1 hq1q
  rcases List.mem_append.mp hmem with h4 | hmem
  · exact pred_ne is_space 'a' (by decide) c0 (mem_takeWhile_pred is_space _ c0 h4)
  rcases List.mem_append.mp hmem with h5 | hmem
  · have hdc : c0 = ':' := by simpa using h5
    rw [hdc]; decide
  rcases List.mem_append.mp hmem with h6 | h7
  · exact pred_ne is_space 'a' (by decide) c0 (mem_takeWhile_pred is_space _ c0 h6)
  · have hdq : c0 = q2 := by simpa using h7
    rw [hdq]
    exact pred_ne is_quote 'a' (by decide) q2 hq2q

lemma pre_api_key_generic_localized (l : List Char) (k : ℕ) (l₂ : List Char)
    (h : pre_api_key_generic l = some k) (hag : l.take (k + 1) = l₂.take (k + 1)) :
    pre_api_key_generic l₂ = some k := by
  obtain ⟨k2, w1, w2, q1, q2, hk, h3, hbr, hq1, hq1q, hw1, hcol, hw2, hq2, hq2q⟩ :=
    pre_api_key_generic_some l k h
  have h3' : l₂.take 3 = "api".data := by
    have h1 := congrArg (List.take 3) hag
    rw [List.take_take, List.take_take, Nat.min_eq_left (by omega)] at h1
    rw [← h1, h3]
  have hbr' : (k2 = 3 ∧ (l₂.drop 3).take 3 = "key".data)
      ∨ (k2 = 4 ∧ ∃ c, (c = '_' ∨ c = '-') ∧ (l₂.drop 3).take 4 = c :: "key".data) := by
    rcases hbr with ⟨hA, hkey⟩ | ⟨hA, ch, hch, hkey⟩
    · exact Or.inl ⟨hA, by
        rw [← take_agree_drop_take l l₂ (k + 1) 3 3 hag (by omega), hkey]⟩
    · exact Or.inr ⟨hA, ch, hch, by
        rw [← take_agree_drop_take l l₂ (k + 1) 3 4 hag (by omega), hkey]⟩
  have htw1 : (l₂.drop (3 + k2 + 1)).takeWhile is_space
      = (l.drop (3 + k2 + 1)).takeWhile is_space := by
    apply takeWhile_congr
    exact take_agree_drop_take l l₂ (k + 1) (3 + k2 + 1)
      (((l.drop (3 + k2 + 1)).takeWhile is_space).length + 1) hag (by rw [← hw1]; omega)
  have hq1' : (l₂.drop (3 + k2)).take 1 = [q1] := by
    rw [← take_agree_drop_take l l₂ (k + 1) (3 + k2) 1 hag (by omega), hq1]
  have hcol' : (l₂.drop (3 + k2 + 1
      + ((l₂.drop (3 + k2 + 1)).takeWhile is_space).length)).take 1 = [':'] := by
    rw [htw1, ← hw1,
      ← take_agree_drop_take l l₂ (k + 1) (3 + k2 + 1 + w1) 1 hag (by omega), hcol]
  have htw2 : (l₂.drop (3 + k2 + 1 + w1 + 1)).takeWhile is_space
      = (l.drop (3 + k2 + 1 + w1 + 1)).takeWhile is_space := by
    apply takeWhile_congr
    exact take_agree_drop_take l l₂ (k + 1) (3 + k2 + 1 + w1 + 1)
      (((l.drop (3 + k2 + 1 + w1 + 1)).takeWhile is_space).length + 1) hag (by rw [← hw2]; omega)
  have hq2' : (l₂.drop (3 + k2 + 1 + ((l₂.drop (3 + k2 + 1)).takeWhile is_space).length + 1
      + ((l₂.drop (3 + k2 + 1 + ((l₂.drop (3 + k2 + 1)).takeWhile is_space).length + 1)).takeWhile is_space).length)).take 1
      = [q2] := by
    rw [htw1, ← hw1, htw2, ← hw2,
      ← take_agree_drop_take l l₂ (k + 1) (3 + k2 + 1 + w1 + 1 + w2) 1 hag (by omega), hq2]
  have hfin := pre_api_key_generic_intro l₂ k2 q1 q2 h3' hbr' hq1' hq1q hcol' hq2' hq2q
  rw [htw1, ← hw1, htw2, ← hw2] at hfin
  rw [hfin, hk]

lemma lawful_pat_api_key_generic : Lawful pat_api_key_generic := by
  have hd := pred_ne is_word dot (by decide)
  refine ⟨hd, hd, pre_api_key_generic_dot, pre_api_key_generic_localized, ?_⟩
  exact no_inner_core pat_api_key_generic 'a' ['p','i'] 3 (by omega) hd hd
    pre_api_key_generic_dot
    (fun l k h => by
      obtain ⟨k2, w1, w2, q1, q2, hk, h3, _⟩ := pre_api_key_generic_some l k h
      exact ⟨by omega, by rw [h3]⟩)
    pre_api_key_generic_interior

lemma scan_self (P : KeyPattern) (lp : Lawful P) (l : List Char) :
    NoMatch P (scan P l) :=
  scan_self_NoMatch P lp l.length l le_rfl

lemma scan_pres (P Q : KeyPattern) (lq : Lawful Q) (l : List Char)
    (h : NoMatch Q l) : NoMatch Q (scan P l) :=
  scan_preserves_NoMatch P Q lq l.length l le_rfl h

/-- After the six passes of `redact_api_key`, no position of the output
matches any of the six key patterns. -/
lemma redact_api_key_no_match (s : String) :
    ∀ P ∈ key_patterns, NoMatch P (redact_api_key s).data := by
  intro P hP
  simp only [key_patterns, List.mem_cons, List.not_mem_nil, or_false] at hP
  rcases hP with rfl | rfl | rfl | rfl | rfl | rfl
  · exact scan_pres _ _ lawful_pat_sk _ (scan_pres _ _ lawful_pat_sk _
      (scan_pres _ _ lawful_pat_sk _ (scan_pres _ _ lawful_pat_sk _
        (scan_pres _ _ lawful_pat_sk _ (scan_self _ lawful_pat_sk _)))))
  · exact scan_pres _ _ lawful_pat_sk_ant _ (scan_pres _ _ lawful_pat_sk_ant _
      (scan_pres _ _ lawful_pat_sk_ant _ (scan_pres _ _ lawful_pat_sk_ant _
        (scan_self _ lawful_pat_sk_ant _))))
  · exact scan_pres _ _ lawful_pat_bearer _ (scan_pres _ _ lawful_pat_bearer _
      (scan_pres _ _ lawful_pat_bearer _ (scan_self _ lawful_pat_bearer _)))
  · exact scan_pres _ _ lawful_pat_api_key_json _ (scan_pres _ _ lawful_pat_api_key_json _
      (scan_self _ lawful_pat_api_key_json _))
  · exact scan_pres _ _ lawful_pat_api_key_generic _ (scan_self _ lawful_pat_api_key_generic _)
  · exact scan_self _ lawful_pat_sk_proj _

lemma redact_idempotent (s : String) :
    redact_api_key (redact_api_key s) = redact_api_key s := by
  have hNM := redact_api_key_no_match s
  show String.mk
      (scan pat_sk_proj (scan pat_api_key_generic (scan pat_api_key_json (scan pat_bearer
        (scan pat_sk_ant (scan pat_sk (redact_api_key s).data))))))
    = redact_api_key s
  rw [scan_of_NoMatch pat_sk _ (hNM pat_sk (by simp [key_patterns])),
    scan_of_NoMatch pat_sk_ant _ (hNM pat_sk_ant (by simp [key_patterns])),
    scan_of_NoMatch pat_bearer _ (hNM pat_bearer (by simp [key_patterns])),
    scan_of_NoMatch pat_api_key_json _ (hNM pat_api_key_json (by simp [key_patterns])),
    scan_of_NoMatch pat_api_key_generic _ (hNM pat_api_key_generic (by simp [key_patterns])),
    scan_of_NoMatch pat_sk_proj _ (hNM pat_sk_proj (by simp [key_patterns]))]

lemma redact_no_secret_id (s : String) (h : no_secret s = true) :
    redact_api_key s = s := by
  have hNM : ∀ P ∈ key_patterns, NoMatch P s.data := by
    intro P hP
    exact (no_match_iff P s.data).mp (List.all_eq_true.mp h P hP)
  show String.mk
      (scan pat_sk_proj (scan pat_api_key_generic (scan pat_api_key_json (scan pat_bearer
        (scan pat_sk_ant (scan pat_sk s.data))))))
    = s
  rw [scan_of_NoMatch pat_sk _ (hNM pat_sk (by simp [key_patterns])),
    scan_of_NoMatch pat_sk_ant _ (hNM pat_sk_ant (by simp [key_patterns])),
    scan_of_NoMatch pat_bearer _ (hNM pat_bearer (by simp [key_patterns])),
    scan_of_NoMatch pat_api_key_json _ (hNM pat_api_key_json (by simp [key_patterns])),
    scan_of_NoMatch pat_api_key_generic _ (hNM pat_api_key_generic (by simp [key_patterns])),
    scan_of_NoMatch pat_sk_proj _ (hNM pat_sk_proj (by simp [key_patterns]))]

/-- C4: `redact_api_key` is idempotent — running the six substitution
passes a second time changes nothing — and it is the identity on any text
in which no position starts a match of any of the six secret-shaped
patterns (sk-, sk-ant- and sk-proj- keys, Bearer tokens, api_key-shaped
JSON fragments). -/
theorem C4_redaction_idempotent_identity :
    ∀ s : String, redact_api_key (redact_api_key s) = redact_api_key s
      ∧ (no_secret s = true → redact_api_key s = s) :=
  fun s => ⟨redact_idempotent s, redact_no_secret_id s⟩

theorem C4_redaction_idempotent_identity_witness :
    no_secret "hello" = true ∧ redact_api_key "hello" = "hello" :=
  ⟨by decide, (C4_redaction_idempotent_identity "hello").2 (by decide)⟩

/- ### C10 — `RequestResponseLogger._sanitize_headers` / `_sanitize_body`
(`logging.py` 168-313)

A small heap model of the Python object graph.  Dicts and lists are
mutable heap nodes addressed by naturals; strings, numbers, booleans and
`None` are immutable inline values.  `copy.deepcopy` is a fuel-bounded
recursive copy that allocates fresh nodes; every in-place update the
sanitizers perform (`sanitized[k] = ...`, `del sanitized[k]`) is a
`hset` at one address.  The frame claim is that addresses that existed
before the call keep exactly their old contents. -/

inductive PyVal where
  | str (s : String)
  | num (n : ℤ)
  | bool (b : Bool)
  | none
  | ref (a : ℕ)
deriving DecidableEq

inductive PyNode where
  | dict (entries : List (String × PyVal))
  | arr (items : List PyVal)
deriving DecidableEq

structure Heap where
  mem : List (ℕ × PyNode)
  next : ℕ
deriving DecidableEq

def lookup (h : Heap) (a : ℕ) : Option PyNode :=
  (h.mem.find? (fun p => p.1 == a)).map Prod.snd

def hset (h : Heap) (a : ℕ) (nd : PyNode) : Heap :=
  ⟨h.mem.map (fun p => if p.1 = a then (a, nd) else p), h.next⟩

def halloc (h : Heap) (nd : PyNode) : Heap × ℕ :=
  (⟨(h.next, nd) :: h.mem, h.next + 1⟩, h.next)

def dget (es : List (String × PyVal)) (k : String) : Option PyVal :=
  (es.find? (fun p => p.1 == k)).map Prod.snd

def dset (es : List (String × PyVal)) (k : String) (v : PyVal) : List (String × PyVal) :=
  if es.any (fun p => p.1 == k) then es.map (fun p => if p.1 = k then (k, v) else p)
  else es ++ [(k, v)]

def ddel (es : List (String × PyVal)) (k : String) : List (String × PyVal) :=
  es.filter (fun p => !(p.1 == k))

/-- Python truthiness of a value (empty dicts, lists and strings, zero,
`False` and `None` are falsy). -/
def falsy (h : Heap) : PyVal → Bool
  | .str s => s == ""
  | .num n => n == 0
  | .bool b => !b
  | .none => true
  | .ref a =>
    match lookup h a with
    | some (.dict es) => es.isEmpty
    | some (.arr its) => its.isEmpty
    | Option.none => false

def node_vals : PyNode → List PyVal
  | .dict es => es.map Prod.snd
  | .arr its => its

/-- Well-formed heap: every binding is below the allocation pointer. -/
def Heap.wfP (h : Heap) : Prop := ∀ p ∈ h.mem, p.1 < h.next

/-- Every node at or above `n₀` references only addresses at or above
`n₀` (the copied region is closed: it never points back into the
caller's objects). -/
def HeapSafe (n₀ : ℕ) (h : Heap) : Prop :=
  ∀ a nd, n₀ ≤ a → lookup h a = some nd →
    ∀ v ∈ node_vals nd, ∀ a₂, v = PyVal.ref a₂ → n₀ ≤ a₂

/-- The running invariant of a sanitizer call that started on heap `h₀`
with allocation pointer `n₀ = h₀.next`: the current heap is well-formed,
only grows, the fresh region is closed, and every address below `n₀`
still holds exactly its original contents. -/
def Good (n₀ : ℕ) (h₀ h : Heap) : Prop :=
  h.wfP ∧ n₀ ≤ h.next ∧ HeapSafe n₀ h ∧ ∀ a, a < n₀ → lookup h a = lookup h₀ a

lemma lookup_hset_ne (h : Heap) (a a₂ : ℕ) (nd : PyNode) (hne : a ≠ a₂) :
    lookup (hset h a₂ nd) a = lookup h a := by
  unfold lookup hset
  dsimp only
  induction h.mem with
  | nil => rfl
  | cons p rest ih =>
    rw [List.map_cons, List.find?_cons, List.find?_cons]
    by_cases hp : p.1 = a₂
    · rw [if_pos hp]
      have h1 : ((a₂, nd).1 == a) = false := by
        simp only [beq_eq_false_iff_ne]
        omega
      have h2 : (p.1 == a) = false := by
        simp only [beq_eq_false_iff_ne]
        omega
      rw [h1, h2]
      exact ih
    · rw [if_neg hp]
      cases hpa : (p.1 == a) with
      | true => rfl
      | false => exact ih

lemma lookup_hset_self (h : Heap) (a : ℕ) (nd : PyNode)
    (hexists : (lookup h a).isSome) : lookup (hset h a nd) a = some nd := by
  unfold lookup at hexists
  unfold lookup hset
  dsimp only
  revert hexists
  generalize h.mem = ms
  intro hexists
  induction ms with
  | nil => simp at hexists
  | cons p rest ih =>
    rw [List.map_cons, List.find?_cons]
    rw [List.find?_cons] at hexists
    by_cases hp : p.1 = a
    · rw [if_pos hp, show ((a, nd).1 == a) = true from by simp]
      rfl
    · rw [if_neg hp]
      rw [show (p.1 == a) = false from by simp [hp]] at hexists ⊢
      exact ih hexists

lemma lookup_hset_none (h : Heap) (a : ℕ) (nd : PyNode)
    (hnone : lookup h a = Option.none) : lookup (hset h a nd) a = Option.none := by
  unfold lookup at hnone
  unfold lookup hset
  dsimp only
  revert hnone
  generalize h.mem = ms
  intro hnone
  induction ms with
  | nil => rfl
  | cons p rest ih =>
    rw [List.map_cons, List.find?_cons]
    rw [List.find?_cons] at hnone
    by_cases hp : p.1 = a
    · exfalso
      rw [show (p.1 == a) = true from by simp [hp]] at hnone
      simp at hnone
    · rw [if_neg hp]
      rw [show (p.1 == a) = false from by simp [hp]] at hnone ⊢
      exact ih hnone

lemma hset_next (h : Heap) (a : ℕ) (nd : PyNode) : (hset h a nd).next = h.next := rfl

lemma hset_wf (h : Heap) (a : ℕ) (nd : PyNode) (hw : h.wfP) : (hset h a nd).wfP := by
  intro p hp
  unfold hset at hp
  dsimp only at hp
  obtain ⟨q, hq, hpq⟩ := List.mem_map.mp hp
  by_cases hqa : q.1 = a
  · rw [if_pos hqa] at hpq
    have := hw q hq
    rw [← hpq]
    show a < h.next
    omega
  · rw [if_neg hqa] at hpq
    rw [← hpq]
    exact hw q hq

lemma lookup_halloc_old (h : Heap) (nd : PyNode) (a : ℕ) (ha : a < h.next) :
    lookup (halloc h nd).1 a = lookup h a := by
  unfold lookup halloc
  dsimp only
  rw [List.find?_cons]
  rw [show ((h.next, nd).1 == a) = false from by
    simp only [beq_eq_false_iff_ne]; omega]

lemma lookup_halloc_new (h : Heap) (nd : PyNode) :
    lookup (halloc h nd).1 h.next = some nd := by
  unfold lookup halloc
  dsimp only
  rw [List.find?_cons]
  rw [show ((h.next, nd).1 == h.next) = true from by simp]
  rfl

lemma halloc_wf (h : Heap) (nd : PyNode) (hw : h.wfP) : (halloc h nd).1.wfP := by
  intro p hp
  unfold halloc at hp
  dsimp only at hp
  rcases List.mem_cons.mp hp with rfl | hp
  · show h.next < h.next + 1
    omega
  · have := hw p hp
    show p.1 < h.next + 1
    omega

lemma lookup_none_of_ge (h : Heap) (hw : h.wfP) (a : ℕ) (ha : h.next ≤ a) :
    lookup h a = Option.none := by
  unfold lookup
  rw [List.find?_eq_none.mpr]
  · rfl
  · intro p hp
    have := hw p hp
    simp only [beq_eq_false_iff_ne, ne_eq, Bool.not_eq_true]
    omega

lemma dset_vals (es : List (String × PyVal)) (k : String) (v : PyVal)
    (P : PyVal → Prop) (hes : ∀ w ∈ es.map Prod.snd, P w) (hv : P v) :
    ∀ w ∈ (dset es k v).map Prod.snd, P w := by
  intro w hw
  unfold dset at hw
  split at hw
  · obtain ⟨q, hq, hqw⟩ := List.mem_map.mp hw
    obtain ⟨q₀, hq₀, hq₀q⟩ := List.mem_map.mp hq
    by_cases hk : q₀.1 = k
    · rw [if_pos hk] at hq₀q
      rw [← hqw, ← hq₀q]
      exact hv
    · rw [if_neg hk] at hq₀q
      rw [← hqw, ← hq₀q]
      exact hes q₀.2 (List.mem_map.mpr ⟨q₀, hq₀, rfl⟩)
  · rw [List.map_append] at hw
    rcases List.mem_append.mp hw with hw | hw
    · exact hes w hw
    · simp only [List.map_cons, List.map_nil, List.mem_singleton] at hw
      rw [hw]
      exact hv

lemma ddel_vals (es : List (String × PyVal)) (k : String)
    (P : PyVal → Prop) (hes : ∀ w ∈ es.map Prod.snd, P w) :
    ∀ w ∈ (ddel es k).map Prod.snd, P w := by
  intro w hw
  obtain ⟨q, hq, hqw⟩ := List.mem_map.mp hw
  have hq' : q ∈ es := List.mem_of_mem_filter hq
  rw [← hqw]
  exact hes q.2 (List.mem_map.mpr ⟨q, hq', rfl⟩)

/-- `hset` at a fresh address with a fresh-closed node preserves the
invariant. -/
lemma good_hset (n₀ : ℕ) (h₀ h : Heap) (a : ℕ) (nd : PyNode)
    (hg : Good n₀ h₀ h) (ha : n₀ ≤ a)
    (hnd : ∀ v ∈ node_vals nd, ∀ a₂, v = PyVal.ref a₂ → n₀ ≤ a₂) :
    Good n₀ h₀ (hset h a nd) := by
  obtain ⟨hw, hn, hs, hf⟩ := hg
  refine ⟨hset_wf h a nd hw, by rw [hset_next]; exact hn, ?_, ?_⟩
  · intro a' nd' ha' hl
    by_cases haa : a' = a
    · subst haa
      by_cases hex : (lookup h a').isSome
      · rw [lookup_hset_self h a' nd hex] at hl
        rw [← Option.some.inj hl]
        exact hnd
      · exfalso
        have hnone : lookup h a' = Option.none := Option.not_isSome_iff_eq_none.mp hex
        rw [lookup_hset_none h a' nd hnone] at hl
        exact Option.noConfusion hl
    · rw [lookup_hset_ne h a' a nd haa] at hl
      exact hs a' nd' ha' hl
  · intro a' ha'
    rw [lookup_hset_ne h a' a nd (by omega)]
    exact hf a' ha'

lemma good_halloc (n₀ : ℕ) (h₀ h : Heap) (nd : PyNode)
    (hg : Good n₀ h₀ h)
    (hnd : ∀ v ∈ node_vals nd, ∀ a₂, v = PyVal.ref a₂ → n₀ ≤ a₂) :
    Good n₀ h₀ (halloc h nd).1 ∧ n₀ ≤ (halloc h nd).2 := by
  obtain ⟨hw, hn, hs, hf⟩ := hg
  refine ⟨⟨halloc_wf h nd hw, ?_, ?_, ?_⟩, hn⟩
  · show n₀ ≤ h.next + 1
    omega
  · intro a nd' ha hl
    by_cases haa : a = h.next
    · subst haa
      rw [lookup_halloc_new h nd] at hl
      rw [← Option.some.inj hl]
      exact hnd
    · have halt : a < h.next ∨ h.next < a := by omega
      rcases halt with halt | halt
      · rw [lookup_halloc_old h nd a halt] at hl
        exact hs a nd' ha hl
      · exfalso
        rw [lookup_none_of_ge (halloc h nd).1 (halloc_wf h nd hw) a
          (by show h.next + 1 ≤ a; omega)] at hl
        exact Option.noConfusion hl
  · intro a ha
    rw [lookup_halloc_old h nd a (by omega)]
    exact hf a ha

/-- Fresh-closure of the node at a fresh address, read off the
invariant. -/
lemma good_node_refs (n₀ : ℕ) (h₀ h : Heap) (a : ℕ) (nd : PyNode)
    (hg : Good n₀ h₀ h) (ha : n₀ ≤ a) (hl : lookup h a = some nd) :
    ∀ v ∈ node_vals nd, ∀ a₂, v = PyVal.ref a₂ → n₀ ≤ a₂ :=
  hg.2.2.1 a nd ha hl

/-- `copy.deepcopy` over a worklist of values: immutable values are kept,
dict and list nodes are copied bottom-up into fresh addresses.  The fuel
bounds the recursion depth (Python's memo handles cycles; a cycle here
just exhausts the fuel). -/
def deepcopyL : ℕ → Heap → List PyVal → Option (Heap × List PyVal)
  | _, h, [] => some (h, [])
  | 0, _, _ :: _ => Option.none
  | fuel + 1, h, v :: vs =>
    match v with
    | .str s =>
      match deepcopyL fuel h vs with
      | some (h₂, vs') => some (h₂, .str s :: vs')
      | Option.none => Option.none
    | .num n =>
      match deepcopyL fuel h vs with
      | some (h₂, vs') => some (h₂, .num n :: vs')
      | Option.none => Option.none
    | .bool b =>
      match deepcopyL fuel h vs with
      | some (h₂, vs') => some (h₂, .bool b :: vs')
      | Option.none => Option.none
    | .none =>
      match deepcopyL fuel h vs with
      | some (h₂, vs') => some (h₂, .none :: vs')
      | Option.none => Option.none
    | .ref a =>
      match lookup h a with
      | Option.none => Option.none
      | some (.dict es) =>
        match deepcopyL fuel h (es.map Prod.snd) with
        | some (h₁, ws) =>
          match deepcopyL fuel (halloc h₁ (.dict ((es.map Prod.fst).zip ws))).1 vs with
          | some (h₂, vs') =>
            some (h₂, .ref (halloc h₁ (.dict ((es.map Prod.fst).zip ws))).2 :: vs')
          | Option.none => Option.none
        | Option.none => Option.none
      | some (.arr its) =>
        match deepcopyL fuel h its with
        | some (h₁, ws) =>
          match deepcopyL fuel (halloc h₁ (.arr ws)).1 vs with
          | some (h₂, vs') => some (h₂, .ref (halloc h₁ (.arr ws)).2 :: vs')
          | Option.none => Option.none
        | Option.none => Option.none

def deepcopy1 (fuel : ℕ) (h : Heap) (v : PyVal) : Option (Heap × PyVal) :=
  match deepcopyL fuel h [v] with
  | some (h', [v']) => some (h', v')
  | _ => Option.none

/-- The sensitive header names of `_sanitize_headers` (logging.py 177-185). -/
def sensitive_headers : List String :=
  ["authorization", "x-api-key", "api-key", "openai-api-key",
   "anthropic-api-key", "x-openai-api-key", "x-anthropic-api-key"]

/-- The sensitive body field names of `_sanitize_body` (logging.py 221-226
and 264-269). -/
def sensitive_fields : List String :=
  ["api_key", "apiKey", "key", "token", "secret", "password",
   "access_token", "refresh_token", "auth_token", "jwt",
   "openai_api_key", "anthropic_api_key", "bearer_token",
   "api-key", "authorization"]

/-- In test mode the sensitive entry is deleted, otherwise overwritten. -/
def redact_header (testing : Bool) (es : List (String × PyVal)) (k : String) :
    List (String × PyVal) :=
  if testing then ddel es k else dset es k (.str "[REDACTED]")

/-- `if header in sanitized: del / overwrite` — the exact-case check. -/
def header_exact_step (testing : Bool) (h : Heap) (a' : ℕ) (header : String) : Heap :=
  match lookup h a' with
  | some (.dict es) =>
    if (dget es header).isSome then hset h a' (.dict (redact_header testing es header)) else h
  | _ => h

/-- `str.lower()`, written out over the character list. -/
def str_lower (s : String) : String := String.mk (s.data.map Char.toLower)

/-- `for key in list(sanitized.keys()): if key.lower() == header: ...` —
the case-insensitive sweep over a snapshot of the keys. -/
def header_ci_step (testing : Bool) (h : Heap) (a' : ℕ) (header : String) : Heap :=
  match lookup h a' with
  | some (.dict es) =>
    hset h a' (.dict ((es.map Prod.fst).foldl
      (fun acc k => if str_lower k == header then redact_header testing acc k else acc) es))
  | _ => h

/-- One iteration of the `for header in sensitive_headers` loop. -/
def sanitize_headers_step (testing : Bool) (h : Heap) (a' : ℕ) (header : String) : Heap :=
  header_ci_step testing (header_exact_step testing h a' header) a' header

/-- `RequestResponseLogger._sanitize_headers` (logging.py 168-203): falsy
or non-dict input is returned as is; otherwise the dict is deep-copied
and the sensitive entries of the copy are removed or overwritten. -/
def sanitize_headers (testing : Bool) (fuel : ℕ) (h : Heap) (v : PyVal) :
    Option (Heap × PyVal) :=
  if falsy h v then some (h, v)
  else
    match v with
    | .ref a =>
      match lookup h a with
      | some (.dict _) =>
        match deepcopy1 fuel h v with
        | some (h₁, .ref a') =>
          some (sensitive_headers.foldl
            (fun hh header => sanitize_headers_step testing hh a' header) h₁, .ref a')
        | _ => Option.none
      | _ => some (h, v)
    | _ => some (h, v)

/-- The `for nested_field in sensitive_fields` loop over one nested dict. -/
def body_nested_loop (h : Heap) (a₂ : ℕ) : Heap :=
  sensitive_fields.foldl (fun hh nf =>
    match lookup hh a₂ with
    | some (.dict es₂) =>
      if (dget es₂ nf).isSome then hset hh a₂ (.dict (dset es₂ nf (.str "[REDACTED]"))) else hh
    | _ => hh) h

/-- `if field in sanitized: sanitized[field] = "[REDACTED]"`. -/
def field_top_step (h : Heap) (a' : ℕ) (field : String) : Heap :=
  match lookup h a' with
  | some (.dict es) =>
    if (dget es field).isSome then hset h a' (.dict (dset es field (.str "[REDACTED]"))) else h
  | _ => h

/-- `for key, value in sanitized.items(): if isinstance(value, dict): ...` —
the sweep over the items looking for nested dicts. -/
def field_nested_sweep (h : Heap) (a' : ℕ) : Heap :=
  match lookup h a' with
  | some (.dict es) =>
    es.foldl (fun hh kv =>
      match kv.2 with
      | PyVal.ref a₂ =>
        match lookup hh a₂ with
        | some (.dict _) => body_nested_loop hh a₂
        | _ => hh
      | _ => hh) h
  | _ => h

/-- One iteration of the `for field in sensitive_fields` loop of
`_sanitize_body`. -/
def body_fields_step (h : Heap) (a' : ℕ) (field : String) : Heap :=
  field_nested_sweep (field_top_step h a' field) a'

def body_fields_loop (h : Heap) (a' : ℕ) : Heap :=
  sensitive_fields.foldl (fun hh f => body_fields_step hh a' f) h

/-- `sanitized["headers"] = self._sanitize_headers(sanitized["headers"])`
when the copy holds a dict under "headers" (logging.py 240-241, 283-284). -/
def body_headers_part (testing : Bool) (fuel : ℕ) (h : Heap) (a' : ℕ) : Option Heap :=
  match lookup h a' with
  | some (.dict es) =>
    match dget es "headers" with
    | some (PyVal.ref ah) =>
      match lookup h ah with
      | some (.dict _) =>
        match sanitize_headers testing fuel h (.ref ah) with
        | some (h₂, hv') =>
          match lookup h₂ a' with
          | some (.dict es₂) => some (hset h₂ a' (.dict (dset es₂ "headers" hv')))
          | _ => some h₂
        | Option.none => Option.none
      | _ => some h
    | _ => some h
  | _ => some h

/-- Redaction of one content item of a message (logging.py 297-301). -/
def redact_content_item (testing : Bool) (h : Heap) (item : PyVal) : Heap :=
  match item with
  | PyVal.ref aj =>
    match lookup h aj with
    | some (.dict es) =>
      match dget es "type" with
      | some (.str t) =>
        if t == "text" then
          if testing then h
          else hset h aj (.dict (dset es "text" (.str "[CONTENT REDACTED]")))
        else h
      | _ => h
    | _ => h
  | _ => h

/-- Redaction of one message's content (logging.py 290-301). -/
def redact_message (testing : Bool) (h : Heap) (msg : PyVal) : Heap :=
  match msg with
  | PyVal.ref am =>
    match lookup h am with
    | some (.dict es) =>
      match dget es "content" with
      | some (.str _) =>
        if testing then h
        else hset h am (.dict (dset es "content" (.str "[CONTENT REDACTED]")))
      | some (PyVal.ref ac) =>
        match lookup h ac with
        | some (.arr items) => items.foldl (fun hh it => redact_content_item testing hh it) h
        | _ => h
      | _ => h
    | _ => h
  | _ => h

def body_messages_part (testing : Bool) (h : Heap) (a' : ℕ) : Heap :=
  match lookup h a' with
  | some (.dict es) =>
    match dget es "messages" with
    | some (PyVal.ref amsgs) =>
      match lookup h amsgs with
      | some (.arr msgs) => msgs.foldl (fun hh m => redact_message testing hh m) h
      | _ => h
    | _ => h
  | _ => h

/-- `sanitized["system"] = "[SYSTEM PROMPT REDACTED]"` (logging.py 304-307). -/
def body_system_part (testing : Bool) (h : Heap) (a' : ℕ) : Heap :=
  match lookup h a' with
  | some (.dict es) =>
    if (dget es "system").isSome then
      if testing then h else hset h a' (.dict (dset es "system" (.str "[SYSTEM PROMPT REDACTED]")))
    else h
  | _ => h

/-- `RequestResponseLogger._sanitize_body` (logging.py 205-313).  `loads`
and `dumps` abstract `json.loads` (which allocates a fresh object tree)
and `json.dumps` (a pure reader); `log_tokens` is the LOG_TOKENS debug
flag, `testing` the TESTING flag.  Falsy input is returned unchanged;
otherwise the body is deep-copied and every mutation is applied to the
copy. -/
def sanitize_body (testing log_tokens : Bool)
    (loads : Heap → String → Option (Heap × PyVal)) (dumps : Heap → PyVal → String) :
    ℕ → Heap → PyVal → Option (Heap × PyVal)
  | fuel, h, v =>
    if falsy h v then some (h, v)
    else
      match deepcopy1 fuel h v with
      | Option.none => Option.none
      | some (h₁, sanitized) =>
        if log_tokens then
          match sanitized with
          | PyVal.ref a' =>
            match lookup h₁ a' with
            | some (.dict _) =>
              match body_headers_part testing fuel (body_fields_loop h₁ a') a' with
              | some h₃ => some (h₃, .ref a')
              | Option.none => Option.none
            | _ => some (h₁, .ref a')
          | .str s =>
            let s₁ := redact_api_key s
            if s₁.startsWith "\x7b" || s₁.startsWith "[" then
              match fuel with
              | 0 => Option.none
              | fuel' + 1 =>
                match loads h₁ s₁ with
                | some (h₂, jv) =>
                  match jv with
                  | PyVal.ref aj =>
                    match lookup h₂ aj with
                    | some (.dict _) =>
                      match sanitize_body testing log_tokens loads dumps fuel' h₂ jv with
                      | some (h₃, jv') => some (h₃, .str (dumps h₃ jv'))
                      | Option.none => some (h₂, .str s₁)
                    | _ => some (h₂, .str s₁)
                  | _ => some (h₂, .str s₁)
                | Option.none => some (h₁, .str s₁)
            else some (h₁, .str s₁)
          | other => some (h₁, other)
        else
          match sanitized with
          | PyVal.ref a' =>
            match lookup h₁ a' with
            | some (.dict _) =>
              match body_headers_part testing fuel (body_fields_loop h₁ a') a' with
              | some h₃ =>
                if !log_tokens then
                  some (body_system_part testing (body_messages_part testing h₃ a') a', .ref a')
                else some (h₃, .ref a')
              | Option.none => Option.none
            | _ => some (h₁, .ref a')
          | .str s => some (h₁, .str (redact_api_key s))
          | other => some (h₁, other)

lemma some_pair_inj {α β : Type} {a a' : α} {b b' : β}
    (h : some (a, b) = some (a', b')) : a = a' ∧ b = b' := by
  injection h with h1
  exact ⟨congrArg Prod.fst h1, congrArg Prod.snd h1⟩

lemma foldl_good (n₀ : ℕ) (h₀ : Heap) {α : Type} (f : Heap → α → Heap) :
    ∀ (l : List α), (∀ hh x, x ∈ l → Good n₀ h₀ hh → Good n₀ h₀ (f hh x)) →
      ∀ h, Good n₀ h₀ h → Good n₀ h₀ (l.foldl f h) := by
  intro l
  induction l with
  | nil => intro _ h hg; exact hg
  | cons x xs ih =>
    intro hstep h hg
    rw [List.foldl_cons]
    exact ih (fun hh y hy => hstep hh y (List.mem_cons_of_mem x hy)) (f h x)
      (hstep h x (List.mem_cons_self ..) hg)

lemma zip_vals_refs (n₀ : ℕ) (ks : List String) (ws : List PyVal)
    (hws : ∀ a, PyVal.ref a ∈ ws → n₀ ≤ a) :
    ∀ v ∈ node_vals (.dict (ks.zip ws)), ∀ a₂, v = PyVal.ref a₂ → n₀ ≤ a₂ := by
  intro v hv a₂ hva
  obtain ⟨q, hq, hqv⟩ := List.mem_map.mp hv
  have h2 := (List.of_mem_zip hq).2
  subst hva
  exact hws a₂ (by rw [← hqv]; exact h2)

lemma arr_vals_refs (n₀ : ℕ) (ws : List PyVal)
    (hws : ∀ a, PyVal.ref a ∈ ws → n₀ ≤ a) :
    ∀ v ∈ node_vals (.arr ws), ∀ a₂, v = PyVal.ref a₂ → n₀ ≤ a₂ := by
  intro v hv a₂ hva
  subst hva
  exact hws a₂ hv

/-- The deep copy only allocates: the invariant is preserved and every
reference it hands back is fresh. -/
lemma deepcopyL_spec (n₀ : ℕ) (h₀ : Heap) :
    ∀ fuel vs h h' vs', Good n₀ h₀ h → deepcopyL fuel h vs = some (h', vs') →
      Good n₀ h₀ h' ∧ ∀ a, PyVal.ref a ∈ vs' → n₀ ≤ a := by
  intro fuel
  induction fuel using Nat.strong_induction_on with
  | _ fuel ihf =>
    intro vs h h' vs' hg hd
    cases vs with
    | nil =>
      simp only [deepcopyL] at hd
      obtain ⟨h1, h2⟩ := some_pair_inj hd
      subst h1
      subst h2
      exact ⟨hg, by intro a ha; simp at ha⟩
    | cons v vs =>
      cases fuel with
      | zero =>
        simp only [deepcopyL] at hd
        exact Option.noConfusion hd
      | succ fuel' =>
        cases v with
        | str s =>
          simp only [deepcopyL] at hd
          split at hd
          · rename_i h₂ vs₂ hrec
            obtain ⟨h1, h2⟩ := some_pair_inj hd
            subst h1
            subst h2
            obtain ⟨hg', hrefs⟩ := ihf fuel' (by omega) vs h h₂ vs₂ hg hrec
            refine ⟨hg', ?_⟩
            intro a ha
            rcases List.mem_cons.mp ha with ha | ha
            · exact PyVal.noConfusion ha
            · exact hrefs a ha
          · exact Option.noConfusion hd
        | num n =>
          simp only [deepcopyL] at hd
          split at hd
          · rename_i h₂ vs₂ hrec
            obtain ⟨h1, h2⟩ := some_pair_inj hd
            subst h1
            subst h2
            obtain ⟨hg', hrefs⟩ := ihf fuel' (by omega) vs h h₂ vs₂ hg hrec
            refine ⟨hg', ?_⟩
            intro a ha
            rcases List.mem_cons.mp ha with ha | ha
            · exact PyVal.noConfusion ha
            · exact hrefs a ha
          · exact Option.noConfusion hd
        | bool b =>
          simp only [deepcopyL] at hd
          split at hd
          · rename_i h₂ vs₂ hrec
            obtain ⟨h1, h2⟩ := some_pair_inj hd
            subst h1
            subst h2
            obtain ⟨hg', hrefs⟩ := ihf fuel' (by omega) vs h h₂ vs₂ hg hrec
            refine ⟨hg', ?_⟩
            intro a ha
            rcases List.mem_cons.mp ha with ha | ha
            · exact PyVal.noConfusion ha
            · exact hrefs a ha
          · exact Option.noConfusion hd
        | none =>
          simp only [deepcopyL] at hd
          split at hd
          · rename_i h₂ vs₂ hrec
            obtain ⟨h1, h2⟩ := some_pair_inj hd
            subst h1
            subst h2
            obtain ⟨hg', hrefs⟩ := ihf fuel' (by omega) vs h h₂ vs₂ hg hrec
            refine ⟨hg', ?_⟩
            intro a ha
            rcases List.mem_cons.mp ha with ha | ha
            · exact PyVal.noConfusion ha
            · exact hrefs a ha
          · exact Option.noConfusion hd
        | ref a =>
          simp only [deepcopyL] at hd
          split at hd
          · exact Option.noConfusion hd
          · rename_i es hlook
            split at hd
            · rename_i h₁ ws hrec1
              split at hd
              · rename_i h₂ vs₂ hrec2
                obtain ⟨h1, h2⟩ := some_pair_inj hd
                subst h1
                subst h2
                obtain ⟨hg₁, hws⟩ := ihf fuel' (by omega) (es.map Prod.snd) h h₁ ws hg hrec1
                obtain ⟨hgA, hfresh⟩ := good_halloc n₀ h₀ h₁
                  (.dict ((es.map Prod.fst).zip ws)) hg₁
                  (zip_vals_refs n₀ (es.map Prod.fst) ws hws)
                obtain ⟨hg₂, hrefs₂⟩ := ihf fuel' (by omega) vs _ h₂ vs₂ hgA hrec2
                refine ⟨hg₂, ?_⟩
                intro a₂ ha₂
                rcases List.mem_cons.mp ha₂ with ha₂ | ha₂
                · injection ha₂ with ha₂
                  rw [ha₂]
                  exact hfresh
                · exact hrefs₂ a₂ ha₂
              · exact Option.noConfusion hd
            · exact Option.noConfusion hd
          · rename_i its hlook
            split at hd
            · rename_i h₁ ws hrec1
              split at hd
              · rename_i h₂ vs₂ hrec2
                obtain ⟨h1, h2⟩ := some_pair_inj hd
                subst h1
                subst h2
                obtain ⟨hg₁, hws⟩ := ihf fuel' (by omega) its h h₁ ws hg hrec1
                obtain ⟨hgA, hfresh⟩ := good_halloc n₀ h₀ h₁ (.arr ws) hg₁
                  (arr_vals_refs n₀ ws hws)
                obtain ⟨hg₂, hrefs₂⟩ := ihf fuel' (by omega) vs _ h₂ vs₂ hgA hrec2
                refine ⟨hg₂, ?_⟩
                intro a₂ ha₂
                rcases List.mem_cons.mp ha₂ with ha₂ | ha₂
                · injection ha₂ with ha₂
                  rw [ha₂]
                  exact hfresh
                · exact hrefs₂ a₂ ha₂
              · exact Option.noConfusion hd
            · exact Option.noConfusion hd

lemma deepcopy1_spec (n₀ : ℕ) (h₀ : Heap) (fuel : ℕ) (h : Heap) (v : PyVal)
    (h' : Heap) (v' : PyVal) (hg : Good n₀ h₀ h)
    (hd : deepcopy1 fuel h v = some (h', v')) :
    Good n₀ h₀ h' ∧ ∀ a, v' = PyVal.ref a → n₀ ≤ a := by
  unfold deepcopy1 at hd
  split at hd
  · rename_i h₂ v₂ heq
    obtain ⟨h1, h2⟩ := some_pair_inj hd
    subst h1
    subst h2
    obtain ⟨hg', hrefs⟩ := deepcopyL_spec n₀ h₀ fuel [v] h h₂ [v₂] hg heq
    exact ⟨hg', fun a hv => hrefs a (by rw [← hv]; exact List.mem_cons_self ..)⟩
  · exact Option.noConfusion hd

lemma dget_mem (es : List (String × PyVal)) (k : String) (w : PyVal)
    (h : dget es k = some w) : w ∈ es.map Prod.snd := by
  unfold dget at h
  cases hf : es.find? (fun p => p.1 == k) with
  | none => rw [hf] at h; exact Option.noConfusion h
  | some q =>
    rw [hf] at h
    exact List.mem_map.mpr ⟨q, List.mem_of_find?_eq_some hf, Option.some.inj h⟩

lemma redact_header_vals (testing : Bool) (es : List (String × PyVal)) (k : String)
    (P : PyVal → Prop) (hes : ∀ w ∈ es.map Prod.snd, P w) (hstr : P (.str "[REDACTED]")) :
    ∀ w ∈ (redact_header testing es k).map Prod.snd, P w := by
  unfold redact_header
  split
  · exact ddel_vals es k P hes
  · exact dset_vals es k (.str "[REDACTED]") P hes hstr

lemma fold_redact_vals (testing : Bool) (header : String) :
    ∀ (ks : List String) (es : List (String × PyVal)) (P : PyVal → Prop),
      (∀ w ∈ es.map Prod.snd, P w) → P (.str "[REDACTED]") →
      ∀ w ∈ (ks.foldl
        (fun acc k => if str_lower k == header then redact_header testing acc k else acc)
        es).map Prod.snd, P w := by
  intro ks
  induction ks with
  | nil => intro es P hes _; exact hes
  | cons k ks ih =>
    intro es P hes hstr
    rw [List.foldl_cons]
    refine ih _ P ?_ hstr
    split
    · exact redact_header_vals testing es k P hes hstr
    · exact hes

lemma header_exact_step_good (n₀ : ℕ) (h₀ : Heap) (testing : Bool) (h : Heap)
    (a' : ℕ) (header : String) (hg : Good n₀ h₀ h) (ha : n₀ ≤ a') :
    Good n₀ h₀ (header_exact_step testing h a' header) := by
  unfold header_exact_step
  split
  · rename_i es hlook
    split
    · refine good_hset n₀ h₀ h a' _ hg ha ?_
      have hes := good_node_refs n₀ h₀ h a' (.dict es) hg ha hlook
      exact redact_header_vals testing es header _ hes (fun a₂ hh => PyVal.noConfusion hh)
    · exact hg
  · exact hg

lemma header_ci_step_good (n₀ : ℕ) (h₀ : Heap) (testing : Bool) (h : Heap)
    (a' : ℕ) (header : String) (hg : Good n₀ h₀ h) (ha : n₀ ≤ a') :
    Good n₀ h₀ (header_ci_step testing h a' header) := by
  unfold header_ci_step
  split
  · rename_i es hlook
    refine good_hset n₀ h₀ h a' _ hg ha ?_
    have hes := good_node_refs n₀ h₀ h a' (.dict es) hg ha hlook
    exact fold_redact_vals testing header (es.map Prod.fst) es _ hes
      (fun a₂ hh => PyVal.noConfusion hh)
  · exact hg

lemma sanitize_headers_step_good (n₀ : ℕ) (h₀ : Heap) (testing : Bool) (h : Heap)
    (a' : ℕ) (header : String) (hg : Good n₀ h₀ h) (ha : n₀ ≤ a') :
    Good n₀ h₀ (sanitize_headers_step testing h a' header) :=
  header_ci_step_good n₀ h₀ testing _ a' header
    (header_exact_step_good n₀ h₀ testing h a' header hg ha) ha

lemma sanitize_headers_spec (n₀ : ℕ) (h₀ : Heap) (testing : Bool) (fuel : ℕ)
    (h : Heap) (v : PyVal) (h' : Heap) (v' : PyVal)
    (hg : Good n₀ h₀ h)
    (hs : sanitize_headers testing fuel h v = some (h', v')) :
    Good n₀ h₀ h' ∧ ∀ a, v' = PyVal.ref a → v' = v ∨ n₀ ≤ a := by
  unfold sanitize_headers at hs
  split at hs
  · obtain ⟨h1, h2⟩ := some_pair_inj hs
    subst h1
    subst h2
    exact ⟨hg, fun a _ => Or.inl rfl⟩
  · split at hs
    · split at hs
      · split at hs
        · rename_i h₁ a' hdc
          obtain ⟨h1, h2⟩ := some_pair_inj hs
          subst h1
          subst h2
          obtain ⟨hg₁, hrefs⟩ := deepcopy1_spec n₀ h₀ fuel h _ h₁ (.ref a') hg hdc
          have ha' : n₀ ≤ a' := hrefs a' rfl
          refine ⟨?_, fun a₂ hv' => Or.inr ?_⟩
          · exact foldl_good n₀ h₀ _ sensitive_headers
              (fun hh x _ hgh => sanitize_headers_step_good n₀ h₀ testing hh a' x hgh ha')
              h₁ hg₁
          · injection hv' with hv'
            rw [← hv']
            exact ha'
        · exact Option.noConfusion hs
      · obtain ⟨h1, h2⟩ := some_pair_inj hs
        subst h1
        subst h2
        exact ⟨hg, fun a₂ _ => Or.inl rfl⟩
    · obtain ⟨h1, h2⟩ := some_pair_inj hs
      subst h1
      subst h2
      exact ⟨hg, fun a₂ _ => Or.inl rfl⟩

lemma body_nested_loop_good (n₀ : ℕ) (h₀ : Heap) (h : Heap) (a₂ : ℕ)
    (hg : Good n₀ h₀ h) (ha₂ : n₀ ≤ a₂) : Good n₀ h₀ (body_nested_loop h a₂) := by
  unfold body_nested_loop
  refine foldl_good n₀ h₀ _ sensitive_fields ?_ h hg
  intro hh nf _ hgh
  split
  · rename_i es₂ hlook
    split
    · refine good_hset n₀ h₀ hh a₂ _ hgh ha₂ ?_
      have hes := good_node_refs n₀ h₀ hh a₂ (.dict es₂) hgh ha₂ hlook
      exact dset_vals es₂ nf (.str "[REDACTED]") _ hes (fun a₃ hh3 => PyVal.noConfusion hh3)
    · exact hgh
  · exact hgh

lemma field_top_step_good (n₀ : ℕ) (h₀ : Heap) (h : Heap) (a' : ℕ) (field : String)
    (hg : Good n₀ h₀ h) (ha : n₀ ≤ a') : Good n₀ h₀ (field_top_step h a' field) := by
  unfold field_top_step
  split
  · rename_i es hlook
    split
    · refine good_hset n₀ h₀ h a' _ hg ha ?_
      have hes := good_node_refs n₀ h₀ h a' (.dict es) hg ha hlook
      exact dset_vals es field (.str "[REDACTED]") _ hes (fun a₂ hh => PyVal.noConfusion hh)
    · exact hg
  · exact hg

lemma field_nested_sweep_good (n₀ : ℕ) (h₀ : Heap) (h : Heap) (a' : ℕ)
    (hg : Good n₀ h₀ h) (ha : n₀ ≤ a') : Good n₀ h₀ (field_nested_sweep h a') := by
  unfold field_nested_sweep
  split
  · rename_i es hlook
    have hes := good_node_refs n₀ h₀ h a' (.dict es) hg ha hlook
    refine foldl_good n₀ h₀ _ es ?_ h hg
    intro hh kv hkv hgh
    split
    · rename_i a₂ heq
      split
      · exact body_nested_loop_good n₀ h₀ hh a₂ hgh
          (hes kv.2 (List.mem_map.mpr ⟨kv, hkv, rfl⟩) a₂ heq)
      · exact hgh
    · exact hgh
  · exact hg

lemma body_fields_step_good (n₀ : ℕ) (h₀ : Heap) (h : Heap) (a' : ℕ) (field : String)
    (hg : Good n₀ h₀ h) (ha : n₀ ≤ a') : Good n₀ h₀ (body_fields_step h a' field) :=
  field_nested_sweep_good n₀ h₀ _ a'
    (field_top_step_good n₀ h₀ h a' field hg ha) ha

lemma body_fields_loop_good (n₀ : ℕ) (h₀ : Heap) (h : Heap) (a' : ℕ)
    (hg : Good n₀ h₀ h) (ha : n₀ ≤ a') : Good n₀ h₀ (body_fields_loop h a') :=
  foldl_good n₀ h₀ _ sensitive_fields
    (fun hh f _ hgh => body_fields_step_good n₀ h₀ hh a' f hgh ha) h hg

lemma body_headers_part_good (n₀ : ℕ) (h₀ : Heap) (testing : Bool) (fuel : ℕ)
    (h : Heap) (a' : ℕ) (h' : Heap)
    (hg : Good n₀ h₀ h) (ha : n₀ ≤ a')
    (hp : body_headers_part testing fuel h a' = some h') : Good n₀ h₀ h' := by
  unfold body_headers_part at hp
  split at hp
  · rename_i es hlook
    split at hp
    · rename_i ah hhv
      split at hp
      · split at hp
        · rename_i h₂ hv' hsan
          obtain ⟨hg₂, hrefs⟩ := sanitize_headers_spec n₀ h₀ testing fuel h (.ref ah) h₂ hv' hg hsan
          have hes := good_node_refs n₀ h₀ h a' (.dict es) hg ha hlook
          have hah : n₀ ≤ ah := hes (.ref ah) (dget_mem es "headers" _ hhv) ah rfl
          split at hp
          · rename_i es₂ hlook₂
            rw [← Option.some.inj hp]
            refine good_hset n₀ h₀ h₂ a' _ hg₂ ha ?_
            have hes₂ := good_node_refs n₀ h₀ h₂ a' (.dict es₂) hg₂ ha hlook₂
            refine dset_vals es₂ "headers" hv' _ hes₂ ?_
            intro a₂ hv2
            rcases hrefs a₂ hv2 with heq2 | hge
            · rw [hv2] at heq2
              injection heq2 with heq2
              rw [← heq2] at hah
              exact hah
            · exact hge
          · rw [← Option.some.inj hp]
            exact hg₂
        · exact Option.noConfusion hp
      · rw [← Option.some.inj hp]; exact hg
    · rw [← Option.some.inj hp]; exact hg
  · rw [← Option.some.inj hp]; exact hg

lemma redact_content_item_good (n₀ : ℕ) (h₀ : Heap) (testing : Bool) (h : Heap)
    (item : PyVal) (hg : Good n₀ h₀ h)
    (hitem : ∀ a, item = PyVal.ref a → n₀ ≤ a) :
    Good n₀ h₀ (redact_content_item testing h item) := by
  unfold redact_content_item
  split
  · rename_i aj
    split
    · rename_i es hlook
      split
      · split
        · split
          · exact hg
          · refine good_hset n₀ h₀ h aj _ hg (hitem aj rfl) ?_
            have hes := good_node_refs n₀ h₀ h aj (.dict es) hg (hitem aj rfl) hlook
            exact dset_vals es "text" (.str "[CONTENT REDACTED]") _ hes
              (fun a₂ hh => PyVal.noConfusion hh)
        · exact hg
      · exact hg
    · exact hg
  · exact hg

lemma redact_message_good (n₀ : ℕ) (h₀ : Heap) (testing : Bool) (h : Heap)
    (msg : PyVal) (hg : Good n₀ h₀ h)
    (hmsg : ∀ a, msg = PyVal.ref a → n₀ ≤ a) :
    Good n₀ h₀ (redact_message testing h msg) := by
  unfold redact_message
  split
  · rename_i am
    split
    · rename_i es hlook
      have ham : n₀ ≤ am := hmsg am rfl
      have hes := good_node_refs n₀ h₀ h am (.dict es) hg ham hlook
      split
      · split
        · exact hg
        · refine good_hset n₀ h₀ h am _ hg ham ?_
          exact dset_vals es "content" (.str "[CONTENT REDACTED]") _ hes
            (fun a₂ hh => PyVal.noConfusion hh)
      · rename_i ac hcontent
        have hac : n₀ ≤ ac := hes (.ref ac) (dget_mem es "content" _ hcontent) ac rfl
        split
        · rename_i items hlook₂
          have hits := good_node_refs n₀ h₀ h ac (.arr items) hg hac hlook₂
          refine foldl_good n₀ h₀ _ items ?_ h hg
          intro hh it hit hgh
          exact redact_content_item_good n₀ h₀ testing hh it hgh
            (fun a₂ ha₂ => hits it hit a₂ ha₂)
        · exact hg
      · exact hg
    · exact hg
  · exact hg

lemma body_messages_part_good (n₀ : ℕ) (h₀ : Heap) (testing : Bool) (h : Heap)
    (a' : ℕ) (hg : Good n₀ h₀ h) (ha : n₀ ≤ a') :
    Good n₀ h₀ (body_messages_part testing h a') := by
  unfold body_messages_part
  split
  · rename_i es hlook
    have hes := good_node_refs n₀ h₀ h a' (.dict es) hg ha hlook
    split
    · rename_i amsgs hmsgs
      have hams : n₀ ≤ amsgs := hes (.ref amsgs) (dget_mem es "messages" _ hmsgs) amsgs rfl
      split
      · rename_i msgs hlook₂
        have hms := good_node_refs n₀ h₀ h amsgs (.arr msgs) hg hams hlook₂
        refine foldl_good n₀ h₀ _ msgs ?_ h hg
        intro hh m hm hgh
        exact redact_message_good n₀ h₀ testing hh m hgh (fun a₂ ha₂ => hms m hm a₂ ha₂)
      · exact hg
    · exact hg
  · exact hg

lemma body_system_part_good (n₀ : ℕ) (h₀ : Heap) (testing : Bool) (h : Heap)
    (a' : ℕ) (hg : Good n₀ h₀ h) (ha : n₀ ≤ a') :
    Good n₀ h₀ (body_system_part testing h a') := by
  unfold body_system_part
  split
  · rename_i es hlook
    split
    · split
      · exact hg
      · refine good_hset n₀ h₀ h a' _ hg ha ?_
        have hes := good_node_refs n₀ h₀ h a' (.dict es) hg ha hlook
        exact dset_vals es "system" (.str "[SYSTEM PROMPT REDACTED]") _ hes
          (fun a₂ hh => PyVal.noConfusion hh)
    · exact hg
  · exact hg

lemma sanitize_body_spec (n₀ : ℕ) (h₀ : Heap) (testing log_tokens : Bool)
    (loads : Heap → String → Option (Heap × PyVal)) (dumps : Heap → PyVal → String)
    (hloads : ∀ hh s hh' w, Good n₀ h₀ hh → loads hh s = some (hh', w) →
      Good n₀ h₀ hh' ∧ ∀ a, w = PyVal.ref a → n₀ ≤ a) :
    ∀ fuel h v h' v', Good n₀ h₀ h →
      sanitize_body testing log_tokens loads dumps fuel h v = some (h', v') →
      Good n₀ h₀ h' := by
  intro fuel
  induction fuel using Nat.strong_induction_on with
  | _ fuel ihf =>
    intro h v h' v' hg hs
    rw [sanitize_body] at hs
    split at hs
    · rw [← (some_pair_inj hs).1]
      exact hg
    · split at hs
      · exact Option.noConfusion hs
      · rename_i h₁ sanitized hdc
        obtain ⟨hg₁, hrefs₁⟩ := deepcopy1_spec n₀ h₀ fuel h v h₁ sanitized hg hdc
        split at hs
        · -- debug branch (LOG_TOKENS set)
          split at hs
          · rename_i a'
            have ha' : n₀ ≤ a' := hrefs₁ a' rfl
            split at hs
            · split at hs
              · rename_i h₃ hbp
                rw [← (some_pair_inj hs).1]
                exact body_headers_part_good n₀ h₀ testing fuel _ a' h₃
                  (body_fields_loop_good n₀ h₀ h₁ a' hg₁ ha') ha' hbp
              · exact Option.noConfusion hs
            · rw [← (some_pair_inj hs).1]
              exact hg₁
          · rename_i s
            split at hs
            · dsimp only at hs
              split at hs
              · exact Option.noConfusion hs
              · rw [← (some_pair_inj hs).1]
                exact hg₁
            · rename_i fuel'
              dsimp only at hs
              split at hs
              · split at hs
                · rename_i h₂ jv hld
                  obtain ⟨hg₂, hrefs₂⟩ := hloads h₁ _ h₂ jv hg₁ hld
                  split at hs
                  · rename_i aj
                    split at hs
                    · split at hs
                      · rename_i h₃ jv' hrec
                        rw [← (some_pair_inj hs).1]
                        exact ihf fuel' (by omega) h₂ _ h₃ jv' hg₂ hrec
                      · rw [← (some_pair_inj hs).1]
                        exact hg₂
                    · rw [← (some_pair_inj hs).1]
                      exact hg₂
                  · rw [← (some_pair_inj hs).1]
                    exact hg₂
                · rw [← (some_pair_inj hs).1]
                  exact hg₁
              · rw [← (some_pair_inj hs).1]
                exact hg₁
          · rw [← (some_pair_inj hs).1]
            exact hg₁
        · -- normal branch
          split at hs
          · rename_i a'
            have ha' : n₀ ≤ a' := hrefs₁ a' rfl
            split at hs
            · split at hs
              · rename_i h₃ hbp
                have hg₃ : Good n₀ h₀ h₃ :=
                  body_headers_part_good n₀ h₀ testing fuel _ a' h₃
                    (body_fields_loop_good n₀ h₀ h₁ a' hg₁ ha') ha' hbp
                split at hs
                · rw [← (some_pair_inj hs).1]
                  exact body_system_part_good n₀ h₀ testing _ a'
                    (body_messages_part_good n₀ h₀ testing h₃ a' hg₃ ha') ha'
                · rw [← (some_pair_inj hs).1]
                  exact hg₃
              · exact Option.noConfusion hs
            · rw [← (some_pair_inj hs).1]
              exact hg₁
          · rw [← (some_pair_inj hs).1]
            exact hg₁
          · rw [← (some_pair_inj hs).1]
            exact hg₁

/-- C10: the logger's sanitizers never mutate the caller's objects.
Whatever headers or body value `log_request` / `log_response` hands to
`_sanitize_headers` or `_sanitize_body`, every heap address that existed
before the call (every object of the request or response that is
subsequently forwarded) holds exactly its original contents afterwards:
both sanitizers deep-copy their argument and apply all redactions and
deletions to the copy.  `loads`/`dumps` abstract `json.loads` and
`json.dumps`; `loads` is assumed to allocate fresh objects only, which
is what parsing a string does. -/
theorem C10_sanitizers_preserve_originals :
    ∀ (testing log_tokens : Bool)
      (loads : Heap → String → Option (Heap × PyVal)) (dumps : Heap → PyVal → String)
      (fuel : ℕ) (h : Heap) (v : PyVal) (h' : Heap) (v' : PyVal),
      h.wfP →
      (∀ hh s hh' w, Good h.next h hh → loads hh s = some (hh', w) →
        Good h.next h hh' ∧ ∀ a, w = PyVal.ref a → h.next ≤ a) →
      (sanitize_headers testing fuel h v = some (h', v')
        ∨ sanitize_body testing log_tokens loads dumps fuel h v = some (h', v')) →
      ∀ a, a < h.next → lookup h' a = lookup h a := by
  intro testing log_tokens loads dumps fuel h v h' v' hw hloads hcall
  have hg0 : Good h.next h h := by
    refine ⟨hw, le_rfl, ?_, fun a _ => rfl⟩
    intro a nd ha hl
    rw [lookup_none_of_ge h hw a ha] at hl
    exact Option.noConfusion hl
  rcases hcall with hcall | hcall
  · have hgood := (sanitize_headers_spec h.next h testing fuel h v h' v' hg0 hcall).1
    exact fun a ha => hgood.2.2.2 a ha
  · have hgood := sanitize_body_spec h.next h testing log_tokens loads dumps hloads
      fuel h v h' v' hg0 hcall
    exact fun a ha => hgood.2.2.2 a ha

theorem C10_sanitizers_preserve_originals_witness :
    (⟨[(0, PyNode.dict [("authorization", PyVal.str "sk-abc")])], 1⟩ : Heap).wfP
    ∧ lookup (⟨[(1, PyNode.dict [("authorization", PyVal.str "[REDACTED]")]),
          (0, PyNode.dict [("authorization", PyVal.str "sk-abc")])], 2⟩ : Heap) 0
      = lookup (⟨[(0, PyNode.dict [("authorization", PyVal.str "sk-abc")])], 1⟩ : Heap) 0 := by
  constructor
  · intro p hp
    simp only [List.mem_singleton] at hp
    rw [hp]
    decide
  · exact C10_sanitizers_preserve_originals false false
      (fun _ _ => Option.none) (fun _ _ => "") 8
      ⟨[(0, PyNode.dict [("authorization", PyVal.str "sk-abc")])], 1⟩ (.ref 0)
      ⟨[(1, PyNode.dict [("authorization", PyVal.str "[REDACTED]")]),
        (0, PyNode.dict [("authorization", PyVal.str "sk-abc")])], 2⟩ (.ref 1)
      (by intro p hp; simp only [List.mem_singleton] at hp; rw [hp]; decide)
      (fun hh s hh' w _ hl => Option.noConfusion hl)
      (Or.inl (by decide))
      0 (by decide)

end ApiFirewall
